import Mathlib

/-!
# GengarDB storage core — verification of the natural-language specification

This file shallowly embeds the storage core of GengarDB (paged storage with
CRC32 integrity checking, a slotted-page record layout, a heap file, and an
on-disk B-tree index) into Lean 4 and settles the frozen claims about it.

Conventions of the embedding:

* Go byte arrays become `List Nat` whose elements are byte values; machine
  integers become `Nat` with explicit `% 2^w` where Go performs a narrowing
  conversion.
* Functions that can fail (error returns) yield `Except`; Go runtime panics
  from out-of-range slice indexing are modelled as a dedicated error value
  (`sliceOob` and friends), surfaced at the same program point at which the
  Go code would panic.
* The byte-level page codec (`writePage` / `readPage` over a random-access
  byte file) is modelled in full, including the CRC32/IEEE checksum.
* The heap file and the B-tree operate on the page store through the codec;
  those layers are modelled over the list of decoded pages (a successful
  read returns the last successfully written page, which is exactly the
  observable guarantee proved for the codec).
-/

set_option maxHeartbeats 4000000

namespace GengarDB

/-! ## Byte-level primitives

`readBytes d off n` is Go's `d[off : off+n]` for an in-range slice;
`writeBytes d off src` is Go's `copy(d[off:], src)`: it copies
`min (len src) (len d − off)` bytes and never changes the length of `d`.
-/

def readBytes (d : List Nat) (off n : Nat) : List Nat := (d.drop off).take n

def writeBytes (d : List Nat) (off : Nat) (src : List Nat) : List Nat :=
  d.take off ++ (src.take (d.length - off) ++ d.drop (off + src.length))

/-- `n` little-endian bytes of the value `v`. -/
def toLE : Nat → Nat → List Nat
  | 0, _ => []
  | n + 1, v => v % 256 :: toLE n (v / 256)

/-- The value of a little-endian byte list. -/
def fromLE : List Nat → Nat
  | [] => 0
  | b :: bs => b + 256 * fromLE bs

/-- Little-endian encoding of a 16-bit value (`binary.LittleEndian.PutUint16`). -/
def u16LE (v : Nat) : List Nat := toLE 2 v

/-- Little-endian encoding of a 32-bit value (`binary.LittleEndian.PutUint32`). -/
def u32LE (v : Nat) : List Nat := toLE 4 v

/-- Little-endian encoding of a 64-bit value (`binary.LittleEndian.PutUint64`). -/
def u64LE (v : Nat) : List Nat := toLE 8 v

/-- `binary.LittleEndian.Uint16(d[off:off+2])`. -/
def getU16 (d : List Nat) (off : Nat) : Nat := fromLE (readBytes d off 2)

/-- `binary.LittleEndian.Uint32(d[off:off+4])`. -/
def getU32 (d : List Nat) (off : Nat) : Nat := fromLE (readBytes d off 4)

/-- `binary.LittleEndian.Uint64(d[off:off+8])`. -/
def getU64 (d : List Nat) (off : Nat) : Nat := fromLE (readBytes d off 8)

theorem toLE_length (n v : Nat) : (toLE n v).length = n := by
  induction n generalizing v with
  | zero => rfl
  | succ n ih => simp [toLE, ih]

theorem fromLE_toLE (n v : Nat) : fromLE (toLE n v) = v % 256 ^ n := by
  induction n generalizing v with
  | zero => simp [toLE, fromLE, Nat.mod_one]
  | succ n ih =>
    simp only [toLE, fromLE, ih]
    rw [pow_succ', Nat.mod_mul]

theorem toLE_lt (n v : Nat) : ∀ b ∈ toLE n v, b < 256 := by
  induction n generalizing v with
  | zero => simp [toLE]
  | succ n ih =>
    intro b hb
    simp only [toLE, List.mem_cons] at hb
    rcases hb with h | h
    · omega
    · exact ih _ _ h

theorem writeBytes_length (d : List Nat) (off : Nat) (src : List Nat) :
    (writeBytes d off src).length = d.length := by
  unfold writeBytes
  simp only [List.length_append, List.length_take, List.length_drop]
  omega

theorem readBytes_length (d : List Nat) (off n : Nat) :
    (readBytes d off n).length = min n (d.length - off) := by
  unfold readBytes
  simp [List.length_take, List.length_drop]

theorem getD_take (l : List Nat) (n i : Nat) :
    (l.take n).getD i 0 = if i < n then l.getD i 0 else 0 := by
  simp only [List.getD_eq_getElem?_getD, List.getElem?_take]
  split <;> simp

theorem getD_drop (l : List Nat) (n i : Nat) :
    (l.drop n).getD i 0 = l.getD (n + i) 0 := by
  simp [List.getD_eq_getElem?_getD, List.getElem?_drop]

theorem getD_of_length_le (l : List Nat) (i : Nat) (h : l.length ≤ i) :
    l.getD i 0 = 0 := by
  simp [List.getD_eq_getElem?_getD, List.getElem?_eq_none h]

/-- Bytes of a `writeBytes` result, position by position. -/
theorem writeBytes_getD (d : List Nat) (off : Nat) (src : List Nat) (i : Nat) :
    (writeBytes d off src).getD i 0 =
      if off ≤ i ∧ i < off + src.length ∧ i < d.length then src.getD (i - off) 0
      else d.getD i 0 := by
  unfold writeBytes
  by_cases hd : i < d.length
  · by_cases h1 : i < off
    · rw [List.getD_append]
      · rw [getD_take, if_pos h1, if_neg (by omega)]
      · simp only [List.length_take]; omega
    · push_neg at h1
      have hofl : off ≤ d.length := le_trans h1 (le_of_lt hd)
      have hlt : (d.take off).length = off := by
        simp [List.length_take, min_eq_left hofl]
      by_cases h2 : i < off + src.length
      · rw [List.getD_append_right _ _ _ _ (by rw [hlt]; omega), List.getD_append]
        · rw [hlt, getD_take, if_pos (by omega), if_pos (by omega)]
        · rw [hlt]
          simp only [List.length_take]
          omega
      · push_neg at h2
        rw [List.getD_append_right _ _ _ _ (by rw [hlt]; omega),
            List.getD_append_right _ _ _ _ (by simp only [hlt, List.length_take]; omega)]
        rw [if_neg (by omega), hlt]
        simp only [List.length_take]
        rw [getD_drop]
        congr 1
        omega
  · push_neg at hd
    rw [if_neg (by omega)]
    have hw : (writeBytes d off src).length = d.length := writeBytes_length d off src
    unfold writeBytes at hw
    rw [getD_of_length_le _ _ (by omega), getD_of_length_le _ _ hd]

/-- Two byte lists of the same length agree when they agree pointwise. -/
theorem eq_of_getD (a b : List Nat) (hl : a.length = b.length)
    (h : ∀ i, i < a.length → a.getD i 0 = b.getD i 0) : a = b := by
  apply List.ext_getElem hl
  intro i h1 h2
  have := h i h1
  rwa [List.getD_eq_getElem _ _ h1, List.getD_eq_getElem _ _ h2] at this

theorem readBytes_getD (d : List Nat) (off n i : Nat) :
    (readBytes d off n).getD i 0 = if i < n then d.getD (off + i) 0 else 0 := by
  unfold readBytes
  rw [getD_take]
  split
  · rw [getD_drop]
  · rfl

theorem getD_append' (a b : List Nat) (i : Nat) :
    (a ++ b).getD i 0 = if i < a.length then a.getD i 0 else b.getD (i - a.length) 0 := by
  split
  · exact List.getD_append _ _ _ _ (by assumption)
  · exact List.getD_append_right _ _ _ _ (by omega)

/-- Reading back exactly the bytes just written. -/
theorem readBytes_writeBytes (d : List Nat) (off : Nat) (src : List Nat)
    (h : off + src.length ≤ d.length) :
    readBytes (writeBytes d off src) off src.length = src := by
  apply eq_of_getD
  · rw [readBytes_length, writeBytes_length]; omega
  · intro i hi
    rw [readBytes_length, writeBytes_length] at hi
    rw [readBytes_getD, writeBytes_getD, if_pos (by omega), if_pos (by omega)]
    congr 1
    omega

/-- A read of a region disjoint from a write is unchanged. -/
theorem readBytes_writeBytes_disjoint (d : List Nat) (off : Nat) (src : List Nat)
    (off' n : Nat) (h : off' + n ≤ off ∨ off + src.length ≤ off') :
    readBytes (writeBytes d off src) off' n = readBytes d off' n := by
  apply eq_of_getD
  · rw [readBytes_length, readBytes_length, writeBytes_length]
  · intro i hi
    rw [readBytes_getD, readBytes_getD]
    split
    · rw [writeBytes_getD, if_neg (by omega)]
    · rfl

theorem fromLE_readBytes_writeBytes_toLE (d : List Nat) (off v n : Nat)
    (h : off + n ≤ d.length) :
    fromLE (readBytes (writeBytes d off (toLE n v)) off n) = v % 256 ^ n := by
  have hl := toLE_length n v
  have hr := readBytes_writeBytes d off (toLE n v) (by rw [hl]; omega)
  rw [hl] at hr
  rw [hr, fromLE_toLE]

theorem getU16_writeBytes_u16LE (d : List Nat) (off v : Nat) (h : off + 2 ≤ d.length) :
    getU16 (writeBytes d off (u16LE v)) off = v % 65536 := by
  unfold getU16 u16LE
  rw [fromLE_readBytes_writeBytes_toLE d off v 2 h]
  norm_num

theorem getU32_writeBytes_u32LE (d : List Nat) (off v : Nat) (h : off + 4 ≤ d.length) :
    getU32 (writeBytes d off (u32LE v)) off = v % 4294967296 := by
  unfold getU32 u32LE
  rw [fromLE_readBytes_writeBytes_toLE d off v 4 h]
  norm_num

theorem getU64_writeBytes_u64LE (d : List Nat) (off v : Nat) (h : off + 8 ≤ d.length) :
    getU64 (writeBytes d off (u64LE v)) off = v % 18446744073709551616 := by
  unfold getU64 u64LE
  rw [fromLE_readBytes_writeBytes_toLE d off v 8 h]
  norm_num

/-! ## CRC32/IEEE (`hash/crc32.ChecksumIEEE`)

Go's `crc32.ChecksumIEEE(data)` computes, bit by bit, the standard reflected
CRC-32 with polynomial `0xEDB88320`: the running register starts at
`0xFFFFFFFF`, each input byte is xor-ed into its low 8 bits followed by eight
shift-and-conditionally-xor steps, and the final register is inverted.  The
table in `hash/crc32` is just a memoisation of `crcStep8`.
-/

def crcPoly : Nat := 0xEDB88320

/-- One bit of the CRC32 shift register update. -/
def crcStep1 (c : Nat) : Nat := if c % 2 = 1 then c / 2 ^^^ crcPoly else c / 2

/-- Eight register bits: the per-byte update (one entry of the crc32 table). -/
def crcStep8 (c : Nat) : Nat :=
  crcStep1 (crcStep1 (crcStep1 (crcStep1 (crcStep1 (crcStep1 (crcStep1 (crcStep1 c)))))))

/-- Absorb one byte into the running CRC register. -/
def crcUpdate (c b : Nat) : Nat := crcStep8 (c ^^^ b)

/-- `crc32.ChecksumIEEE`. -/
def checksumIEEE (data : List Nat) : Nat :=
  (data.foldl crcUpdate 0xFFFFFFFF) ^^^ 0xFFFFFFFF

theorem crcStep1_lt (c : Nat) (h : c < 4294967296) : crcStep1 c < 4294967296 := by
  unfold crcStep1
  split
  · exact Nat.xor_lt_two_pow (n := 32) (by omega) (by norm_num [crcPoly])
  · omega

/-- Explicit inverse of one CRC bit step on 32-bit values. -/
def crcInv1 (d : Nat) : Nat :=
  if d.testBit 31 then (d ^^^ crcPoly) * 2 + 1 else d * 2

theorem crcInv1_crcStep1 (c : Nat) (h : c < 4294967296) : crcInv1 (crcStep1 c) = c := by
  have hhalf : c / 2 < 2 ^ 31 := by omega
  have hbit : (c / 2).testBit 31 = false := Nat.testBit_eq_false_of_lt hhalf
  unfold crcStep1 crcInv1
  by_cases hodd : c % 2 = 1
  · rw [if_pos hodd]
    have : (c / 2 ^^^ crcPoly).testBit 31 = true := by
      rw [Nat.testBit_xor, hbit]
      decide
    rw [if_pos this, Nat.xor_cancel_right]
    omega
  · rw [if_neg hodd, if_neg (by simp [hbit])]
    omega

theorem crcStep1_inj (a b : Nat) (ha : a < 4294967296) (hb : b < 4294967296)
    (h : crcStep1 a = crcStep1 b) : a = b := by
  have := crcInv1_crcStep1 a ha
  rw [h, crcInv1_crcStep1 b hb] at this
  exact this.symm

theorem crcStep8_lt (c : Nat) (h : c < 4294967296) : crcStep8 c < 4294967296 := by
  unfold crcStep8
  iterate 8 apply crcStep1_lt
  exact h

theorem crcStep8_inj (a b : Nat) (ha : a < 4294967296) (hb : b < 4294967296)
    (h : crcStep8 a = crcStep8 b) : a = b := by
  unfold crcStep8 at h
  have ha1 := crcStep1_lt _ ha
  have ha2 := crcStep1_lt _ ha1
  have ha3 := crcStep1_lt _ ha2
  have ha4 := crcStep1_lt _ ha3
  have ha5 := crcStep1_lt _ ha4
  have ha6 := crcStep1_lt _ ha5
  have ha7 := crcStep1_lt _ ha6
  have hb1 := crcStep1_lt _ hb
  have hb2 := crcStep1_lt _ hb1
  have hb3 := crcStep1_lt _ hb2
  have hb4 := crcStep1_lt _ hb3
  have hb5 := crcStep1_lt _ hb4
  have hb6 := crcStep1_lt _ hb5
  have hb7 := crcStep1_lt _ hb6
  exact crcStep1_inj _ _ ha hb (crcStep1_inj _ _ ha1 hb1 (crcStep1_inj _ _ ha2 hb2
    (crcStep1_inj _ _ ha3 hb3 (crcStep1_inj _ _ ha4 hb4 (crcStep1_inj _ _ ha5 hb5
      (crcStep1_inj _ _ ha6 hb6 (crcStep1_inj _ _ ha7 hb7 h)))))))

theorem crcUpdate_lt (c b : Nat) (hc : c < 4294967296) (hb : b < 256) :
    crcUpdate c b < 4294967296 := by
  unfold crcUpdate
  exact crcStep8_lt _ (Nat.xor_lt_two_pow (n := 32) hc (by omega))

theorem crcUpdate_inj_byte (c b b' : Nat) (hc : c < 4294967296) (hb : b < 256)
    (hb' : b' < 256) (h : crcUpdate c b = crcUpdate c b') : b = b' := by
  unfold crcUpdate at h
  have := crcStep8_inj _ _ (Nat.xor_lt_two_pow (n := 32) hc (by omega))
    (Nat.xor_lt_two_pow (n := 32) hc (by omega)) h
  exact Nat.xor_right_inj.mp this

theorem crcUpdate_inj_state (c c' b : Nat) (hc : c < 4294967296) (hc' : c' < 4294967296)
    (hb : b < 256) (h : crcUpdate c b = crcUpdate c' b) : c = c' := by
  unfold crcUpdate at h
  have := crcStep8_inj _ _ (Nat.xor_lt_two_pow (n := 32) hc (by omega))
    (Nat.xor_lt_two_pow (n := 32) hc' (by omega)) h
  exact Nat.xor_left_inj.mp this

theorem crcFoldl_lt (l : List Nat) (c : Nat) (hl : ∀ b ∈ l, b < 256)
    (hc : c < 4294967296) : l.foldl crcUpdate c < 4294967296 := by
  induction l generalizing c with
  | nil => exact hc
  | cons b bs ih =>
    simp only [List.foldl_cons]
    exact ih _ (fun x hx => hl x (List.mem_cons_of_mem _ hx))
      (crcUpdate_lt _ _ hc (hl b (List.mem_cons_self _ _)))

theorem crcFoldl_inj (l : List Nat) (c c' : Nat) (hl : ∀ b ∈ l, b < 256)
    (hc : c < 4294967296) (hc' : c' < 4294967296)
    (h : l.foldl crcUpdate c = l.foldl crcUpdate c') : c = c' := by
  induction l generalizing c c' with
  | nil => exact h
  | cons b bs ih =>
    simp only [List.foldl_cons] at h
    have hb : b < 256 := hl b (List.mem_cons_self _ _)
    have := ih _ _ (fun x hx => hl x (List.mem_cons_of_mem _ hx))
      (crcUpdate_lt _ _ hc hb) (crcUpdate_lt _ _ hc' hb) h
    exact crcUpdate_inj_state _ _ _ hc hc' hb this

/-- CRC32 is sensitive to every single-byte change of its input. -/
theorem checksumIEEE_ne_of_byte_ne (pre suf : List Nat) (b b' : Nat)
    (hpre : ∀ x ∈ pre, x < 256) (hsuf : ∀ x ∈ suf, x < 256)
    (hb : b < 256) (hb' : b' < 256) (hne : b ≠ b') :
    checksumIEEE (pre ++ b :: suf) ≠ checksumIEEE (pre ++ b' :: suf) := by
  intro h
  unfold checksumIEEE at h
  rw [Nat.xor_left_inj] at h
  rw [List.foldl_append, List.foldl_append] at h
  simp only [List.foldl_cons] at h
  have hs : pre.foldl crcUpdate 0xFFFFFFFF < 4294967296 :=
    crcFoldl_lt pre _ hpre (by norm_num)
  have := crcFoldl_inj suf _ _ hsuf (crcUpdate_lt _ _ hs hb) (crcUpdate_lt _ _ hs hb') h
  exact hne (crcUpdate_inj_byte _ _ _ hs hb hb' this)

/-! ## Page codec and file-backed page store (`pkg/storage/page.go`)

A `ByteFile` models the regular file: its current size plus a byte at every
offset; `writeAt` is `File.WriteAt` (which extends the size past the written
region) and `readAt` is `File.ReadAt` (which fails past end of file).
-/

def PageSize : Nat := 4096

def HeaderSize : Nat := 10

def PayloadSize : Nat := PageSize - HeaderSize

inductive StorageErr where
  | dataTooLarge
  | checksumMismatch
  | noSpace
  | slotDeleted
  | badSlotID
  | io
  | sliceOob
deriving DecidableEq

structure Page where
  id : Nat
  checksum : Nat
  dataSize : Nat
  data : List Nat
deriving DecidableEq

/-- `Page.ComputeChecksum`: CRC32/IEEE over `Data[:DataSize]`. -/
def Page.computeChecksum (p : Page) : Nat := checksumIEEE (p.data.take p.dataSize)

/-- `Page.SetData`: validate length, copy the bytes in, zero the rest. -/
def Page.setData (p : Page) (b : List Nat) : Except StorageErr Page :=
  if b.length > PayloadSize then .error .dataTooLarge
  else
    .ok { p with
          dataSize := b.length,
          data := writeBytes (writeBytes p.data 0 b) b.length
            (List.replicate (PayloadSize - b.length) 0) }

structure ByteFile where
  size : Nat
  byteAt : Nat → Nat

def ByteFile.writeAt (f : ByteFile) (off : Nat) (buf : List Nat) : ByteFile :=
  { size := max f.size (off + buf.length),
    byteAt := fun i =>
      if off ≤ i ∧ i < off + buf.length then buf.getD (i - off) 0 else f.byteAt i }

def ByteFile.readAt (f : ByteFile) (off n : Nat) : Except StorageErr (List Nat) :=
  if off + n ≤ f.size then .ok ((List.range n).map fun i => f.byteAt (off + i))
  else .error .io

/-- `pageOffset`: page `i` lives at byte offset `i·PageSize`. -/
def pageOffset (id : Nat) : Nat := id * PageSize

/-- The `PageSize` buffer that `WritePage` serializes: id, checksum and data
size little-endian at offsets 0, 4 and 8, payload bytes from offset 10. -/
def pageBuf (p : Page) : List Nat :=
  writeBytes (writeBytes (writeBytes (writeBytes (List.replicate PageSize 0)
    0 (u32LE p.id)) 4 (u32LE p.computeChecksum)) 8 (u16LE p.dataSize)) HeaderSize p.data

/-- `WritePage`: validate, stamp the checksum, serialize header + payload into a
`PageSize` buffer and write it at the page's offset.  Returns the page as
mutated by the call (Go updates `p.Checksum` through the pointer). -/
def writePage (f : ByteFile) (p : Page) : Except StorageErr (Page × ByteFile) :=
  if p.dataSize > PayloadSize then .error .dataTooLarge
  else
    .ok ({ p with checksum := p.computeChecksum },
      f.writeAt (pageOffset p.id) (pageBuf p))

/-- `ReadPage`: read the raw page, parse the header, verify the checksum. -/
def readPage (f : ByteFile) (id : Nat) : Except StorageErr Page := do
  let buf ← f.readAt (pageOffset id) PageSize
  let p : Page :=
    { id := getU32 buf 0,
      checksum := getU32 buf 4,
      dataSize := getU16 buf 8,
      data := readBytes buf HeaderSize PayloadSize }
  if p.computeChecksum ≠ p.checksum then .error .checksumMismatch else .ok p

/-- External single-byte corruption of the stored file (outside any API). -/
def corruptByte (f : ByteFile) (pos b : Nat) : ByteFile :=
  { size := f.size, byteAt := fun i => if i = pos then b else f.byteAt i }

theorem u16LE_length (v : Nat) : (u16LE v).length = 2 := toLE_length 2 v

theorem u32LE_length (v : Nat) : (u32LE v).length = 4 := toLE_length 4 v

theorem u64LE_length (v : Nat) : (u64LE v).length = 8 := toLE_length 8 v

theorem checksumIEEE_lt (data : List Nat) (h : ∀ b ∈ data, b < 256) :
    checksumIEEE data < 4294967296 := by
  unfold checksumIEEE
  exact Nat.xor_lt_two_pow (n := 32) (crcFoldl_lt _ _ h (by norm_num)) (by norm_num)

theorem getD_range_map (g : Nat → Nat) (n i : Nat) :
    ((List.range n).map g).getD i 0 = if i < n then g i else 0 := by
  split
  · rw [List.getD_eq_getElem _ _ (by simpa using by assumption)]
    simp
  · exact getD_of_length_le _ _ (by simpa using by omega)

theorem pageBuf_length (p : Page) : (pageBuf p).length = 4096 := by
  unfold pageBuf
  rw [writeBytes_length, writeBytes_length, writeBytes_length, writeBytes_length,
    List.length_replicate]
  rfl

theorem getU32_pageBuf_id (p : Page) : getU32 (pageBuf p) 0 = p.id % 4294967296 := by
  unfold getU32 pageBuf
  rw [readBytes_writeBytes_disjoint _ _ _ _ _ (by left; norm_num [HeaderSize]),
    readBytes_writeBytes_disjoint _ _ _ _ _ (by left; norm_num),
    readBytes_writeBytes_disjoint _ _ _ _ _ (by left; norm_num)]
  have := getU32_writeBytes_u32LE (List.replicate PageSize 0) 0 p.id
    (by rw [List.length_replicate]; norm_num [PageSize])
  unfold getU32 at this
  exact this

theorem getU32_pageBuf_checksum (p : Page) :
    getU32 (pageBuf p) 4 = p.computeChecksum % 4294967296 := by
  unfold getU32 pageBuf
  rw [readBytes_writeBytes_disjoint _ _ _ _ _ (by left; norm_num [HeaderSize]),
    readBytes_writeBytes_disjoint _ _ _ _ _ (by left; norm_num)]
  have := getU32_writeBytes_u32LE (writeBytes (List.replicate PageSize 0) 0 (u32LE p.id))
    4 p.computeChecksum (by rw [writeBytes_length, List.length_replicate]; norm_num [PageSize])
  unfold getU32 at this
  exact this

theorem getU16_pageBuf_dataSize (p : Page) :
    getU16 (pageBuf p) 8 = p.dataSize % 65536 := by
  unfold getU16 pageBuf
  rw [readBytes_writeBytes_disjoint _ _ _ _ _ (by left; norm_num [HeaderSize])]
  have := getU16_writeBytes_u16LE
    (writeBytes (writeBytes (List.replicate PageSize 0) 0 (u32LE p.id)) 4
      (u32LE p.computeChecksum)) 8 p.dataSize
    (by rw [writeBytes_length, writeBytes_length, List.length_replicate]; norm_num [PageSize])
  unfold getU16 at this
  exact this

theorem readBytes_pageBuf_data (p : Page) (hd : p.data.length = 4086) :
    readBytes (pageBuf p) HeaderSize PayloadSize = p.data := by
  unfold pageBuf
  have := readBytes_writeBytes
    (writeBytes (writeBytes (writeBytes (List.replicate PageSize 0) 0 (u32LE p.id)) 4
      (u32LE p.computeChecksum)) 8 (u16LE p.dataSize)) HeaderSize p.data
    (by rw [writeBytes_length, writeBytes_length, writeBytes_length, List.length_replicate, hd]
        norm_num [PageSize, HeaderSize])
  rw [hd] at this
  exact this

theorem readAt_writeAt (f : ByteFile) (off : Nat) (buf : List Nat) :
    (f.writeAt off buf).readAt off buf.length = .ok buf := by
  unfold ByteFile.readAt ByteFile.writeAt
  rw [if_pos (by simp)]
  congr 1
  apply eq_of_getD
  · simp
  · intro i hi
    simp only [List.length_map, List.length_range] at hi
    rw [getD_range_map, if_pos hi]
    simp only []
    rw [if_pos (by omega)]
    congr 1
    omega

theorem readAt_corrupt_writeAt (f : ByteFile) (off : Nat) (buf : List Nat) (k b : Nat)
    (hk : k < buf.length) :
    ((corruptByte (f.writeAt off buf) (off + k) b).readAt off buf.length) =
      .ok (writeBytes buf k [b]) := by
  unfold ByteFile.readAt ByteFile.writeAt corruptByte
  rw [if_pos (by simp)]
  congr 1
  apply eq_of_getD
  · simp [writeBytes_length]
  · intro i hi
    simp only [List.length_map, List.length_range] at hi
    rw [getD_range_map, if_pos hi, writeBytes_getD]
    beta_reduce
    simp only [List.length_cons, List.length_nil]
    by_cases hik : i = k
    · rw [if_pos (show off + i = off + k by omega),
        if_pos (show k ≤ i ∧ i < k + 1 ∧ i < buf.length by omega)]
      have hzero : i - k = 0 := by omega
      rw [hzero]
      rfl
    · rw [if_neg (show ¬ off + i = off + k by omega),
        if_pos (show off ≤ off + i ∧ off + i < off + buf.length by omega),
        if_neg (show ¬ (k ≤ i ∧ i < k + 1 ∧ i < buf.length) by omega)]
      congr 1
      omega

theorem readBytes_writeBytes_inside (d : List Nat) (off n k : Nat) (src : List Nat)
    (hk : off ≤ k) (hkn : k + src.length ≤ off + n) (hn : off + n ≤ d.length) :
    readBytes (writeBytes d k src) off n = writeBytes (readBytes d off n) (k - off) src := by
  apply eq_of_getD
  · rw [readBytes_length, writeBytes_length, writeBytes_length, readBytes_length]
  · intro i hi
    rw [readBytes_length, writeBytes_length] at hi
    rw [readBytes_getD, writeBytes_getD, writeBytes_getD, readBytes_getD,
      readBytes_length]
    by_cases hin : i < n
    · rw [if_pos hin]
      by_cases hir : k ≤ off + i ∧ off + i < k + src.length
      · rw [if_pos (by omega), if_pos (by omega)]
        congr 1
        omega
      · rw [if_neg (by omega), if_neg (by omega), if_pos hin]
    · omega

theorem writeBytes_single (d : List Nat) (k b : Nat) (hk : k < d.length) :
    writeBytes d k [b] = d.take k ++ b :: d.drop (k + 1) := by
  apply eq_of_getD
  · rw [writeBytes_length]
    simp only [List.length_append, List.length_take, List.length_cons, List.length_drop]
    omega
  · intro i hi
    rw [writeBytes_length] at hi
    rw [writeBytes_getD, getD_append']
    simp only [List.length_cons, List.length_nil, List.length_take]
    by_cases hik : i = k
    · subst hik
      rw [if_pos (by omega), if_neg (by omega)]
      simp only [min_eq_left (le_of_lt hk)]
      rw [Nat.sub_self]
      rfl
    · rw [if_neg (by omega)]
      by_cases hlt : i < k
      · rw [if_pos (by omega), getD_take, if_pos hlt]
      · rw [if_neg (by omega)]
        simp only [min_eq_left (le_of_lt hk)]
        have : i - k = (i - k - 1) + 1 := by omega
        rw [this]
        simp only [List.getD_cons_succ]
        rw [getD_drop]
        congr 1
        omega

theorem eq_take_getD_drop (d : List Nat) (k : Nat) (hk : k < d.length) :
    d = d.take k ++ d.getD k 0 :: d.drop (k + 1) := by
  have := writeBytes_single d k (d.getD k 0) hk
  rw [← this]
  apply eq_of_getD
  · rw [writeBytes_length]
  · intro i hi
    rw [writeBytes_getD]
    split
    · next h =>
      have : i = k := by simp at h; omega
      subst this
      simp
    · rfl

theorem getD_replicate_zero (n i : Nat) :
    (List.replicate n (0 : Nat)).getD i 0 = 0 := by
  by_cases h : i < n
  · rw [List.getD_eq_getElem _ _ (by simpa using h)]
    simp
  · exact getD_of_length_le _ _ (by simpa using by omega)

theorem payloadSize_eq : PayloadSize = 4086 := rfl

theorem take_writeBytes_of_le (d : List Nat) (k : Nat) (src : List Nat) (m : Nat)
    (hm : k + src.length ≤ m) (hmd : m ≤ d.length) :
    (writeBytes d k src).take m = writeBytes (d.take m) k src := by
  apply eq_of_getD
  · simp only [List.length_take, writeBytes_length]
  · intro i hi
    simp only [List.length_take, writeBytes_length] at hi
    rw [getD_take, writeBytes_getD, writeBytes_getD, getD_take]
    simp only [List.length_take]
    by_cases him : i < m
    · rw [if_pos him]
      by_cases hir : k ≤ i ∧ i < k + src.length
      · rw [if_pos (by omega), if_pos (by omega)]
      · rw [if_neg (by omega), if_neg (by omega), if_pos him]
    · omega

/-- `SetData` with a fitting payload yields the payload padded with zeros. -/
theorem setData_eq (p : Page) (b : List Nat) (hd : p.data.length = 4086)
    (hb : b.length ≤ 4086) :
    p.setData b = .ok { p with
      dataSize := b.length,
      data := b ++ List.replicate (4086 - b.length) 0 } := by
  unfold Page.setData
  rw [if_neg (by rw [payloadSize_eq]; omega)]
  have hdata : writeBytes (writeBytes p.data 0 b) b.length
      (List.replicate (PayloadSize - b.length) 0) =
      b ++ List.replicate (4086 - b.length) 0 := by
    apply eq_of_getD
    · rw [writeBytes_length, writeBytes_length, hd]
      simp only [List.length_append, List.length_replicate]
      omega
    · intro i hi
      rw [writeBytes_length, writeBytes_length, hd] at hi
      rw [writeBytes_getD, writeBytes_getD, getD_append']
      simp only [List.length_replicate, writeBytes_length, hd, payloadSize_eq]
      by_cases hib : i < b.length
      · rw [if_neg (by omega), if_pos (by omega), if_pos hib]
        simp
      · rw [if_pos (by omega), if_neg (by omega)]
  rw [hdata]

/-- After a successful `WritePage`, `ReadPage` of the same id returns the page
with the freshly computed checksum and identical id, size and payload. -/
theorem readPage_after_writePage (f : ByteFile) (p : Page)
    (hid : p.id < 4294967296) (hds : p.dataSize ≤ 4086) (hd : p.data.length = 4086)
    (hbytes : ∀ b ∈ p.data, b < 256) :
    writePage f p = .ok ({ p with checksum := p.computeChecksum },
      f.writeAt (pageOffset p.id) (pageBuf p)) ∧
    readPage (f.writeAt (pageOffset p.id) (pageBuf p)) p.id =
      .ok { id := p.id, checksum := p.computeChecksum, dataSize := p.dataSize, data := p.data } := by
  have hck : p.computeChecksum < 4294967296 := by
    apply checksumIEEE_lt
    intro b hmem
    exact hbytes b (List.take_subset _ _ hmem)
  constructor
  · unfold writePage
    rw [if_neg (by rw [payloadSize_eq]; omega)]
  · unfold readPage
    have hra : (f.writeAt (pageOffset p.id) (pageBuf p)).readAt (pageOffset p.id)
        PageSize = .ok (pageBuf p) := by
      have := readAt_writeAt f (pageOffset p.id) (pageBuf p)
      rwa [pageBuf_length] at this
    rw [hra]
    show (if _ ≠ _ then _ else _ : Except StorageErr Page) = _
    rw [getU32_pageBuf_id, getU32_pageBuf_checksum, getU16_pageBuf_dataSize,
      readBytes_pageBuf_data p hd, Nat.mod_eq_of_lt hid, Nat.mod_eq_of_lt hck,
      Nat.mod_eq_of_lt (by omega : p.dataSize < 65536)]
    rw [if_neg (by simp [Page.computeChecksum])]

/-- C5: for every payload byte sequence of length at most 4086 and every page
id, a successful `write_page` of a page holding that payload followed by
`read_page` of the same id yields a page with identical id, identical
`data_size`, and identical first `data_size` payload bytes. -/
theorem page_round_trip (f : ByteFile) (id cs ds : Nat) (d0 payload : List Nat)
    (hid : id < 4294967296) (hd0 : d0.length = 4086)
    (hlen : payload.length ≤ 4086) (hbytes : ∀ b ∈ payload, b < 256) :
    ∃ p1 p2 f' q, Page.setData ⟨id, cs, ds, d0⟩ payload = .ok p1 ∧
      writePage f p1 = .ok (p2, f') ∧ readPage f' id = .ok q ∧
      q.id = id ∧ q.dataSize = payload.length ∧
      q.data.take payload.length = payload := by
  have hset := setData_eq ⟨id, cs, ds, d0⟩ payload hd0 hlen
  have h1 : (payload ++ List.replicate (4086 - payload.length) 0).length = 4086 := by
    simp only [List.length_append, List.length_replicate]
    omega
  have h2 : ∀ b ∈ payload ++ List.replicate (4086 - payload.length) 0, b < 256 := by
    intro b hb
    rcases List.mem_append.mp hb with h | h
    · exact hbytes b h
    · rw [List.eq_of_mem_replicate h]; omega
  obtain ⟨hw, hr⟩ := readPage_after_writePage f
    ⟨id, cs, payload.length, payload ++ List.replicate (4086 - payload.length) 0⟩
    hid hlen h1 h2
  exact ⟨_, _, _, _, hset, hw, hr, rfl, rfl, List.take_left' rfl⟩

theorem page_round_trip_witness :
    ∃ p1 p2 f' q,
      Page.setData ⟨3, 0, 0, List.replicate 4086 0⟩ [104, 105] = .ok p1 ∧
      writePage ⟨0, fun _ => 0⟩ p1 = .ok (p2, f') ∧ readPage f' 3 = .ok q ∧
      q.id = 3 ∧ q.dataSize = [104, 105].length ∧
      q.data.take [104, 105].length = [104, 105] :=
  page_round_trip ⟨0, fun _ => 0⟩ 3 0 0 (List.replicate 4086 0) [104, 105]
    (by norm_num) (by rw [List.length_replicate]) (by norm_num) (by decide)

/-- C6: after a successful `write_page` of a page, changing any single byte of
the stored file inside the covered payload region
`[id·4096 + 10, id·4096 + 10 + data_size)` to any different value makes the
next `read_page(id)` fail with `ChecksumMismatch`. -/
theorem page_checksum_sensitivity (f : ByteFile) (p : Page) (pos b' : Nat)
    (hid : p.id < 4294967296) (hds : p.dataSize ≤ 4086) (hd : p.data.length = 4086)
    (hbytes : ∀ b ∈ p.data, b < 256)
    (hpos : pos < p.dataSize) (hb' : b' < 256) (hneq : b' ≠ p.data.getD pos 0) :
    ∃ p2 f', writePage f p = .ok (p2, f') ∧
      readPage (corruptByte f' (p.id * 4096 + 10 + pos) b') p.id =
        .error .checksumMismatch := by
  obtain ⟨hw, _⟩ := readPage_after_writePage f p hid hds hd hbytes
  refine ⟨_, _, hw, ?_⟩
  have hoffeq : p.id * 4096 + 10 + pos = pageOffset p.id + (10 + pos) := by
    unfold pageOffset PageSize
    omega
  rw [hoffeq]
  unfold readPage
  have hra : (corruptByte (f.writeAt (pageOffset p.id) (pageBuf p))
      (pageOffset p.id + (10 + pos)) b').readAt (pageOffset p.id) PageSize =
      .ok (writeBytes (pageBuf p) (10 + pos) [b']) := by
    have := readAt_corrupt_writeAt f (pageOffset p.id) (pageBuf p) (10 + pos) b'
      (by rw [pageBuf_length]; omega)
    rwa [pageBuf_length] at this
  rw [hra]
  show (if _ ≠ _ then _ else _ : Except StorageErr Page) = _
  have hgu32a : getU32 (writeBytes (pageBuf p) (10 + pos) [b']) 0 =
      getU32 (pageBuf p) 0 := by
    unfold getU32
    rw [readBytes_writeBytes_disjoint _ _ _ _ _ (by left; omega)]
  have hgu32b : getU32 (writeBytes (pageBuf p) (10 + pos) [b']) 4 =
      getU32 (pageBuf p) 4 := by
    unfold getU32
    rw [readBytes_writeBytes_disjoint _ _ _ _ _ (by left; omega)]
  have hgu16 : getU16 (writeBytes (pageBuf p) (10 + pos) [b']) 8 =
      getU16 (pageBuf p) 8 := by
    unfold getU16
    rw [readBytes_writeBytes_disjoint _ _ _ _ _ (by left; omega)]
  have hdata : readBytes (writeBytes (pageBuf p) (10 + pos) [b']) HeaderSize
      PayloadSize = writeBytes p.data pos [b'] := by
    have h10 : HeaderSize = 10 := rfl
    have h4086 : PayloadSize = 4086 := rfl
    rw [h10, h4086]
    have := readBytes_writeBytes_inside (pageBuf p) 10 4086 (10 + pos) [b']
      (by omega) (by simp only [List.length_cons, List.length_nil]; omega)
      (by rw [pageBuf_length])
    have hr := readBytes_pageBuf_data p hd
    rw [h10, h4086] at hr
    rw [hr] at this
    have heq : 10 + pos - 10 = pos := by omega
    rw [heq] at this
    exact this
  rw [hgu32a, hgu32b, hgu16, hdata, getU32_pageBuf_id, getU32_pageBuf_checksum,
    getU16_pageBuf_dataSize]
  have hck : p.computeChecksum < 4294967296 := by
    apply checksumIEEE_lt
    intro b hmem
    exact hbytes b (List.take_subset _ _ hmem)
  rw [Nat.mod_eq_of_lt hck, Nat.mod_eq_of_lt (by omega : p.dataSize < 65536)]
  rw [if_pos ?hcond]
  case hcond =>
    show checksumIEEE ((writeBytes p.data pos [b']).take p.dataSize) ≠ p.computeChecksum
    have hcovlen : (p.data.take p.dataSize).length = p.dataSize := by
      rw [List.length_take]
      omega
    have htake : (writeBytes p.data pos [b']).take p.dataSize =
        writeBytes (p.data.take p.dataSize) pos [b'] :=
      take_writeBytes_of_le p.data pos [b'] p.dataSize
        (by simp only [List.length_cons, List.length_nil]; omega) (by omega)
    have hsingle : writeBytes (p.data.take p.dataSize) pos [b'] =
        (p.data.take p.dataSize).take pos ++ b' ::
          (p.data.take p.dataSize).drop (pos + 1) :=
      writeBytes_single _ _ _ (by rw [hcovlen]; omega)
    have horig : p.data.take p.dataSize =
        (p.data.take p.dataSize).take pos ++ (p.data.take p.dataSize).getD pos 0 ::
          (p.data.take p.dataSize).drop (pos + 1) :=
      eq_take_getD_drop _ _ (by rw [hcovlen]; omega)
    have hgd : (p.data.take p.dataSize).getD pos 0 = p.data.getD pos 0 := by
      rw [getD_take, if_pos hpos]
    rw [htake, hsingle]
    unfold Page.computeChecksum
    conv_rhs => rw [horig, hgd]
    apply checksumIEEE_ne_of_byte_ne
    · intro x hx
      exact hbytes x (List.take_subset _ _ (List.take_subset _ _ hx))
    · intro x hx
      exact hbytes x (List.take_subset _ _ (List.drop_subset _ _ hx))
    · exact hb'
    · refine hbytes _ ?_
      rw [List.getD_eq_getElem _ _ (by omega)]
      exact List.getElem_mem _
    · exact hneq

theorem page_checksum_sensitivity_witness :
    ∃ p2 f',
      writePage ⟨0, fun _ => 0⟩ ⟨7, 0, 2, 9 :: 8 :: List.replicate 4084 0⟩ = .ok (p2, f') ∧
      readPage (corruptByte f' (7 * 4096 + 10 + 0) 1) 7 = .error .checksumMismatch :=
  page_checksum_sensitivity ⟨0, fun _ => 0⟩ ⟨7, 0, 2, 9 :: 8 :: List.replicate 4084 0⟩ 0 1
    (by norm_num) (by norm_num)
    (by rw [List.length_cons, List.length_cons, List.length_replicate])
    (by
      intro b hb
      simp only [List.mem_cons] at hb
      rcases hb with rfl | rfl | hb
      · norm_num
      · norm_num
      · rw [List.eq_of_mem_replicate hb]; norm_num)
    (by norm_num) (by norm_num) (by decide)

/-! ## Slotted page overlay (`pkg/storage/slotted.go`)

`SlottedPage` in Go is a pointer wrapper around a `Page`; its methods are
modelled as functions from `Page` to (result ×) `Page`.  Go's `int` arithmetic
in `freeSpace`/`slotPos` is modelled with `Int`; a slice-indexing panic is the
`sliceOob` error.
-/

def spHeaderSize : Nat := 6

def slotEntrySize : Nat := 4

/-- `RID` identifies a record within the heap file (`PageID : u32`, `SlotID : u16`). -/
structure RID where
  pageID : Nat
  slotID : Nat
deriving DecidableEq

/-- `SlottedPage.header`: `(slotCount, freeStart, freeEnd)`, little-endian u16s
at payload offsets 0, 2, 4. -/
def SlottedPage.header (p : Page) : Nat × Nat × Nat :=
  (getU16 p.data 0, getU16 p.data 2, getU16 p.data 4)

/-- `SlottedPage.setHeader`: store the three header fields and re-cover the
whole payload with the checksum (`DataSize = PayloadSize`). -/
def SlottedPage.setHeader (p : Page) (slotCount freeStart freeEnd : Nat) : Page :=
  { p with
    data := writeBytes (writeBytes (writeBytes p.data 0 (u16LE slotCount)) 2
      (u16LE freeStart)) 4 (u16LE freeEnd),
    dataSize := PayloadSize }

/-- `SlottedPage.InitIfFresh`. -/
def SlottedPage.initIfFresh (p : Page) : Page :=
  match SlottedPage.header p with
  | (sc, fs, fe) =>
    let p1 := if sc = 0 ∧ fs = 0 ∧ fe = 0 then
      SlottedPage.setHeader p 0 spHeaderSize PayloadSize else p
    if p1.dataSize = 0 then { p1 with dataSize := PayloadSize } else p1

/-- `SlottedPage.freeSpace` (Go `int`: may be negative under corruption). -/
def SlottedPage.freeSpace (p : Page) : Int :=
  ((SlottedPage.header p).2.2 : Int) - ((SlottedPage.header p).2.1 : Int) -
    ((SlottedPage.header p).1 : Int) * (slotEntrySize : Int)

/-- `slotPos`: byte position of slot `index`, growing backward from the end. -/
def slotPos (index : Nat) : Int :=
  (PayloadSize : Int) - ((index : Int) + 1) * (slotEntrySize : Int)

/-- `SlottedPage.getSlot`: bounds-checked read of a slot entry. -/
def SlottedPage.getSlot (p : Page) (i : Nat) : Except StorageErr (Nat × Nat) :=
  if i ≥ (SlottedPage.header p).1 then .error .badSlotID
  else if slotPos i < 0 then .error .sliceOob
  else
    .ok (getU16 p.data (slotPos i).toNat, getU16 p.data ((slotPos i).toNat + 2))

/-- `SlottedPage.setSlot`: write a slot entry (panics on a negative position). -/
def SlottedPage.setSlot (p : Page) (i off ln : Nat) : Except StorageErr Page :=
  if slotPos i < 0 then .error .sliceOob
  else
    .ok { p with
      data := writeBytes (writeBytes p.data (slotPos i).toNat (u16LE off))
        ((slotPos i).toNat + 2) (u16LE ln) }

/-- `SlottedPage.Insert`: append a record and its slot entry.  Returns the
error-or-slot-id together with the page as left by the call (Go mutates the
page through the pointer even on a panic path). -/
def SlottedPage.insert (p : Page) (rec : List Nat) : Except StorageErr Nat × Page :=
  if rec.length > 0xFFFF then (.error .dataTooLarge, p)
  else if SlottedPage.freeSpace p < ((rec.length + slotEntrySize : Nat) : Int) then
    (.error .noSpace, p)
  else if (SlottedPage.header p).2.1 > PayloadSize then (.error .sliceOob, p)
  else
    match SlottedPage.setSlot
        { p with data := writeBytes p.data (SlottedPage.header p).2.1 rec }
        (SlottedPage.header p).1 (SlottedPage.header p).2.1 rec.length with
    | .error e => (.error e,
        { p with data := writeBytes p.data (SlottedPage.header p).2.1 rec })
    | .ok p2 =>
      (.ok (SlottedPage.header p).1, SlottedPage.setHeader p2
        ((SlottedPage.header p).1 + 1) ((SlottedPage.header p).2.1 + rec.length)
        ((SlottedPage.header p).2.2 + 65536 - slotEntrySize))

/-- `SlottedPage.Read`: defensive copy of the record bytes for slot `i`. -/
def SlottedPage.read (p : Page) (i : Nat) : Except StorageErr (List Nat) := do
  let (off, ln) ← SlottedPage.getSlot p i
  if ln = 0 then .error .slotDeleted
  else if off + ln > PayloadSize then .error .sliceOob
  else .ok (readBytes p.data off ln)

/-- `SlottedPage.Delete`: clear the slot's length, keep its offset. -/
def SlottedPage.delete (p : Page) (i : Nat) : Except StorageErr Page :=
  match SlottedPage.getSlot p i with
  | .error e => .error e
  | .ok (off, _) => SlottedPage.setSlot p i off 0

theorem header_setHeader (p : Page) (sc fs fe : Nat) (hd : p.data.length = 4086) :
    SlottedPage.header (SlottedPage.setHeader p sc fs fe) =
      (sc % 65536, fs % 65536, fe % 65536) := by
  unfold SlottedPage.header SlottedPage.setHeader
  simp only []
  have h1 : getU16 (writeBytes (writeBytes (writeBytes p.data 0 (u16LE sc)) 2
      (u16LE fs)) 4 (u16LE fe)) 0 = sc % 65536 := by
    unfold getU16
    rw [readBytes_writeBytes_disjoint _ _ _ _ _ (by left; omega),
      readBytes_writeBytes_disjoint _ _ _ _ _ (by left; omega)]
    exact getU16_writeBytes_u16LE p.data 0 sc (by omega)
  have h2 : getU16 (writeBytes (writeBytes (writeBytes p.data 0 (u16LE sc)) 2
      (u16LE fs)) 4 (u16LE fe)) 2 = fs % 65536 := by
    unfold getU16
    rw [readBytes_writeBytes_disjoint _ _ _ _ _ (by left; omega)]
    exact getU16_writeBytes_u16LE _ 2 fs (by rw [writeBytes_length]; omega)
  have h3 : getU16 (writeBytes (writeBytes (writeBytes p.data 0 (u16LE sc)) 2
      (u16LE fs)) 4 (u16LE fe)) 4 = fe % 65536 := by
    exact getU16_writeBytes_u16LE _ 4 fe (by rw [writeBytes_length, writeBytes_length]; omega)
  rw [h1, h2, h3]

theorem setHeader_data_length (p : Page) (sc fs fe : Nat) :
    (SlottedPage.setHeader p sc fs fe).data.length = p.data.length := by
  unfold SlottedPage.setHeader
  simp only [writeBytes_length]

theorem header_of_data_eq (p q : Page) (h : p.data = q.data) :
    SlottedPage.header p = SlottedPage.header q := by
  unfold SlottedPage.header
  rw [h]

theorem initIfFresh_of_fresh (p : Page) (h : SlottedPage.header p = (0, 0, 0)) :
    SlottedPage.initIfFresh p = SlottedPage.setHeader p 0 spHeaderSize PayloadSize := by
  unfold SlottedPage.initIfFresh
  rw [h]
  show (if (SlottedPage.setHeader p 0 spHeaderSize PayloadSize).dataSize = 0
      then { SlottedPage.setHeader p 0 spHeaderSize PayloadSize with dataSize := PayloadSize }
      else SlottedPage.setHeader p 0 spHeaderSize PayloadSize) = _
  rw [if_neg (by unfold SlottedPage.setHeader; simp [payloadSize_eq])]

theorem initIfFresh_of_stale (p : Page) (h : SlottedPage.header p ≠ (0, 0, 0)) :
    SlottedPage.initIfFresh p =
      if p.dataSize = 0 then { p with dataSize := PayloadSize } else p := by
  unfold SlottedPage.initIfFresh
  rcases hh : SlottedPage.header p with ⟨sc, fs, fe⟩
  have hcond : ¬ (sc = 0 ∧ fs = 0 ∧ fe = 0) := by
    rintro ⟨h1, h2, h3⟩
    exact h (by rw [hh, h1, h2, h3])
  show (let p1 := if sc = 0 ∧ fs = 0 ∧ fe = 0 then
          SlottedPage.setHeader p 0 spHeaderSize PayloadSize else p
        if p1.dataSize = 0 then { p1 with dataSize := PayloadSize } else p1) = _
  rw [if_neg hcond]

theorem initIfFresh_dataSize_of_stale (p : Page) (h : SlottedPage.header p ≠ (0, 0, 0)) :
    (SlottedPage.initIfFresh p).dataSize =
      if p.dataSize = 0 then PayloadSize else p.dataSize := by
  rw [initIfFresh_of_stale p h]
  split <;> rfl

theorem initIfFresh_idem (p : Page) (hd : p.data.length = 4086) :
    SlottedPage.initIfFresh (SlottedPage.initIfFresh p) = SlottedPage.initIfFresh p := by
  by_cases h : SlottedPage.header p = (0, 0, 0)
  · rw [initIfFresh_of_fresh p h]
    have hh : SlottedPage.header (SlottedPage.setHeader p 0 spHeaderSize PayloadSize) ≠
        (0, 0, 0) := by
      rw [header_setHeader p _ _ _ hd]
      intro hc
      have := congrArg (fun t => t.2.1) hc
      simp only [] at this
      rw [show spHeaderSize % 65536 = 6 from rfl] at this
      omega
    rw [initIfFresh_of_stale _ hh]
    rw [if_neg (by unfold SlottedPage.setHeader; simp [payloadSize_eq])]
  · rw [initIfFresh_of_stale p h]
    split
    · next hds =>
      have hh : SlottedPage.header { p with dataSize := PayloadSize } ≠ (0, 0, 0) := by
        rwa [header_of_data_eq { p with dataSize := PayloadSize } p rfl]
      rw [initIfFresh_of_stale _ hh]
      rw [if_neg (by simp [payloadSize_eq])]
    · next hds =>
      rw [initIfFresh_of_stale p h, if_neg hds]

/-- C10 (amended): `init_if_fresh` reseeds an all-zero slotted header to
`(0, 6, 4086)` (and then `data_size = 4086`); otherwise it leaves the header
bytes — in fact all payload bytes — unchanged, and sets `data_size` to 4086
only when it was 0, leaving it unchanged otherwise.  It is idempotent. -/
theorem initIfFresh_contract (p : Page) (hd : p.data.length = 4086) :
    (SlottedPage.header p = (0, 0, 0) →
      SlottedPage.header (SlottedPage.initIfFresh p) = (0, 6, 4086) ∧
      (SlottedPage.initIfFresh p).dataSize = 4086) ∧
    (SlottedPage.header p ≠ (0, 0, 0) →
      (SlottedPage.initIfFresh p).data = p.data ∧
      (SlottedPage.initIfFresh p).dataSize =
        (if p.dataSize = 0 then 4086 else p.dataSize)) ∧
    SlottedPage.initIfFresh (SlottedPage.initIfFresh p) = SlottedPage.initIfFresh p := by
  refine ⟨?_, ?_, initIfFresh_idem p hd⟩
  · intro h
    rw [initIfFresh_of_fresh p h]
    constructor
    · rw [header_setHeader p _ _ _ hd]
      rfl
    · unfold SlottedPage.setHeader
      simp [payloadSize_eq]
  · intro h
    rw [initIfFresh_of_stale p h]
    constructor
    · split <;> rfl
    · split <;> simp [payloadSize_eq]

theorem initIfFresh_contract_witness :
    (SlottedPage.header (Page.mk 0 0 0 (List.replicate 4086 0)) = (0, 0, 0) →
      SlottedPage.header (SlottedPage.initIfFresh (Page.mk 0 0 0 (List.replicate 4086 0))) =
        (0, 6, 4086) ∧
      (SlottedPage.initIfFresh (Page.mk 0 0 0 (List.replicate 4086 0))).dataSize = 4086) ∧
    (SlottedPage.header (Page.mk 0 0 0 (List.replicate 4086 0)) ≠ (0, 0, 0) →
      (SlottedPage.initIfFresh (Page.mk 0 0 0 (List.replicate 4086 0))).data =
        (Page.mk 0 0 0 (List.replicate 4086 0)).data ∧
      (SlottedPage.initIfFresh (Page.mk 0 0 0 (List.replicate 4086 0))).dataSize =
        (if (Page.mk 0 0 0 (List.replicate 4086 0)).dataSize = 0 then 4086
         else (Page.mk 0 0 0 (List.replicate 4086 0)).dataSize)) ∧
    SlottedPage.initIfFresh (SlottedPage.initIfFresh (Page.mk 0 0 0 (List.replicate 4086 0))) =
      SlottedPage.initIfFresh (Page.mk 0 0 0 (List.replicate 4086 0)) :=
  initIfFresh_contract (Page.mk 0 0 0 (List.replicate 4086 0))
    (by rw [List.length_replicate])

theorem setSlot_error (p : Page) (i off ln : Nat) (e : StorageErr)
    (h : SlottedPage.setSlot p i off ln = .error e) : e = .sliceOob := by
  unfold SlottedPage.setSlot at h
  split at h
  · simp only [Except.error.injEq] at h
    exact h.symm
  · simp at h

theorem setSlot_ok (p : Page) (i off ln : Nat) (h : ¬ slotPos i < 0) :
    SlottedPage.setSlot p i off ln = .ok { p with
      data := writeBytes (writeBytes p.data (slotPos i).toNat (u16LE off))
        ((slotPos i).toNat + 2) (u16LE ln) } := by
  unfold SlottedPage.setSlot
  rw [if_neg h]

theorem insert_eq_of_dataTooLarge (p : Page) (rec : List Nat)
    (h : rec.length > 0xFFFF) :
    SlottedPage.insert p rec = (.error .dataTooLarge, p) := by
  unfold SlottedPage.insert
  rw [if_pos h]

theorem insert_eq_of_noSpace (p : Page) (rec : List Nat)
    (h1 : ¬ rec.length > 0xFFFF)
    (h2 : SlottedPage.freeSpace p < ((rec.length + slotEntrySize : Nat) : Int)) :
    SlottedPage.insert p rec = (.error .noSpace, p) := by
  unfold SlottedPage.insert
  rw [if_neg h1, if_pos h2]

theorem insert_fst_of_passed (p : Page) (rec : List Nat)
    (h1 : ¬ rec.length > 0xFFFF)
    (h2 : ¬ SlottedPage.freeSpace p < ((rec.length + slotEntrySize : Nat) : Int)) :
    (SlottedPage.insert p rec).1 = .error .sliceOob ∨
      (SlottedPage.insert p rec).1 = .ok (SlottedPage.header p).1 := by
  unfold SlottedPage.insert
  rw [if_neg h1, if_neg h2]
  by_cases hfs : (SlottedPage.header p).2.1 > PayloadSize
  · rw [if_pos hfs]
    left
    rfl
  · rw [if_neg hfs]
    rcases hss : SlottedPage.setSlot
        { p with data := writeBytes p.data (SlottedPage.header p).2.1 rec }
        (SlottedPage.header p).1 (SlottedPage.header p).2.1 rec.length with e | p2
    · left
      have he := setSlot_error _ _ _ _ _ hss
      subst he
      rfl
    · right
      rfl

theorem insert_ok_eq (p : Page) (rec : List Nat) (sc fs fe : Nat)
    (hh : SlottedPage.header p = (sc, fs, fe)) (hd : p.data.length = 4086)
    (hfs6 : 6 ≤ fs) (hfe : fe ≤ 4086)
    (h1 : ¬ rec.length > 0xFFFF)
    (h2 : ¬ SlottedPage.freeSpace p < ((rec.length + slotEntrySize : Nat) : Int)) :
    SlottedPage.insert p rec = (.ok sc,
      SlottedPage.setHeader
        (Page.mk p.id p.checksum p.dataSize
          (writeBytes (writeBytes (writeBytes p.data fs rec)
            (4086 - (sc + 1) * 4) (u16LE fs)) (4086 - (sc + 1) * 4 + 2)
            (u16LE rec.length)))
        (sc + 1) (fs + rec.length) (fe + 65536 - slotEntrySize)) := by
  have e1 : (SlottedPage.header p).1 = sc := by rw [hh]
  have e2 : (SlottedPage.header p).2.1 = fs := by rw [hh]
  have e3 : (SlottedPage.header p).2.2 = fe := by rw [hh]
  have hkey : fs + rec.length + 4 + 4 * sc ≤ fe := by
    unfold SlottedPage.freeSpace at h2
    rw [e1, e2, e3] at h2
    simp only [slotEntrySize] at h2
    push_cast at h2
    omega
  have hnneg : ¬ slotPos sc < 0 := by
    unfold slotPos
    simp only [payloadSize_eq, slotEntrySize]
    push_cast
    omega
  have htn : (slotPos sc).toNat = 4086 - (sc + 1) * 4 := by
    unfold slotPos
    simp only [payloadSize_eq, slotEntrySize]
    omega
  unfold SlottedPage.insert
  rw [if_neg h1, if_neg h2, e1, e2, e3,
    if_neg (show ¬ fs > PayloadSize by rw [payloadSize_eq]; omega),
    setSlot_ok _ _ _ _ hnneg, htn]

/-- Effects of a succeeding slotted insert: returned slot id, new header, the
record bytes at the old `free_start`, and the new slot entry. -/
theorem insert_effects (p : Page) (rec : List Nat) (sc fs fe : Nat)
    (hh : SlottedPage.header p = (sc, fs, fe)) (hd : p.data.length = 4086)
    (hfs6 : 6 ≤ fs) (hfe : fe ≤ 4086) (hdl : ¬ rec.length > 65535)
    (hns : ¬ SlottedPage.freeSpace p < ((rec.length + 4 : Nat) : Int)) :
    (SlottedPage.insert p rec).1 = .ok sc ∧
    SlottedPage.header (SlottedPage.insert p rec).2 =
      (sc + 1, fs + rec.length, fe - 4) ∧
    readBytes (SlottedPage.insert p rec).2.data fs rec.length = rec ∧
    getU16 (SlottedPage.insert p rec).2.data (4086 - (sc + 1) * 4) = fs ∧
    getU16 (SlottedPage.insert p rec).2.data (4086 - (sc + 1) * 4 + 2) =
      rec.length := by
  have heq := insert_ok_eq p rec sc fs fe hh hd hfs6 hfe hdl hns
  have hkey : fs + rec.length + 4 + 4 * sc ≤ fe := by
    have e1 : (SlottedPage.header p).1 = sc := by rw [hh]
    have e2 : (SlottedPage.header p).2.1 = fs := by rw [hh]
    have e3 : (SlottedPage.header p).2.2 = fe := by rw [hh]
    unfold SlottedPage.freeSpace at hns
    rw [e1, e2, e3] at hns
    simp only [slotEntrySize] at hns
    push_cast at hns
    omega
  have hpos6 : 6 ≤ 4086 - (sc + 1) * 4 := by omega
  have hpos4086 : 4086 - (sc + 1) * 4 + 4 ≤ 4086 := by omega
  have hfslen : fs + rec.length ≤ 4086 - (sc + 1) * 4 := by omega
  have hwlen : (writeBytes (writeBytes (writeBytes p.data fs rec)
      (4086 - (sc + 1) * 4) (u16LE fs)) (4086 - (sc + 1) * 4 + 2)
      (u16LE rec.length)).length = 4086 := by
    rw [writeBytes_length, writeBytes_length, writeBytes_length, hd]
  refine ⟨by rw [heq], ?_, ?_, ?_, ?_⟩
  · rw [heq]
    rw [header_setHeader _ _ _ _ hwlen]
    have m1 : (sc + 1) % 65536 = sc + 1 := by omega
    have m2 : (fs + rec.length) % 65536 = fs + rec.length := by omega
    have m3 : (fe + 65536 - slotEntrySize) % 65536 = fe - 4 := by
      simp only [slotEntrySize]
      omega
    rw [m1, m2, m3]
  · rw [heq]
    show readBytes (SlottedPage.setHeader _ _ _ _).data fs rec.length = rec
    unfold SlottedPage.setHeader
    simp only []
    rw [readBytes_writeBytes_disjoint _ _ _ _ _
        (by right; rw [u16LE_length]; omega),
      readBytes_writeBytes_disjoint _ _ _ _ _
        (by right; rw [u16LE_length]; omega),
      readBytes_writeBytes_disjoint _ _ _ _ _
        (by right; rw [u16LE_length]; omega),
      readBytes_writeBytes_disjoint _ _ _ _ _
        (by left; omega),
      readBytes_writeBytes_disjoint _ _ _ _ _
        (by left; omega)]
    exact readBytes_writeBytes p.data fs rec (by omega)
  · rw [heq]
    show getU16 (SlottedPage.setHeader _ _ _ _).data (4086 - (sc + 1) * 4) = fs
    unfold SlottedPage.setHeader getU16
    simp only []
    rw [readBytes_writeBytes_disjoint _ _ _ _ _
        (by right; rw [u16LE_length]; omega),
      readBytes_writeBytes_disjoint _ _ _ _ _
        (by right; rw [u16LE_length]; omega),
      readBytes_writeBytes_disjoint _ _ _ _ _
        (by right; rw [u16LE_length]; omega),
      readBytes_writeBytes_disjoint _ _ _ _ _
        (by left; omega)]
    have := getU16_writeBytes_u16LE (writeBytes p.data fs rec) (4086 - (sc + 1) * 4)
      fs (by rw [writeBytes_length, hd]; omega)
    unfold getU16 at this
    rw [this]
    omega
  · rw [heq]
    show getU16 (SlottedPage.setHeader _ _ _ _).data (4086 - (sc + 1) * 4 + 2) =
      rec.length
    unfold SlottedPage.setHeader getU16
    simp only []
    rw [readBytes_writeBytes_disjoint _ _ _ _ _
        (by right; rw [u16LE_length]; omega),
      readBytes_writeBytes_disjoint _ _ _ _ _
        (by right; rw [u16LE_length]; omega),
      readBytes_writeBytes_disjoint _ _ _ _ _
        (by right; rw [u16LE_length]; omega)]
    have := getU16_writeBytes_u16LE
      (writeBytes (writeBytes p.data fs rec) (4086 - (sc + 1) * 4) (u16LE fs))
      (4086 - (sc + 1) * 4 + 2) rec.length
      (by rw [writeBytes_length, writeBytes_length, hd]; omega)
    unfold getU16 at this
    rw [this]
    omega

/-- A succeeding slotted insert does not change payload bytes outside the new
record region `[fs, fs+len)` and the new slot entry `[4086-(sc+1)·4, +4)`. -/
theorem insert_reads_outside (p : Page) (rec : List Nat) (sc fs fe : Nat)
    (hh : SlottedPage.header p = (sc, fs, fe)) (hd : p.data.length = 4086)
    (hfs6 : 6 ≤ fs) (hfe : fe ≤ 4086) (hdl : ¬ rec.length > 65535)
    (hns : ¬ SlottedPage.freeSpace p < ((rec.length + 4 : Nat) : Int))
    (k n : Nat) (hk6 : 6 ≤ k)
    (h1 : k + n ≤ fs ∨ fs + rec.length ≤ k)
    (h2 : k + n ≤ 4086 - (sc + 1) * 4 ∨ 4086 - (sc + 1) * 4 + 4 ≤ k) :
    readBytes (SlottedPage.insert p rec).2.data k n = readBytes p.data k n := by
  rw [insert_ok_eq p rec sc fs fe hh hd hfs6 hfe hdl hns]
  show readBytes (SlottedPage.setHeader _ _ _ _).data k n = readBytes p.data k n
  unfold SlottedPage.setHeader
  simp only []
  rw [readBytes_writeBytes_disjoint _ _ _ _ _
      (by right; rw [u16LE_length]; omega),
    readBytes_writeBytes_disjoint _ _ _ _ _
      (by right; rw [u16LE_length]; omega),
    readBytes_writeBytes_disjoint _ _ _ _ _
      (by right; rw [u16LE_length]; omega),
    readBytes_writeBytes_disjoint _ _ _ _ _
      (by rw [u16LE_length]; omega),
    readBytes_writeBytes_disjoint _ _ _ _ _
      (by rw [u16LE_length]; omega),
    readBytes_writeBytes_disjoint _ _ _ _ _ (by omega)]

/-- C8: `insert(page, bytes)` fails with `DataTooLarge` iff the record exceeds
65535 bytes; otherwise it fails with `NoSpace` iff `free_space < len + 4`; a
failing insert leaves the page unchanged; and a succeeding insert returns the
old slot count as the slot id, stores the bytes at `free_start`, writes the
slot entry `(free_start, len)` at payload offset `4086 − (slot_count+1)·4`,
and advances the header to `(slot_count+1, free_start+len, free_end−4)`. -/
theorem slotted_insert_contract (p : Page) (rec : List Nat) :
    ((SlottedPage.insert p rec).1 = .error .dataTooLarge ↔ rec.length > 65535) ∧
    (¬ rec.length > 65535 →
      ((SlottedPage.insert p rec).1 = .error .noSpace ↔
        SlottedPage.freeSpace p < ((rec.length + 4 : Nat) : Int))) ∧
    ((SlottedPage.insert p rec).1 = .error .dataTooLarge ∨
        (SlottedPage.insert p rec).1 = .error .noSpace →
      (SlottedPage.insert p rec).2 = p) ∧
    (∀ sc fs fe, SlottedPage.header p = (sc, fs, fe) → p.data.length = 4086 →
      6 ≤ fs → fe ≤ 4086 → ¬ rec.length > 65535 →
      ¬ SlottedPage.freeSpace p < ((rec.length + 4 : Nat) : Int) →
      (SlottedPage.insert p rec).1 = .ok sc ∧
      SlottedPage.header (SlottedPage.insert p rec).2 =
        (sc + 1, fs + rec.length, fe - 4) ∧
      readBytes (SlottedPage.insert p rec).2.data fs rec.length = rec ∧
      getU16 (SlottedPage.insert p rec).2.data (4086 - (sc + 1) * 4) = fs ∧
      getU16 (SlottedPage.insert p rec).2.data (4086 - (sc + 1) * 4 + 2) =
        rec.length) := by
  refine ⟨?_, ?_, ?_, ?_⟩
  · constructor
    · intro h
      by_contra hdl
      by_cases hns : SlottedPage.freeSpace p < ((rec.length + slotEntrySize : Nat) : Int)
      · rw [insert_eq_of_noSpace p rec hdl hns] at h
        simp at h
      · rcases insert_fst_of_passed p rec hdl hns with h' | h' <;> rw [h'] at h <;> simp at h
    · intro h
      rw [insert_eq_of_dataTooLarge p rec h]
  · intro hdl
    constructor
    · intro h
      by_contra hns
      rcases insert_fst_of_passed p rec hdl hns with h' | h' <;> rw [h'] at h <;> simp at h
    · intro hns
      rw [insert_eq_of_noSpace p rec hdl hns]
  · intro h
    by_cases hdl : rec.length > 0xFFFF
    · rw [insert_eq_of_dataTooLarge p rec hdl]
    · by_cases hns : SlottedPage.freeSpace p < ((rec.length + slotEntrySize : Nat) : Int)
      · rw [insert_eq_of_noSpace p rec hdl hns]
      · exfalso
        rcases insert_fst_of_passed p rec hdl hns with h' | h' <;>
          rcases h with h | h <;> rw [h'] at h <;> simp at h
  · intro sc fs fe hh hd hfs6 hfe hdl hns
    exact insert_effects p rec sc fs fe hh hd hfs6 hfe hdl hns

theorem slotted_insert_contract_witness :
    (SlottedPage.insert (Page.mk 0 0 4086 (0 :: 0 :: 6 :: 0 :: 246 :: 15 :: List.replicate 4080 0)) [42]).1 = .ok 0 ∧
    SlottedPage.header (SlottedPage.insert (Page.mk 0 0 4086 (0 :: 0 :: 6 :: 0 :: 246 :: 15 :: List.replicate 4080 0)) [42]).2 =
      (0 + 1, 6 + [42].length, 4086 - 4) ∧
    readBytes (SlottedPage.insert (Page.mk 0 0 4086 (0 :: 0 :: 6 :: 0 :: 246 :: 15 :: List.replicate 4080 0)) [42]).2.data 6 [42].length = [42] ∧
    getU16 (SlottedPage.insert (Page.mk 0 0 4086 (0 :: 0 :: 6 :: 0 :: 246 :: 15 :: List.replicate 4080 0)) [42]).2.data (4086 - (0 + 1) * 4) = 6 ∧
    getU16 (SlottedPage.insert (Page.mk 0 0 4086 (0 :: 0 :: 6 :: 0 :: 246 :: 15 :: List.replicate 4080 0)) [42]).2.data (4086 - (0 + 1) * 4 + 2) =
      [42].length := by
  obtain ⟨-, -, -, h4⟩ := slotted_insert_contract (Page.mk 0 0 4086 (0 :: 0 :: 6 :: 0 :: 246 :: 15 :: List.replicate 4080 0)) [42]
  exact h4 0 6 4086 (by decide)
    (by simp only [List.length_cons, List.length_replicate])
    (by decide) (by decide) (by decide) (by decide)

/-- C10 counterexample: a page whose slotted header is not all zeros and whose
`data_size` is a nonzero value other than 4086 keeps that `data_size` through
`init_if_fresh`, refuting the claim that `data_size` is always set to 4086. -/
theorem initIfFresh_counterexample :
    (SlottedPage.initIfFresh (Page.mk 0 0 5 (1 :: List.replicate 4085 0))).dataSize = 5 ∧
    (5 : Nat) ≠ 4086 := by
  constructor
  · have h : SlottedPage.header (Page.mk 0 0 5 (1 :: List.replicate 4085 0)) ≠ (0, 0, 0) := by
      decide
    rw [initIfFresh_dataSize_of_stale _ h]
    decide
  · decide

/-! ## Heap file (`pkg/storage/heapfile.go`)

The heap file is modelled as the list of its pages (page id = index).  Pages
go through `readPageM`/`writePageM`, the page-store view of the byte codec:
a successful read returns the last successfully written page, which is the
observable guarantee established for `writePage`/`readPage` above
(`readPage_after_writePage`); checksum stamping and verification live in that
layer.  `writePageM` keeps `WritePage`'s `DataSize` validation.
-/

def readPageM (f : List Page) (id : Nat) : Except StorageErr Page :=
  match f.get? id with
  | some p => .ok p
  | none => .error .io

def writePageM (f : List Page) (p : Page) : Except StorageErr (List Page) :=
  if p.dataSize > PayloadSize then .error .dataTooLarge
  else if p.id < f.length then .ok (f.set p.id p)
  else if p.id = f.length then .ok (f ++ [p])
  else .error .io

/-- `HeapFile.pageCount` = file size / PageSize. -/
def HeapFile.pageCount (f : List Page) : Nat := f.length

/-- The in-memory page Go allocates for a brand new heap page
(`&Page{ID: newID}`: zeroed payload, zero sizes). -/
def freshHeapPage (id : Nat) : Page := Page.mk id 0 0 (List.replicate PayloadSize 0)

/-- The loop body of `HeapFile.findPageWithSpace`, from page `id` upward.
`fuel` bounds the remaining iterations (the caller passes the page count, so
it never runs out before the loop condition `id < length` fails; on
exhaustion it behaves exactly like the loop exit). -/
def findPageWithSpaceFrom (f : List Page) (need : Int) : Nat → Nat →
    Except StorageErr (Nat × Page)
  | _, 0 => .ok (f.length, SlottedPage.initIfFresh (freshHeapPage f.length))
  | id, fuel + 1 =>
    if id < f.length then
      match readPageM f id with
      | .error e => .error e
      | .ok p =>
        if SlottedPage.freeSpace (SlottedPage.initIfFresh p) ≥ need then
          .ok (id, SlottedPage.initIfFresh p)
        else findPageWithSpaceFrom f need (id + 1) fuel
    else
      .ok (f.length, SlottedPage.initIfFresh (freshHeapPage f.length))

def HeapFile.findPageWithSpace (f : List Page) (need : Int) :
    Except StorageErr (Nat × Page) :=
  findPageWithSpaceFrom f need 0 f.length

/-- `HeapFile.Insert`: first-fit (or fresh) page, slotted insert, write back. -/
def HeapFile.insert (f : List Page) (rec : List Nat) :
    Except StorageErr (List Page × RID) :=
  match HeapFile.findPageWithSpace f ((rec.length + slotEntrySize : Nat) : Int) with
  | .error e => .error e
  | .ok (id, sp) =>
    match SlottedPage.insert sp rec with
    | (.error e, _) => .error e
    | (.ok slot, sp2) =>
      match writePageM f sp2 with
      | .error e => .error e
      | .ok f2 => .ok (f2, RID.mk id slot)

/-- `HeapFile.Get`. -/
def HeapFile.get (f : List Page) (r : RID) : Except StorageErr (List Nat) :=
  match readPageM f r.pageID with
  | .error e => .error e
  | .ok p => SlottedPage.read p r.slotID

/-- `HeapFile.Delete`. -/
def HeapFile.delete (f : List Page) (r : RID) : Except StorageErr (List Page) :=
  match readPageM f r.pageID with
  | .error e => .error e
  | .ok p =>
    match SlottedPage.delete p r.slotID with
    | .error e => .error e
    | .ok p2 => writePageM f p2

theorem fromLE_replicate_zero (m : Nat) : fromLE (List.replicate m 0) = 0 := by
  induction m with
  | zero => rfl
  | succ m ih => simp [List.replicate_succ, fromLE, ih]

theorem getU16_replicate_zero (n k : Nat) : getU16 (List.replicate n 0) k = 0 := by
  unfold getU16 readBytes
  rw [List.drop_replicate, List.take_replicate, fromLE_replicate_zero]

theorem header_freshHeapPage (id : Nat) :
    SlottedPage.header (freshHeapPage id) = (0, 0, 0) := by
  unfold SlottedPage.header freshHeapPage
  simp only [getU16_replicate_zero]

theorem initIfFresh_freshHeapPage (id : Nat) :
    SlottedPage.initIfFresh (freshHeapPage id) =
      SlottedPage.setHeader (freshHeapPage id) 0 spHeaderSize PayloadSize :=
  initIfFresh_of_fresh _ (header_freshHeapPage id)

theorem freeSpace_of_header (p : Page) (sc fs fe : Nat)
    (hh : SlottedPage.header p = (sc, fs, fe)) :
    SlottedPage.freeSpace p = (fe : Int) - (fs : Int) - (sc : Int) * 4 := by
  unfold SlottedPage.freeSpace
  rw [hh]
  rfl

theorem freeSpace_initIfFresh_fresh (id : Nat) :
    SlottedPage.freeSpace (SlottedPage.initIfFresh (freshHeapPage id)) = 4080 := by
  rw [initIfFresh_freshHeapPage]
  rw [freeSpace_of_header _ 0 6 4086 (by
    rw [header_setHeader _ _ _ _ (by
      unfold freshHeapPage
      simp only [List.length_replicate]
      rfl)]
    rfl)]
  norm_num

theorem findFrom_fresh (f : List Page) (need : Int) (id fuel : Nat)
    (hid : ¬ id < f.length) :
    findPageWithSpaceFrom f need id fuel =
      .ok (f.length, SlottedPage.initIfFresh (freshHeapPage f.length)) := by
  cases fuel with
  | zero => rfl
  | succ fuel =>
    unfold findPageWithSpaceFrom
    rw [if_neg hid]

theorem findFrom_hit (f : List Page) (need : Int) (id fuel : Nat) (p : Page)
    (hid : id < f.length) (hr : readPageM f id = .ok p)
    (hfree : SlottedPage.freeSpace (SlottedPage.initIfFresh p) ≥ need) :
    findPageWithSpaceFrom f need id (fuel + 1) = .ok (id, SlottedPage.initIfFresh p) := by
  unfold findPageWithSpaceFrom
  rw [if_pos hid, hr]
  show (if SlottedPage.freeSpace (SlottedPage.initIfFresh p) ≥ need
      then (.ok (id, SlottedPage.initIfFresh p) : Except StorageErr (Nat × Page))
      else findPageWithSpaceFrom f need (id + 1) fuel) = _
  rw [if_pos hfree]

theorem findFrom_miss (f : List Page) (need : Int) (id fuel : Nat) (p : Page)
    (hid : id < f.length) (hr : readPageM f id = .ok p)
    (hfree : ¬ SlottedPage.freeSpace (SlottedPage.initIfFresh p) ≥ need) :
    findPageWithSpaceFrom f need id (fuel + 1) =
      findPageWithSpaceFrom f need (id + 1) fuel := by
  conv_lhs => unfold findPageWithSpaceFrom
  rw [if_pos hid, hr]
  show (if SlottedPage.freeSpace (SlottedPage.initIfFresh p) ≥ need
      then (.ok (id, SlottedPage.initIfFresh p) : Except StorageErr (Nat × Page))
      else findPageWithSpaceFrom f need (id + 1) fuel) = _
  rw [if_neg hfree]

theorem readPageM_ok (f : List Page) (id : Nat) (hid : id < f.length) :
    readPageM f id = .ok (f.get ⟨id, hid⟩) := by
  unfold readPageM
  rw [List.get?_eq_get hid]

/-- `findPageWithSpace` always succeeds, and the page it yields has at least
`need` free bytes whenever `need ≤ 4080` (the free space of an empty page). -/
theorem findPageWithSpace_ok (f : List Page) (need : Int) (hneed : need ≤ 4080) :
    ∀ fuel id,
    ∃ pid sp, findPageWithSpaceFrom f need id fuel = .ok (pid, sp) ∧
      need ≤ SlottedPage.freeSpace sp := by
  intro fuel
  induction fuel with
  | zero =>
    intro id
    refine ⟨f.length, _, rfl, ?_⟩
    rw [freeSpace_initIfFresh_fresh]
    exact hneed
  | succ fuel ih =>
    intro id
    by_cases hid : id < f.length
    · have hr := readPageM_ok f id hid
      by_cases hfree :
          SlottedPage.freeSpace (SlottedPage.initIfFresh (f.get ⟨id, hid⟩)) ≥ need
      · exact ⟨id, _, findFrom_hit f need id fuel _ hid hr hfree, hfree⟩
      · rw [findFrom_miss f need id fuel _ hid hr hfree]
        exact ih (id + 1)
    · refine ⟨f.length, _, findFrom_fresh f need id _ hid, ?_⟩
      rw [freeSpace_initIfFresh_fresh]
      exact hneed

theorem writePageM_error (f : List Page) (p : Page) (e : StorageErr)
    (h : writePageM f p = .error e) : e = .dataTooLarge ∨ e = .io := by
  unfold writePageM at h
  split at h
  · simp only [Except.error.injEq] at h
    exact Or.inl h.symm
  · split at h
    · simp at h
    · split at h
      · simp at h
      · simp only [Except.error.injEq] at h
        exact Or.inr h.symm

/-- C9 (amended): records of length at most 4076 never surface `NoSpace` from
`heap.insert` — the heap layer always finds or allocates a page with room.
(The claim's bound of 65535 is too generous: any record longer than 4076
bytes does not fit even in a fresh page and `NoSpace` is returned.) -/
theorem heap_insert_never_noSpace (f : List Page) (rec : List Nat)
    (hlen : rec.length ≤ 4076) :
    HeapFile.insert f rec ≠ .error .noSpace := by
  unfold HeapFile.insert HeapFile.findPageWithSpace
  obtain ⟨pid, sp, hfind, hfree⟩ :=
    findPageWithSpace_ok f ((rec.length + slotEntrySize : Nat) : Int)
      (by simp only [slotEntrySize]; push_cast; omega) f.length 0
  rw [hfind]
  show (match SlottedPage.insert sp rec with
    | (.error e, _) => (.error e : Except StorageErr (List Page × RID))
    | (.ok slot, sp2) =>
      match writePageM f sp2 with
      | .error e => .error e
      | .ok f2 => .ok (f2, RID.mk pid slot)) ≠ .error .noSpace
  have h1 : ¬ rec.length > 0xFFFF := by omega
  have h2 : ¬ SlottedPage.freeSpace sp < ((rec.length + slotEntrySize : Nat) : Int) := by
    omega
  rcases hI : SlottedPage.insert sp rec with ⟨res, sp2⟩
  rcases res with e | slot
  · have hcase := insert_fst_of_passed sp rec h1 h2
    rw [hI] at hcase
    simp only [] at hcase
    rcases hcase with hc | hc
    · simp only [Except.error.injEq] at hc
      subst hc
      simp
    · simp at hc
  · show (match writePageM f sp2 with
      | Except.error e => (Except.error e : Except StorageErr (List Page × RID))
      | Except.ok f2 => Except.ok (f2, RID.mk pid slot)) ≠
        Except.error StorageErr.noSpace
    rcases hw : writePageM f sp2 with e | f2
    · have := writePageM_error f sp2 e hw
      rcases this with rfl | rfl <;> simp
    · simp

theorem heap_insert_never_noSpace_witness :
    HeapFile.insert [] [9] ≠ .error .noSpace :=
  heap_insert_never_noSpace [] [9] (by decide)

/-- Any 4077-byte record overflows even a fresh page. -/
theorem heap_insert_noSpace_of_4077 (rec : List Nat) (hlen : rec.length = 4077) :
    HeapFile.insert [] rec = .error .noSpace := by
  unfold HeapFile.insert HeapFile.findPageWithSpace
  rw [findFrom_fresh [] _ 0 _ (by simp)]
  show (match SlottedPage.insert
      (SlottedPage.initIfFresh (freshHeapPage ([] : List Page).length)) rec with
    | (.error e, _) => (.error e : Except StorageErr (List Page × RID))
    | (.ok slot, sp2) =>
      match writePageM [] sp2 with
      | .error e => .error e
      | .ok f2 => .ok (f2, RID.mk ([] : List Page).length slot)) = .error .noSpace
  rw [insert_eq_of_noSpace _ _ (by rw [hlen]; norm_num)
    (by
      rw [freeSpace_initIfFresh_fresh, hlen]
      simp only [slotEntrySize]
      norm_num)]

/-- C9 counterexample: a 4077-byte record (well below the claimed 65535-byte
limit) does not fit in a fresh page (4080 free bytes < 4077 + 4), so
`heap.insert` surfaces `NoSpace` to its caller. -/
theorem heap_insert_noSpace_counterexample :
    HeapFile.insert [] (List.replicate 4077 0) = .error .noSpace :=
  heap_insert_noSpace_of_4077 _ (List.length_replicate _ _)

/-- Slot loop of `HeapFile.Scan` on one page: result (`ok true` = keep
scanning, `ok false` = the visitor stopped the scan) plus the visit log. -/
def scanPageFrom (p : Page) (id : Nat) (visit : RID → List Nat → Bool) (sc : Nat) :
    Nat → Nat → Except StorageErr Bool × List (RID × List Nat)
  | _, 0 => (.ok true, [])
  | s, fuel + 1 =>
    if s < sc then
      match SlottedPage.read p s with
      | .error e =>
        if e = .slotDeleted then scanPageFrom p id visit sc (s + 1) fuel
        else (.error e, [])
      | .ok b =>
        if visit (RID.mk id s) b then
          match scanPageFrom p id visit sc (s + 1) fuel with
          | (res, log) => (res, (RID.mk id s, b) :: log)
        else (.ok false, [(RID.mk id s, b)])
    else (.ok true, [])

/-- Page loop of `HeapFile.Scan`, from page `id` upward. -/
def scanFrom (f : List Page) (visit : RID → List Nat → Bool) :
    Nat → Nat → Except StorageErr Unit × List (RID × List Nat)
  | _, 0 => (.ok (), [])
  | id, fuel + 1 =>
    if id < f.length then
      match readPageM f id with
      | .error e => (.error e, [])
      | .ok p =>
        match scanPageFrom p id visit (SlottedPage.header p).1 0
            (SlottedPage.header p).1 with
        | (.error e, log) => (.error e, log)
        | (.ok false, log) => (.ok (), log)
        | (.ok true, log) =>
          match scanFrom f visit (id + 1) fuel with
          | (res, log2) => (res, log ++ log2)
    else (.ok (), [])

/-- `HeapFile.Scan`: outcome plus the list of `visit` calls actually made. -/
def HeapFile.scan (f : List Page) (visit : RID → List Nat → Bool) :
    Except StorageErr Unit × List (RID × List Nat) :=
  scanFrom f visit 0 f.length

/-! ## Heap round trip (C4): ghost record representation

A slotted page is abstracted by the list of the records it holds, in slot
order, each tagged with its liveness flag (`true` = live, `false` = lazily
deleted).  `PageRep` ties the concrete page bytes to that ghost list.
-/

/-- Total byte length of the records of a ghost record list. -/
def totalLen : List (List Nat × Bool) → Nat
  | [] => 0
  | r :: rs => r.1.length + totalLen rs

/-- Payload offset of slot `s`'s record: the 6-byte header plus all records
inserted before it. -/
def offOf (rs : List (List Nat × Bool)) (s : Nat) : Nat :=
  6 + totalLen (rs.take s)

/-- Mark slot `s` deleted in the ghost list (keep the bytes, clear the flag). -/
def markDel (rs : List (List Nat × Bool)) (s : Nat) : List (List Nat × Bool) :=
  rs.set s ((rs.getD s ([], false)).1, false)

theorem totalLen_append (a b : List (List Nat × Bool)) :
    totalLen (a ++ b) = totalLen a + totalLen b := by
  induction a with
  | nil =>
    show totalLen b = 0 + totalLen b
    omega
  | cons r a ih =>
    show totalLen (r :: (a ++ b)) = totalLen (r :: a) + totalLen b
    simp only [totalLen]
    rw [ih]
    omega

theorem totalLen_take_le (rs : List (List Nat × Bool)) (k : Nat) :
    totalLen (rs.take k) ≤ totalLen rs := by
  induction rs generalizing k with
  | nil => simp [List.take_nil]
  | cons r rs ih =>
    cases k with
    | zero => exact Nat.zero_le _
    | succ k =>
      simp only [List.take_succ_cons, totalLen]
      exact Nat.add_le_add_left (ih k) _

theorem totalLen_take_mono (rs : List (List Nat × Bool)) (a b : Nat) (hab : a ≤ b) :
    totalLen (rs.take a) ≤ totalLen (rs.take b) := by
  induction rs generalizing a b with
  | nil => simp [List.take_nil]
  | cons r rs ih =>
    cases a with
    | zero => exact Nat.zero_le _
    | succ a =>
      cases b with
      | zero => omega
      | succ b =>
        simp only [List.take_succ_cons, totalLen]
        exact Nat.add_le_add_left (ih a b (by omega)) _

theorem totalLen_take_succ (rs : List (List Nat × Bool)) (k : Nat)
    (hk : k < rs.length) :
    totalLen (rs.take (k + 1)) =
      totalLen (rs.take k) + (rs.getD k ([], false)).1.length := by
  induction rs generalizing k with
  | nil => simp at hk
  | cons r rs ih =>
    cases k with
    | zero =>
      show totalLen [r] = totalLen [] + r.1.length
      show r.1.length + 0 = 0 + r.1.length
      omega
    | succ k =>
      show totalLen (r :: rs.take (k + 1)) =
        totalLen (r :: rs.take k) + (rs.getD k ([], false)).1.length
      simp only [totalLen]
      rw [ih k (by simp only [List.length_cons] at hk; omega)]
      omega

theorem markDel_length (rs : List (List Nat × Bool)) (s : Nat) :
    (markDel rs s).length = rs.length := by
  unfold markDel
  rw [List.length_set]

theorem markDel_getD_ne (rs : List (List Nat × Bool)) (s t : Nat) (h : t ≠ s) :
    (markDel rs s).getD t ([], false) = rs.getD t ([], false) := by
  unfold markDel
  rw [List.getD_eq_getElem?_getD, List.getElem?_set_ne (by omega),
    List.getD_eq_getElem?_getD]

theorem markDel_getD_eq (rs : List (List Nat × Bool)) (s : Nat) (hs : s < rs.length) :
    (markDel rs s).getD s ([], false) = ((rs.getD s ([], false)).1, false) := by
  unfold markDel
  rw [List.getD_eq_getElem?_getD, List.getElem?_set_self hs, Option.getD_some]

theorem totalLen_markDel (rs : List (List Nat × Bool)) (s : Nat) :
    totalLen (markDel rs s) = totalLen rs := by
  induction rs generalizing s with
  | nil => rfl
  | cons r rs ih =>
    cases s with
    | zero => rfl
    | succ s =>
      show totalLen (r :: markDel rs s) = totalLen (r :: rs)
      simp only [totalLen]
      rw [ih]

theorem totalLen_take_markDel (rs : List (List Nat × Bool)) (s t : Nat) :
    totalLen ((markDel rs s).take t) = totalLen (rs.take t) := by
  induction rs generalizing s t with
  | nil => rfl
  | cons r rs ih =>
    cases t with
    | zero => rfl
    | succ t =>
      cases s with
      | zero => rfl
      | succ s =>
        show totalLen (r :: (markDel rs s).take t) = totalLen (r :: rs.take t)
        simp only [totalLen]
        rw [ih]

theorem offOf_markDel (rs : List (List Nat × Bool)) (s t : Nat) :
    offOf (markDel rs s) t = offOf rs t := by
  unfold offOf
  rw [totalLen_take_markDel]

theorem take_append_le {α : Type} (rs ts : List α) (k : Nat) (hk : k ≤ rs.length) :
    (rs ++ ts).take k = rs.take k := by
  induction rs generalizing k with
  | nil =>
    have hk0 : k = 0 := by simp only [List.length_nil] at hk; omega
    subst hk0
    rfl
  | cons r rs ih =>
    cases k with
    | zero => rfl
    | succ k =>
      simp only [List.cons_append, List.take_succ_cons]
      rw [ih k (by simp only [List.length_cons] at hk; omega)]

theorem offOf_append (rs : List (List Nat × Bool)) (x : List Nat × Bool) (t : Nat)
    (ht : t ≤ rs.length) :
    offOf (rs ++ [x]) t = offOf rs t := by
  unfold offOf
  rw [take_append_le rs [x] t ht]

theorem offOf_bounds (rs : List (List Nat × Bool)) (s : Nat) (hs : s < rs.length) :
    6 ≤ offOf rs s ∧
    offOf rs s + (rs.getD s ([], false)).1.length ≤ 6 + totalLen rs := by
  constructor
  · unfold offOf
    omega
  · unfold offOf
    have h1 := totalLen_take_succ rs s hs
    have h2 := totalLen_take_le rs (s + 1)
    omega

theorem offOf_mono (rs : List (List Nat × Bool)) (s t : Nat) (hs : s < rs.length)
    (hst : s < t) :
    offOf rs s + (rs.getD s ([], false)).1.length ≤ offOf rs t := by
  unfold offOf
  have h1 := totalLen_take_succ rs s hs
  have h2 := totalLen_take_mono rs (s + 1) t hst
  omega

theorem getD_set_self {α : Type} (l : List α) (i : Nat) (v d : α) (h : i < l.length) :
    (l.set i v).getD i d = v := by
  rw [List.getD_eq_getElem?_getD, List.getElem?_set_self h, Option.getD_some]

theorem getD_set_ne {α : Type} (l : List α) (i j : Nat) (v d : α) (h : i ≠ j) :
    (l.set i v).getD j d = l.getD j d := by
  rw [List.getD_eq_getElem?_getD, List.getElem?_set_ne h, List.getD_eq_getElem?_getD]

theorem getD_append_last {α : Type} (l : List α) (x d : α) :
    (l ++ [x]).getD l.length d = x := by
  rw [List.getD_append_right _ _ _ _ (Nat.le_refl _), Nat.sub_self]
  rfl

/-- A 2-byte read of a region disjoint from a write is unchanged. -/
theorem getU16_writeBytes_outside (d : List Nat) (off : Nat) (src : List Nat)
    (k : Nat) (h : k + 2 ≤ off ∨ off + src.length ≤ k) :
    getU16 (writeBytes d off src) k = getU16 d k := by
  unfold getU16
  rw [readBytes_writeBytes_disjoint d off src k 2 h]

/-- `PageRep p rs`: `p` is a well-formed slotted page holding exactly the ghost
records `rs` in slot order (offsets, lengths, liveness and bytes all match). -/
def PageRep (p : Page) (rs : List (List Nat × Bool)) : Prop :=
  p.data.length = 4086 ∧
  p.dataSize = 4086 ∧
  (∀ s, s < rs.length → 0 < (rs.getD s ([], false)).1.length) ∧
  6 + totalLen rs + 4 * rs.length ≤ 4086 ∧
  SlottedPage.header p = (rs.length, 6 + totalLen rs, 4086 - 4 * rs.length) ∧
  (∀ s, s < rs.length →
    getU16 p.data (4086 - (s + 1) * 4) = offOf rs s ∧
    readBytes p.data (offOf rs s) (rs.getD s ([], false)).1.length =
      (rs.getD s ([], false)).1 ∧
    ((rs.getD s ([], false)).2 = true →
      getU16 p.data (4086 - (s + 1) * 4 + 2) = (rs.getD s ([], false)).1.length) ∧
    ((rs.getD s ([], false)).2 = false →
      getU16 p.data (4086 - (s + 1) * 4 + 2) = 0))

/-- A freshly initialised heap page holds no records. -/
theorem PageRep_fresh (id : Nat) :
    PageRep (SlottedPage.initIfFresh (freshHeapPage id)) [] := by
  rw [initIfFresh_freshHeapPage]
  refine ⟨?_, rfl, ?_, by decide, ?_, ?_⟩
  · rw [setHeader_data_length]
    show (List.replicate PayloadSize 0).length = 4086
    rw [List.length_replicate]
    exact payloadSize_eq
  · intro s hs
    simp at hs
  · rw [header_setHeader _ _ _ _ (by
      show (List.replicate PayloadSize 0).length = 4086
      rw [List.length_replicate]
      exact payloadSize_eq)]
    rfl
  · intro s hs
    simp at hs

/-- A represented page is never header-fresh and has `data_size = 4086`, so
`init_if_fresh` leaves it unchanged. -/
theorem initIfFresh_of_rep (p : Page) (rs : List (List Nat × Bool))
    (h : PageRep p rs) :
    SlottedPage.initIfFresh p = p := by
  obtain ⟨hd, hds, -, hfit, hh, -⟩ := h
  rw [initIfFresh_of_stale p (by
    rw [hh]
    intro hc
    simp only [Prod.mk.injEq] at hc
    omega)]
  rw [if_neg (by rw [hds]; norm_num)]

theorem PageRep_getSlot (p : Page) (rs : List (List Nat × Bool)) (s : Nat)
    (h : PageRep p rs) (hs : s < rs.length) :
    ∃ ln, SlottedPage.getSlot p s = .ok (offOf rs s, ln) ∧
      ((rs.getD s ([], false)).2 = true → ln = (rs.getD s ([], false)).1.length) ∧
      ((rs.getD s ([], false)).2 = false → ln = 0) := by
  obtain ⟨hd, hds, hne, hfit, hh, hslots⟩ := h
  obtain ⟨h1, h2, h3, h4⟩ := hslots s hs
  refine ⟨getU16 p.data (4086 - (s + 1) * 4 + 2), ?_, h3, h4⟩
  unfold SlottedPage.getSlot
  have e1 : (SlottedPage.header p).1 = rs.length := by rw [hh]
  rw [e1, if_neg (by omega)]
  have hpos : ¬ slotPos s < 0 := by
    unfold slotPos
    simp only [payloadSize_eq, slotEntrySize]
    omega
  rw [if_neg hpos]
  have htn : (slotPos s).toNat = 4086 - (s + 1) * 4 := by
    unfold slotPos
    simp only [payloadSize_eq, slotEntrySize]
    omega
  rw [htn, h1]

theorem PageRep_getSlot_bad (p : Page) (rs : List (List Nat × Bool)) (s : Nat)
    (h : PageRep p rs) (hs : ¬ s < rs.length) :
    SlottedPage.getSlot p s = .error .badSlotID := by
  obtain ⟨-, -, -, -, hh, -⟩ := h
  unfold SlottedPage.getSlot
  have e1 : (SlottedPage.header p).1 = rs.length := by rw [hh]
  rw [e1, if_pos (by omega)]

theorem PageRep_read_alive (p : Page) (rs : List (List Nat × Bool)) (s : Nat)
    (h : PageRep p rs) (hs : s < rs.length)
    (hb : (rs.getD s ([], false)).2 = true) :
    SlottedPage.read p s = .ok (rs.getD s ([], false)).1 := by
  obtain ⟨ln, hgs, hlt, -⟩ := PageRep_getSlot p rs s h hs
  obtain ⟨hd, hds, hne, hfit, hh, hslots⟩ := h
  obtain ⟨-, h2, -, -⟩ := hslots s hs
  rw [hlt hb] at hgs
  unfold SlottedPage.read
  rw [hgs]
  show (if (rs.getD s ([], false)).1.length = 0 then
      (.error .slotDeleted : Except StorageErr (List Nat))
    else if offOf rs s + (rs.getD s ([], false)).1.length > PayloadSize then
      .error .sliceOob
    else .ok (readBytes p.data (offOf rs s) (rs.getD s ([], false)).1.length)) = _
  rw [if_neg (by have := hne s hs; omega)]
  rw [if_neg (by
    obtain ⟨hb1, hb2⟩ := offOf_bounds rs s hs
    rw [payloadSize_eq]
    omega)]
  rw [h2]

theorem PageRep_read_dead (p : Page) (rs : List (List Nat × Bool)) (s : Nat)
    (h : PageRep p rs) (hs : s < rs.length)
    (hb : (rs.getD s ([], false)).2 = false) :
    SlottedPage.read p s = .error .slotDeleted := by
  obtain ⟨ln, hgs, -, hlf⟩ := PageRep_getSlot p rs s h hs
  rw [hlf hb] at hgs
  unfold SlottedPage.read
  rw [hgs]
  show (if (0 : Nat) = 0 then (.error .slotDeleted : Except StorageErr (List Nat))
    else if offOf rs s + 0 > PayloadSize then .error .sliceOob
    else .ok (readBytes p.data (offOf rs s) 0)) = _
  rw [if_pos rfl]

theorem PageRep_read_bad (p : Page) (rs : List (List Nat × Bool)) (s : Nat)
    (h : PageRep p rs) (hs : ¬ s < rs.length) :
    SlottedPage.read p s = .error .badSlotID := by
  unfold SlottedPage.read
  rw [PageRep_getSlot_bad p rs s h hs]
  rfl

theorem PageRep_delete_bad (p : Page) (rs : List (List Nat × Bool)) (s : Nat)
    (h : PageRep p rs) (hs : ¬ s < rs.length) :
    SlottedPage.delete p s = .error .badSlotID := by
  unfold SlottedPage.delete
  rw [PageRep_getSlot_bad p rs s h hs]

theorem delete_of_getSlot (p : Page) (i off ln : Nat)
    (hgs : SlottedPage.getSlot p i = .ok (off, ln)) :
    SlottedPage.delete p i = SlottedPage.setSlot p i off 0 := by
  unfold SlottedPage.delete
  rw [hgs]

theorem PageRep_delete_ok (p : Page) (rs : List (List Nat × Bool)) (s : Nat)
    (h : PageRep p rs) (hs : s < rs.length) :
    ∃ p2, SlottedPage.delete p s = .ok p2 ∧ p2.id = p.id ∧
      PageRep p2 (markDel rs s) := by
  obtain ⟨ln, hgs, -, -⟩ := PageRep_getSlot p rs s h hs
  obtain ⟨hd, hds, hne, hfit, hh, hslots⟩ := h
  have hpos : ¬ slotPos s < 0 := by
    unfold slotPos
    simp only [payloadSize_eq, slotEntrySize]
    omega
  have htn : (slotPos s).toNat = 4086 - (s + 1) * 4 := by
    unfold slotPos
    simp only [payloadSize_eq, slotEntrySize]
    omega
  have hpos6 : 6 ≤ 4086 - (s + 1) * 4 := by omega
  have hdel := delete_of_getSlot p s (offOf rs s) ln hgs
  rw [setSlot_ok p s _ 0 hpos, htn] at hdel
  refine ⟨_, hdel, rfl, ?_, ?_, ?_, ?_, ?_, ?_⟩
  · show (writeBytes (writeBytes p.data (4086 - (s + 1) * 4)
      (u16LE (offOf rs s))) (4086 - (s + 1) * 4 + 2) (u16LE 0)).length = 4086
    rw [writeBytes_length, writeBytes_length]
    exact hd
  · exact hds
  · intro t ht
    rw [markDel_length] at ht
    by_cases hts : t = s
    · subst hts
      rw [markDel_getD_eq rs t ht]
      exact hne t ht
    · rw [markDel_getD_ne rs s t hts]
      exact hne t ht
  · rw [totalLen_markDel, markDel_length]
    exact hfit
  · rw [markDel_length, totalLen_markDel]
    unfold SlottedPage.header
    show (getU16 (writeBytes (writeBytes p.data (4086 - (s + 1) * 4)
        (u16LE (offOf rs s))) (4086 - (s + 1) * 4 + 2) (u16LE 0)) 0,
      getU16 (writeBytes (writeBytes p.data (4086 - (s + 1) * 4)
        (u16LE (offOf rs s))) (4086 - (s + 1) * 4 + 2) (u16LE 0)) 2,
      getU16 (writeBytes (writeBytes p.data (4086 - (s + 1) * 4)
        (u16LE (offOf rs s))) (4086 - (s + 1) * 4 + 2) (u16LE 0)) 4) = _
    rw [getU16_writeBytes_outside _ _ _ _ (by left; omega),
      getU16_writeBytes_outside _ _ _ _ (by left; omega),
      getU16_writeBytes_outside _ _ _ _ (by left; omega),
      getU16_writeBytes_outside _ _ _ _ (by left; omega),
      getU16_writeBytes_outside _ _ _ _ (by left; omega),
      getU16_writeBytes_outside _ _ _ _ (by left; omega)]
    exact hh
  · intro t ht
    rw [markDel_length] at ht
    obtain ⟨ha1, ha2, ha3, ha4⟩ := hslots t ht
    have hob := offOf_bounds rs t ht
    have hts4 : 6 + totalLen rs ≤ 4086 - 4 * rs.length := by omega
    by_cases hts : t = s
    · subst hts
      refine ⟨?_, ?_, ?_, ?_⟩
      · show getU16 (writeBytes (writeBytes p.data (4086 - (t + 1) * 4)
          (u16LE (offOf rs t))) (4086 - (t + 1) * 4 + 2) (u16LE 0))
            (4086 - (t + 1) * 4) = _
        rw [getU16_writeBytes_outside _ _ _ _ (by left; omega),
          getU16_writeBytes_u16LE _ _ _ (by omega),
          offOf_markDel]
        omega
      · show readBytes (writeBytes (writeBytes p.data (4086 - (t + 1) * 4)
          (u16LE (offOf rs t))) (4086 - (t + 1) * 4 + 2) (u16LE 0))
            (offOf (markDel rs t) t)
            ((markDel rs t).getD t ([], false)).1.length = _
        rw [offOf_markDel, markDel_getD_eq rs t ht]
        show readBytes _ (offOf rs t) (rs.getD t ([], false)).1.length = _
        rw [readBytes_writeBytes_disjoint _ _ _ _ _ (by left; omega),
          readBytes_writeBytes_disjoint _ _ _ _ _ (by left; omega)]
        exact ha2
      · intro hbt
        rw [markDel_getD_eq rs t ht] at hbt
        simp at hbt
      · intro _
        show getU16 (writeBytes (writeBytes p.data (4086 - (t + 1) * 4)
          (u16LE (offOf rs t))) (4086 - (t + 1) * 4 + 2) (u16LE 0))
            (4086 - (t + 1) * 4 + 2) = 0
        rw [getU16_writeBytes_u16LE _ _ _
          (by rw [writeBytes_length]; omega)]
    · have htne4 : t + 1 ≤ rs.length ∧ s + 1 ≤ rs.length := by omega
      refine ⟨?_, ?_, ?_, ?_⟩
      · show getU16 (writeBytes (writeBytes p.data (4086 - (s + 1) * 4)
          (u16LE (offOf rs s))) (4086 - (s + 1) * 4 + 2) (u16LE 0))
            (4086 - (t + 1) * 4) = _
        rw [getU16_writeBytes_outside _ _ _ _
            (by rw [u16LE_length]; omega),
          getU16_writeBytes_outside _ _ _ _
            (by rw [u16LE_length]; omega),
          offOf_markDel]
        exact ha1
      · show readBytes (writeBytes (writeBytes p.data (4086 - (s + 1) * 4)
          (u16LE (offOf rs s))) (4086 - (s + 1) * 4 + 2) (u16LE 0))
            (offOf (markDel rs s) t)
            ((markDel rs s).getD t ([], false)).1.length = _
        rw [offOf_markDel, markDel_getD_ne rs s t hts]
        rw [readBytes_writeBytes_disjoint _ _ _ _ _ (by left; omega),
          readBytes_writeBytes_disjoint _ _ _ _ _ (by left; omega)]
        exact ha2
      · intro hbt
        rw [markDel_getD_ne rs s t hts] at hbt
        rw [markDel_getD_ne rs s t hts]
        show getU16 (writeBytes (writeBytes p.data (4086 - (s + 1) * 4)
          (u16LE (offOf rs s))) (4086 - (s + 1) * 4 + 2) (u16LE 0))
            (4086 - (t + 1) * 4 + 2) = _
        rw [getU16_writeBytes_outside _ _ _ _
            (by rw [u16LE_length]; omega),
          getU16_writeBytes_outside _ _ _ _
            (by rw [u16LE_length]; omega)]
        exact ha3 hbt
      · intro hbt
        rw [markDel_getD_ne rs s t hts] at hbt
        show getU16 (writeBytes (writeBytes p.data (4086 - (s + 1) * 4)
          (u16LE (offOf rs s))) (4086 - (s + 1) * 4 + 2) (u16LE 0))
            (4086 - (t + 1) * 4 + 2) = 0
        rw [getU16_writeBytes_outside _ _ _ _
            (by rw [u16LE_length]; omega),
          getU16_writeBytes_outside _ _ _ _
            (by rw [u16LE_length]; omega)]
        exact ha4 hbt

theorem insert_ok_shape (p : Page) (rec : List Nat) (sc fs fe : Nat)
    (hh : SlottedPage.header p = (sc, fs, fe)) (hd : p.data.length = 4086)
    (hfs6 : 6 ≤ fs) (hfe : fe ≤ 4086) (hdl : ¬ rec.length > 65535)
    (hns : ¬ SlottedPage.freeSpace p < ((rec.length + 4 : Nat) : Int)) :
    (SlottedPage.insert p rec).2.data.length = 4086 ∧
    (SlottedPage.insert p rec).2.dataSize = 4086 ∧
    (SlottedPage.insert p rec).2.id = p.id := by
  rw [insert_ok_eq p rec sc fs fe hh hd hfs6 hfe hdl hns]
  refine ⟨?_, rfl, rfl⟩
  rw [setHeader_data_length]
  show (writeBytes (writeBytes (writeBytes p.data fs rec)
    (4086 - (sc + 1) * 4) (u16LE fs)) (4086 - (sc + 1) * 4 + 2)
    (u16LE rec.length)).length = 4086
  rw [writeBytes_length, writeBytes_length, writeBytes_length]
  exact hd

theorem PageRep_insert (p : Page) (rs : List (List Nat × Bool)) (rec : List Nat)
    (h : PageRep p rs) (h0 : 0 < rec.length) (hdl : ¬ rec.length > 65535)
    (hns : ¬ SlottedPage.freeSpace p < ((rec.length + 4 : Nat) : Int)) :
    (SlottedPage.insert p rec).1 = .ok rs.length ∧
    (SlottedPage.insert p rec).2.id = p.id ∧
    PageRep (SlottedPage.insert p rec).2 (rs ++ [(rec, true)]) := by
  obtain ⟨hd, hds, hne, hfit, hh, hslots⟩ := h
  have hkey : 6 + totalLen rs + rec.length + 4 + 8 * rs.length ≤ 4086 := by
    rw [freeSpace_of_header p _ _ _ hh] at hns
    omega
  obtain ⟨hok, hhdr, hrec, hse1, hse2⟩ := insert_effects p rec rs.length
    (6 + totalLen rs) (4086 - 4 * rs.length) hh hd (by omega) (by omega) hdl hns
  obtain ⟨hq1, hq2, hq3⟩ := insert_ok_shape p rec rs.length
    (6 + totalLen rs) (4086 - 4 * rs.length) hh hd (by omega) (by omega) hdl hns
  have hout := insert_reads_outside p rec rs.length
    (6 + totalLen rs) (4086 - 4 * rs.length) hh hd (by omega) (by omega) hdl hns
  have hgout : ∀ k, 6 ≤ k →
      (k + 2 ≤ 6 + totalLen rs ∨ 6 + totalLen rs + rec.length ≤ k) →
      (k + 2 ≤ 4086 - (rs.length + 1) * 4 ∨ 4086 - (rs.length + 1) * 4 + 4 ≤ k) →
      getU16 (SlottedPage.insert p rec).2.data k = getU16 p.data k := by
    intro k hk h1 h2
    unfold getU16
    rw [hout k 2 hk h1 h2]
  refine ⟨hok, hq3, hq1, hq2, ?_, ?_, ?_, ?_⟩
  · intro t ht
    simp only [List.length_append, List.length_cons, List.length_nil] at ht
    by_cases htl : t < rs.length
    · rw [List.getD_append _ _ _ _ htl]
      exact hne t htl
    · have hteq : t = rs.length := by omega
      subst hteq
      rw [List.getD_append_right _ _ _ _ (Nat.le_refl _), Nat.sub_self]
      exact h0
  · rw [totalLen_append, List.length_append]
    simp only [totalLen, List.length_cons, List.length_nil]
    omega
  · rw [hhdr, totalLen_append, List.length_append]
    simp only [totalLen, List.length_cons, List.length_nil, Prod.mk.injEq]
    exact ⟨trivial, by omega, by omega⟩
  · intro t ht
    simp only [List.length_append, List.length_cons, List.length_nil] at ht
    have hpos6t : 6 ≤ 4086 - (t + 1) * 4 := by omega
    by_cases htl : t < rs.length
    · obtain ⟨ha1, ha2, ha3, ha4⟩ := hslots t htl
      obtain ⟨hob1, hob2⟩ := offOf_bounds rs t htl
      refine ⟨?_, ?_, ?_, ?_⟩
      · rw [offOf_append rs _ t (by omega)]
        rw [hgout (4086 - (t + 1) * 4) (by omega) (by omega) (by omega)]
        exact ha1
      · rw [offOf_append rs _ t (by omega), List.getD_append _ _ _ _ htl]
        rw [hout (offOf rs t) ((rs.getD t ([], false)).1.length) (by omega)
          (by left; omega) (by left; omega)]
        exact ha2
      · intro hbt
        rw [List.getD_append _ _ _ _ htl] at hbt ⊢
        rw [hgout (4086 - (t + 1) * 4 + 2) (by omega) (by omega) (by omega)]
        exact ha3 hbt
      · intro hbt
        rw [List.getD_append _ _ _ _ htl] at hbt
        rw [hgout (4086 - (t + 1) * 4 + 2) (by omega) (by omega) (by omega)]
        exact ha4 hbt
    · have hteq : t = rs.length := by omega
      subst hteq
      have hgd : (rs ++ [(rec, true)]).getD rs.length ([], false) = (rec, true) :=
        getD_append_last rs (rec, true) ([], false)
      have hoff : offOf (rs ++ [(rec, true)]) rs.length = 6 + totalLen rs := by
        unfold offOf
        rw [take_append_le rs [(rec, true)] rs.length (Nat.le_refl _),
          List.take_length]
      refine ⟨?_, ?_, ?_, ?_⟩
      · rw [hoff]
        exact hse1
      · rw [hoff, hgd]
        exact hrec
      · intro _
        rw [hgd]
        exact hse2
      · intro hbf
        rw [hgd] at hbf
        simp at hbf

/-- `HeapRep f rss`: every page of the heap file is a represented slotted page
whose stored id equals its index, with ghost records `rss`. -/
def HeapRep (f : List Page) (rss : List (List (List Nat × Bool))) : Prop :=
  f.length = rss.length ∧
  ∀ i, i < f.length →
    (f.getD i (freshHeapPage 0)).id = i ∧
    PageRep (f.getD i (freshHeapPage 0)) (rss.getD i [])

/-- One-record update of the ghost heap: append `(rec, true)` to page `pid`
(appending a fresh page when `pid` is just past the end). -/
def heapUpd (rss : List (List (List Nat × Bool))) (pid : Nat) (rec : List Nat) :
    List (List (List Nat × Bool)) :=
  if pid < rss.length then rss.set pid (rss.getD pid [] ++ [(rec, true)])
  else rss ++ [[(rec, true)]]

theorem heapUpd_getD_self (rss : List (List (List Nat × Bool))) (pid : Nat)
    (rec : List Nat) (hpid : pid ≤ rss.length) :
    (heapUpd rss pid rec).getD pid [] = rss.getD pid [] ++ [(rec, true)] := by
  unfold heapUpd
  by_cases hp : pid < rss.length
  · rw [if_pos hp, getD_set_self _ _ _ _ hp]
  · rw [if_neg hp]
    have hpe : pid = rss.length := by omega
    subst hpe
    rw [getD_append_last, List.getD_eq_default _ _ (Nat.le_refl _)]
    rfl

theorem heapUpd_getD_ne (rss : List (List (List Nat × Bool))) (pid : Nat)
    (rec : List Nat) (i : Nat) (hpid : pid ≤ rss.length) (hne : i ≠ pid) :
    (heapUpd rss pid rec).getD i [] = rss.getD i [] := by
  unfold heapUpd
  by_cases hp : pid < rss.length
  · rw [if_pos hp, getD_set_ne _ _ _ _ _ (by omega)]
  · rw [if_neg hp]
    by_cases hi : i < rss.length
    · rw [List.getD_append _ _ _ _ hi]
    · rw [List.getD_append_right _ _ _ _ (by omega),
        List.getD_eq_default _ _ (show ([[(rec, true)]] : List _).length ≤
          i - rss.length by
            show 1 ≤ i - rss.length
            omega),
        List.getD_eq_default _ _ (show rss.length ≤ i by omega)]

theorem readPageM_getD (f : List Page) (i : Nat) (hi : i < f.length) :
    readPageM f i = .ok (f.getD i (freshHeapPage 0)) := by
  unfold readPageM
  rw [List.get?_eq_getElem?, List.getElem?_eq_getElem hi,
    List.getD_eq_getElem f (freshHeapPage 0) hi]

theorem readPageM_none (f : List Page) (i : Nat) (hi : ¬ i < f.length) :
    readPageM f i = .error .io := by
  unfold readPageM
  rw [List.get?_eq_getElem?, List.getElem?_eq_none (by omega)]

theorem writePageM_set (f : List Page) (p : Page) (hds : ¬ p.dataSize > PayloadSize)
    (hid : p.id < f.length) :
    writePageM f p = .ok (f.set p.id p) := by
  unfold writePageM
  rw [if_neg hds, if_pos hid]

theorem writePageM_append (f : List Page) (p : Page)
    (hds : ¬ p.dataSize > PayloadSize) (hid : p.id = f.length) :
    writePageM f p = .ok (f ++ [p]) := by
  unfold writePageM
  rw [if_neg hds, if_neg (by omega), if_pos hid]

/-- `findPageWithSpace`'s result is either an existing page (run through
`init_if_fresh`) with enough free space, or a brand-new page at the end. -/
theorem findFrom_char (f : List Page) (need : Int) :
    ∀ fuel id,
      (∃ pid, pid < f.length ∧
        findPageWithSpaceFrom f need id fuel =
          .ok (pid, SlottedPage.initIfFresh (f.getD pid (freshHeapPage 0))) ∧
        need ≤ SlottedPage.freeSpace
          (SlottedPage.initIfFresh (f.getD pid (freshHeapPage 0)))) ∨
      findPageWithSpaceFrom f need id fuel =
        .ok (f.length, SlottedPage.initIfFresh (freshHeapPage f.length)) := by
  intro fuel
  induction fuel with
  | zero =>
    intro id
    right
    rfl
  | succ fuel ih =>
    intro id
    by_cases hid : id < f.length
    · have hr := readPageM_getD f id hid
      by_cases hfree : SlottedPage.freeSpace
          (SlottedPage.initIfFresh (f.getD id (freshHeapPage 0))) ≥ need
      · left
        exact ⟨id, hid, findFrom_hit f need id fuel _ hid hr hfree, hfree⟩
      · rw [findFrom_miss f need id fuel _ hid hr hfree]
        exact ih (id + 1)
    · right
      exact findFrom_fresh f need id _ hid

theorem HeapRep_get_alive (f : List Page) (rss : List (List (List Nat × Bool)))
    (rid : RID) (h : HeapRep f rss) (hp : rid.pageID < f.length)
    (hs : rid.slotID < (rss.getD rid.pageID []).length)
    (hb : ((rss.getD rid.pageID []).getD rid.slotID ([], false)).2 = true) :
    HeapFile.get f rid =
      .ok ((rss.getD rid.pageID []).getD rid.slotID ([], false)).1 := by
  obtain ⟨hlen, hpages⟩ := h
  obtain ⟨-, hrep⟩ := hpages rid.pageID hp
  unfold HeapFile.get
  rw [readPageM_getD f rid.pageID hp]
  show SlottedPage.read (f.getD rid.pageID (freshHeapPage 0)) rid.slotID = _
  exact PageRep_read_alive _ _ _ hrep hs hb

theorem HeapRep_get_dead (f : List Page) (rss : List (List (List Nat × Bool)))
    (rid : RID) (h : HeapRep f rss) (hp : rid.pageID < f.length)
    (hs : rid.slotID < (rss.getD rid.pageID []).length)
    (hb : ((rss.getD rid.pageID []).getD rid.slotID ([], false)).2 = false) :
    HeapFile.get f rid = .error .slotDeleted := by
  obtain ⟨hlen, hpages⟩ := h
  obtain ⟨-, hrep⟩ := hpages rid.pageID hp
  unfold HeapFile.get
  rw [readPageM_getD f rid.pageID hp]
  show SlottedPage.read (f.getD rid.pageID (freshHeapPage 0)) rid.slotID = _
  exact PageRep_read_dead _ _ _ hrep hs hb

/-- A succeeding `heap.insert` appends one live ghost record at the chosen
page and preserves the heap representation. -/
theorem HeapRep_insert_ok (f : List Page) (rss : List (List (List Nat × Bool)))
    (rec : List Nat) (f2 : List Page) (rid : RID)
    (h : HeapRep f rss) (h0 : 0 < rec.length)
    (hins : HeapFile.insert f rec = .ok (f2, rid)) :
    rid.pageID ≤ rss.length ∧
    rid.slotID = (rss.getD rid.pageID []).length ∧
    rid.pageID < f2.length ∧
    f.length ≤ f2.length ∧
    HeapRep f2 (heapUpd rss rid.pageID rec) := by
  obtain ⟨hlen, hpages⟩ := h
  unfold HeapFile.insert HeapFile.findPageWithSpace at hins
  rcases findFrom_char f ((rec.length + slotEntrySize : Nat) : Int) f.length 0 with
    ⟨pid, hpid, hfind, -⟩ | hfind
  · obtain ⟨hidp, hrep⟩ := hpages pid hpid
    rw [initIfFresh_of_rep _ _ hrep] at hfind
    rw [hfind] at hins
    have hins2 : (match SlottedPage.insert (f.getD pid (freshHeapPage 0)) rec with
      | (.error e, _) => (.error e : Except StorageErr (List Page × RID))
      | (.ok slot, sp2) =>
        match writePageM f sp2 with
        | .error e => .error e
        | .ok fx => .ok (fx, RID.mk pid slot)) = .ok (f2, rid) := hins
    rcases hI : SlottedPage.insert (f.getD pid (freshHeapPage 0)) rec with ⟨res, sp2⟩
    rw [hI] at hins2
    rcases res with e | slot
    · have h3 : (.error e : Except StorageErr (List Page × RID)) = .ok (f2, rid) :=
        hins2
      simp at h3
    · have hins3 : (match writePageM f sp2 with
        | .error e => (.error e : Except StorageErr (List Page × RID))
        | .ok fx => .ok (fx, RID.mk pid slot)) = .ok (f2, rid) := hins2
      have hdl : ¬ rec.length > 65535 := by
        intro hgt
        rw [insert_eq_of_dataTooLarge _ rec hgt] at hI
        simp at hI
      have hns : ¬ SlottedPage.freeSpace (f.getD pid (freshHeapPage 0)) <
          ((rec.length + 4 : Nat) : Int) := by
        intro hlt
        rw [insert_eq_of_noSpace _ rec hdl hlt] at hI
        simp at hI
      obtain ⟨hok, hqid, hrep2⟩ := PageRep_insert (f.getD pid (freshHeapPage 0))
        (rss.getD pid []) rec hrep h0 hdl hns
      rw [hI] at hok hqid hrep2
      have hslot : slot = (rss.getD pid []).length := by
        have h4 : (Except.ok slot : Except StorageErr Nat) =
            .ok (rss.getD pid []).length := hok
        simp only [Except.ok.injEq] at h4
        exact h4
      have hq2 : sp2.id = pid := by
        have h5 : sp2.id = (f.getD pid (freshHeapPage 0)).id := hqid
        rw [h5, hidp]
      have hrep2' : PageRep sp2 (rss.getD pid [] ++ [(rec, true)]) := hrep2
      have hds2 : sp2.dataSize = 4086 := hrep2'.2.1
      have hw : writePageM f sp2 = .ok (f.set pid sp2) := by
        rw [writePageM_set f sp2 (by rw [hds2, payloadSize_eq]; omega)
          (by rw [hq2]; exact hpid), hq2]
      rw [hw] at hins3
      have h6 : (Except.ok (f.set pid sp2, RID.mk pid slot) :
          Except StorageErr (List Page × RID)) = .ok (f2, rid) := hins3
      simp only [Except.ok.injEq, Prod.mk.injEq] at h6
      obtain ⟨hf2, hrid⟩ := h6
      subst hslot
      subst hrid
      subst hf2
      refine ⟨?_, rfl, ?_, ?_, ?_, ?_⟩
      · show pid ≤ rss.length
        omega
      · show pid < (f.set pid sp2).length
        rw [List.length_set]
        exact hpid
      · simp [List.length_set]
      · show (f.set pid sp2).length = (heapUpd rss pid rec).length
        unfold heapUpd
        rw [if_pos (by omega), List.length_set, List.length_set]
        exact hlen
      · intro i hi
        rw [List.length_set] at hi
        by_cases hip : i = pid
        · subst hip
          rw [getD_set_self f i sp2 _ (by omega),
            heapUpd_getD_self rss i rec (by omega)]
          exact ⟨hq2, hrep2'⟩
        · rw [getD_set_ne f pid i sp2 _ (by omega),
            heapUpd_getD_ne rss pid rec i (by omega) hip]
          exact hpages i hi
  · rw [hfind] at hins
    have hins2 : (match SlottedPage.insert (SlottedPage.initIfFresh
        (freshHeapPage f.length)) rec with
      | (.error e, _) => (.error e : Except StorageErr (List Page × RID))
      | (.ok slot, sp2) =>
        match writePageM f sp2 with
        | .error e => .error e
        | .ok fx => .ok (fx, RID.mk f.length slot)) = .ok (f2, rid) := hins
    have hrepF : PageRep (SlottedPage.initIfFresh (freshHeapPage f.length)) [] :=
      PageRep_fresh f.length
    rcases hI : SlottedPage.insert (SlottedPage.initIfFresh
        (freshHeapPage f.length)) rec with ⟨res, sp2⟩
    rw [hI] at hins2
    rcases res with e | slot
    · have h3 : (.error e : Except StorageErr (List Page × RID)) = .ok (f2, rid) :=
        hins2
      simp at h3
    · have hins3 : (match writePageM f sp2 with
        | .error e => (.error e : Except StorageErr (List Page × RID))
        | .ok fx => .ok (fx, RID.mk f.length slot)) = .ok (f2, rid) := hins2
      have hdl : ¬ rec.length > 65535 := by
        intro hgt
        rw [insert_eq_of_dataTooLarge _ rec hgt] at hI
        simp at hI
      have hns : ¬ SlottedPage.freeSpace (SlottedPage.initIfFresh
          (freshHeapPage f.length)) < ((rec.length + 4 : Nat) : Int) := by
        intro hlt
        rw [insert_eq_of_noSpace _ rec hdl hlt] at hI
        simp at hI
      obtain ⟨hok, hqid, hrep2⟩ := PageRep_insert _ [] rec hrepF h0 hdl hns
      rw [hI] at hok hqid hrep2
      have hslot : slot = 0 := by
        have h4 : (Except.ok slot : Except StorageErr Nat) =
            .ok ([] : List (List Nat × Bool)).length := hok
        simp only [Except.ok.injEq] at h4
        rw [h4]
        rfl
      have hq2 : sp2.id = f.length := by
        have h5 : sp2.id = (SlottedPage.initIfFresh (freshHeapPage f.length)).id :=
          hqid
        rw [h5, initIfFresh_freshHeapPage]
        rfl
      have hrep2' : PageRep sp2 [(rec, true)] := hrep2
      have hds2 : sp2.dataSize = 4086 := hrep2'.2.1
      have hw : writePageM f sp2 = .ok (f ++ [sp2]) :=
        writePageM_append f sp2 (by rw [hds2, payloadSize_eq]; omega) hq2
      rw [hw] at hins3
      have h6 : (Except.ok (f ++ [sp2], RID.mk f.length slot) :
          Except StorageErr (List Page × RID)) = .ok (f2, rid) := hins3
      simp only [Except.ok.injEq, Prod.mk.injEq] at h6
      obtain ⟨hf2, hrid⟩ := h6
      subst hslot
      subst hrid
      subst hf2
      have hL : rss.getD f.length [] = [] :=
        List.getD_eq_default _ _ (by omega)
      have hupd : heapUpd rss f.length rec = rss ++ [[(rec, true)]] := by
        unfold heapUpd
        rw [if_neg (by omega)]
      refine ⟨?_, ?_, ?_, ?_, ?_, ?_⟩
      · show f.length ≤ rss.length
        omega
      · show (0 : Nat) = (rss.getD f.length []).length
        rw [hL]
        rfl
      · show f.length < (f ++ [sp2]).length
        simp only [List.length_append, List.length_cons, List.length_nil]
        omega
      · simp only [List.length_append, List.length_cons, List.length_nil]
        omega
      · show (f ++ [sp2]).length = (heapUpd rss f.length rec).length
        rw [hupd]
        simp only [List.length_append, List.length_cons, List.length_nil]
        omega
      · intro i hi
        rw [hupd]
        simp only [List.length_append, List.length_cons, List.length_nil] at hi
        by_cases hip : i < f.length
        · rw [List.getD_append _ _ _ _ hip, List.getD_append _ _ _ _ (by omega)]
          exact hpages i hip
        · have hie : i = f.length := by omega
          subst hie
          rw [getD_append_last f sp2 (freshHeapPage 0)]
          refine ⟨hq2, ?_⟩
          rw [hlen, getD_append_last]
          exact hrep2'

/-- A succeeding `heap.delete` marks exactly the targeted ghost record deleted
and preserves the heap representation. -/
theorem HeapRep_delete_ok (f : List Page) (rss : List (List (List Nat × Bool)))
    (rid : RID) (f2 : List Page) (h : HeapRep f rss)
    (hdel : HeapFile.delete f rid = .ok f2) :
    rid.pageID < f.length ∧
    rid.slotID < (rss.getD rid.pageID []).length ∧
    f2.length = f.length ∧
    HeapRep f2 (rss.set rid.pageID
      (markDel (rss.getD rid.pageID []) rid.slotID)) := by
  obtain ⟨hlen, hpages⟩ := h
  by_cases hp : rid.pageID < f.length
  · obtain ⟨hidp, hrep⟩ := hpages rid.pageID hp
    unfold HeapFile.delete at hdel
    rw [readPageM_getD f rid.pageID hp] at hdel
    have hdel2 : (match SlottedPage.delete (f.getD rid.pageID (freshHeapPage 0))
        rid.slotID with
      | .error e => (.error e : Except StorageErr (List Page))
      | .ok p2 => writePageM f p2) = .ok f2 := hdel
    by_cases hs : rid.slotID < (rss.getD rid.pageID []).length
    · obtain ⟨p2, hd2, hid2, hrep2⟩ := PageRep_delete_ok _ _ _ hrep hs
      rw [hd2] at hdel2
      have h4 : writePageM f p2 = .ok f2 := hdel2
      have hds2 : p2.dataSize = 4086 := hrep2.2.1
      have hq2 : p2.id = rid.pageID := by rw [hid2, hidp]
      rw [writePageM_set f p2 (by rw [hds2, payloadSize_eq]; omega)
        (by rw [hq2]; exact hp), hq2] at h4
      have h5 : f.set rid.pageID p2 = f2 := by
        have h6 : (Except.ok (f.set rid.pageID p2) :
            Except StorageErr (List Page)) = .ok f2 := h4
        simp only [Except.ok.injEq] at h6
        exact h6
      subst h5
      refine ⟨hp, hs, by rw [List.length_set], ?_, ?_⟩
      · rw [List.length_set, List.length_set]
        exact hlen
      · intro i hi
        rw [List.length_set] at hi
        by_cases hip : i = rid.pageID
        · rw [hip]
          rw [getD_set_self f rid.pageID p2 _ (by omega),
            getD_set_self rss rid.pageID _ _ (by omega)]
          exact ⟨hq2, hrep2⟩
        · rw [getD_set_ne f rid.pageID i p2 _ (by omega),
            getD_set_ne rss rid.pageID i _ _ (by omega)]
          exact hpages i hi
    · rw [PageRep_delete_bad _ _ _ hrep hs] at hdel2
      have h3 : (.error .badSlotID : Except StorageErr (List Page)) = .ok f2 :=
        hdel2
      simp at h3
  · unfold HeapFile.delete at hdel
    rw [readPageM_none f rid.pageID hp] at hdel
    have h3 : (.error .io : Except StorageErr (List Page)) = .ok f2 := hdel
    simp at h3

theorem scanPage_stop (p : Page) (id : Nat) (visit : RID → List Nat → Bool)
    (sc s fuel : Nat) (hs : ¬ s < sc) :
    scanPageFrom p id visit sc s fuel = (.ok true, []) := by
  cases fuel with
  | zero => rfl
  | succ fuel =>
    unfold scanPageFrom
    rw [if_neg hs]

theorem scanPage_deleted (p : Page) (id : Nat) (visit : RID → List Nat → Bool)
    (sc s fuel : Nat) (hs : s < sc)
    (hr : SlottedPage.read p s = .error .slotDeleted) :
    scanPageFrom p id visit sc s (fuel + 1) =
      scanPageFrom p id visit sc (s + 1) fuel := by
  conv_lhs => unfold scanPageFrom
  rw [if_pos hs, hr]
  show (if StorageErr.slotDeleted = StorageErr.slotDeleted then
      scanPageFrom p id visit sc (s + 1) fuel
    else ((.error .slotDeleted, []) :
      Except StorageErr Bool × List (RID × List Nat))) = _
  rw [if_pos rfl]

theorem scanPage_err (p : Page) (id : Nat) (visit : RID → List Nat → Bool)
    (sc s fuel : Nat) (e : StorageErr) (hs : s < sc)
    (hr : SlottedPage.read p s = .error e) (he : ¬ e = .slotDeleted) :
    scanPageFrom p id visit sc s (fuel + 1) = (.error e, []) := by
  unfold scanPageFrom
  rw [if_pos hs, hr]
  show (if e = StorageErr.slotDeleted then
      scanPageFrom p id visit sc (s + 1) fuel
    else ((.error e, []) : Except StorageErr Bool × List (RID × List Nat))) = _
  rw [if_neg he]

theorem scanPage_visit (p : Page) (id : Nat) (visit : RID → List Nat → Bool)
    (sc s fuel : Nat) (b : List Nat) (hs : s < sc)
    (hr : SlottedPage.read p s = .ok b) :
    scanPageFrom p id visit sc s (fuel + 1) =
      (if visit (RID.mk id s) b then
        ((scanPageFrom p id visit sc (s + 1) fuel).1,
          (RID.mk id s, b) :: (scanPageFrom p id visit sc (s + 1) fuel).2)
      else (.ok false, [(RID.mk id s, b)])) := by
  conv_lhs => unfold scanPageFrom
  rw [if_pos hs, hr]

/-- Every entry of the per-page scan log is a slot of that page whose `Read`
succeeded. -/
theorem scanPage_log (p : Page) (id : Nat) (visit : RID → List Nat → Bool)
    (sc : Nat) :
    ∀ fuel s r b, (r, b) ∈ (scanPageFrom p id visit sc s fuel).2 →
      ∃ t, r = RID.mk id t ∧ SlottedPage.read p t = .ok b := by
  intro fuel
  induction fuel with
  | zero =>
    intro s r b hmem
    have h0 : (scanPageFrom p id visit sc s 0).2 = [] := rfl
    rw [h0] at hmem
    simp at hmem
  | succ fuel ih =>
    intro s r b hmem
    by_cases hs : s < sc
    · rcases hr : SlottedPage.read p s with e | bb
      · by_cases he : e = .slotDeleted
        · subst he
          rw [scanPage_deleted p id visit sc s fuel hs hr] at hmem
          exact ih (s + 1) r b hmem
        · rw [scanPage_err p id visit sc s fuel e hs hr he] at hmem
          simp at hmem
      · rw [scanPage_visit p id visit sc s fuel bb hs hr] at hmem
        by_cases hv : visit (RID.mk id s) bb = true
        · rw [if_pos hv] at hmem
          simp only [List.mem_cons] at hmem
          rcases hmem with hmem | hmem
          · rw [Prod.mk.injEq] at hmem
            obtain ⟨h1, h2⟩ := hmem
            refine ⟨s, h1, ?_⟩
            rw [← h2] at hr
            exact hr
          · exact ih (s + 1) r b hmem
        · rw [if_neg hv] at hmem
          simp only [List.mem_cons, List.not_mem_nil, or_false] at hmem
          rw [Prod.mk.injEq] at hmem
          obtain ⟨h1, h2⟩ := hmem
          refine ⟨s, h1, ?_⟩
          rw [← h2] at hr
          exact hr
    · rw [scanPage_stop p id visit sc s (fuel + 1) hs] at hmem
      simp at hmem

theorem scanFrom_stop (f : List Page) (visit : RID → List Nat → Bool)
    (id fuel : Nat) (hid : ¬ id < f.length) :
    scanFrom f visit id fuel = (.ok (), []) := by
  cases fuel with
  | zero => rfl
  | succ fuel =>
    unfold scanFrom
    rw [if_neg hid]

theorem scanFrom_readErr (f : List Page) (visit : RID → List Nat → Bool)
    (id fuel : Nat) (e : StorageErr) (hid : id < f.length)
    (hr : readPageM f id = .error e) :
    scanFrom f visit id (fuel + 1) = (.error e, []) := by
  unfold scanFrom
  rw [if_pos hid, hr]

theorem scanFrom_step (f : List Page) (visit : RID → List Nat → Bool)
    (id fuel : Nat) (p : Page) (hid : id < f.length)
    (hr : readPageM f id = .ok p) :
    scanFrom f visit id (fuel + 1) =
      (match scanPageFrom p id visit (SlottedPage.header p).1 0
          (SlottedPage.header p).1 with
      | (.error e, log) => (.error e, log)
      | (.ok false, log) => (.ok (), log)
      | (.ok true, log) =>
        match scanFrom f visit (id + 1) fuel with
        | (res, log2) => (res, log ++ log2)) := by
  conv_lhs => unfold scanFrom
  rw [if_pos hid, hr]

/-- Every entry of the heap scan log is a slot of some page of the file whose
`Read` succeeded. -/
theorem scanFrom_log (f : List Page) (visit : RID → List Nat → Bool) :
    ∀ fuel id r b, (r, b) ∈ (scanFrom f visit id fuel).2 →
      ∃ i t p, readPageM f i = .ok p ∧ r = RID.mk i t ∧
        SlottedPage.read p t = .ok b := by
  intro fuel
  induction fuel with
  | zero =>
    intro id r b hmem
    have h0 : (scanFrom f visit id 0).2 = [] := rfl
    rw [h0] at hmem
    simp at hmem
  | succ fuel ih =>
    intro id r b hmem
    by_cases hid : id < f.length
    · rcases hr : readPageM f id with e | p
      · rw [scanFrom_readErr f visit id fuel e hid hr] at hmem
        simp at hmem
      · rw [scanFrom_step f visit id fuel p hid hr] at hmem
        rcases hsp : scanPageFrom p id visit (SlottedPage.header p).1 0
            (SlottedPage.header p).1 with ⟨res, log⟩
        rw [hsp] at hmem
        rcases res with e | bres
        · have hmem2 : (r, b) ∈ log := hmem
          obtain ⟨t, h1, h2⟩ := scanPage_log p id visit (SlottedPage.header p).1
            (SlottedPage.header p).1 0 r b (by rw [hsp]; exact hmem2)
          exact ⟨id, t, p, hr, h1, h2⟩
        · cases bres
          · have hmem2 : (r, b) ∈ log := hmem
            obtain ⟨t, h1, h2⟩ := scanPage_log p id visit (SlottedPage.header p).1
              (SlottedPage.header p).1 0 r b (by rw [hsp]; exact hmem2)
            exact ⟨id, t, p, hr, h1, h2⟩
          · rcases hsf : scanFrom f visit (id + 1) fuel with ⟨res2, log2⟩
            have hmem2 : (r, b) ∈ log ++ log2 := by
              rw [hsf] at hmem
              exact hmem
            rcases List.mem_append.mp hmem2 with hm | hm
            · obtain ⟨t, h1, h2⟩ := scanPage_log p id visit
                (SlottedPage.header p).1 (SlottedPage.header p).1 0 r b
                (by rw [hsp]; exact hm)
              exact ⟨id, t, p, hr, h1, h2⟩
            · exact ih (id + 1) r b (by rw [hsf]; exact hm)
    · rw [scanFrom_stop f visit id (fuel + 1) hid] at hmem
      simp at hmem

/-- Heap states reachable from an empty file by successful inserts of nonempty
records and successful deletes.  `ops` collects the inserted `(rid, record)`
pairs (newest first), `dels` the successfully deleted rids. -/
inductive HeapReach : List Page → List (RID × List Nat) → List RID → Prop where
  | init : HeapReach [] [] []
  | insStep (f : List Page) (ops : List (RID × List Nat)) (dels : List RID)
      (rec : List Nat) (f2 : List Page) (rid : RID) :
      HeapReach f ops dels → rec ≠ [] →
      HeapFile.insert f rec = .ok (f2, rid) →
      HeapReach f2 ((rid, rec) :: ops) dels
  | delStep (f : List Page) (ops : List (RID × List Nat)) (dels : List RID)
      (rid : RID) (f2 : List Page) :
      HeapReach f ops dels →
      HeapFile.delete f rid = .ok f2 →
      HeapReach f2 ops (rid :: dels)

/-- Ghost-state invariant of reachable heap states: some record table `rss`
represents the file; inserted-and-not-deleted rids map to their live record;
deleted rids map to a dead slot. -/
theorem heapReach_invariant (f : List Page) (ops : List (RID × List Nat))
    (dels : List RID) (h : HeapReach f ops dels) :
    ∃ rss, HeapRep f rss ∧
      (∀ rid rec, (rid, rec) ∈ ops → rid ∉ dels →
        rid.pageID < f.length ∧
        rid.slotID < (rss.getD rid.pageID []).length ∧
        (rss.getD rid.pageID []).getD rid.slotID ([], false) = (rec, true)) ∧
      (∀ rid, rid ∈ dels →
        rid.pageID < f.length ∧
        rid.slotID < (rss.getD rid.pageID []).length ∧
        ((rss.getD rid.pageID []).getD rid.slotID ([], false)).2 = false) := by
  induction h with
  | init =>
    refine ⟨[], ⟨rfl, ?_⟩, ?_, ?_⟩
    · intro i hi
      simp at hi
    · intro rid rec hmem
      simp at hmem
    · intro rid hmem
      simp at hmem
  | insStep f0 ops0 dels0 rec f2 rid hreach hrec hins ih =>
    obtain ⟨rss, hrep, hmemIns, hmemDel⟩ := ih
    have h0 : 0 < rec.length := by
      cases rec with
      | nil => exact absurd rfl hrec
      | cons a l => simp
    obtain ⟨hple, hsid, hplt, hflen, hrep2⟩ :=
      HeapRep_insert_ok f0 rss rec f2 rid hrep h0 hins
    obtain ⟨hlen0, -⟩ := hrep
    refine ⟨heapUpd rss rid.pageID rec, hrep2, ?_, ?_⟩
    · intro r rc hmem hnd
      rcases List.mem_cons.mp hmem with heq | hmem0
      · rw [Prod.mk.injEq] at heq
        obtain ⟨hr1, hr2⟩ := heq
        subst hr1
        subst hr2
        refine ⟨hplt, ?_, ?_⟩
        · rw [heapUpd_getD_self rss r.pageID rc hple]
          simp only [List.length_append, List.length_cons, List.length_nil]
          omega
        · rw [heapUpd_getD_self rss r.pageID rc hple, hsid, getD_append_last]
      · obtain ⟨ha1, ha2, ha3⟩ := hmemIns r rc hmem0 hnd
        by_cases hrp : r.pageID = rid.pageID
        · refine ⟨by omega, ?_, ?_⟩
          · rw [hrp, heapUpd_getD_self rss rid.pageID rec hple]
            rw [hrp] at ha2
            simp only [List.length_append, List.length_cons, List.length_nil]
            omega
          · rw [hrp, heapUpd_getD_self rss rid.pageID rec hple]
            rw [hrp] at ha2 ha3
            rw [List.getD_append _ _ _ _ ha2]
            exact ha3
        · refine ⟨by omega, ?_, ?_⟩
          · rw [heapUpd_getD_ne rss rid.pageID rec r.pageID hple hrp]
            exact ha2
          · rw [heapUpd_getD_ne rss rid.pageID rec r.pageID hple hrp]
            exact ha3
    · intro r hmem
      obtain ⟨ha1, ha2, ha3⟩ := hmemDel r hmem
      by_cases hrp : r.pageID = rid.pageID
      · refine ⟨by omega, ?_, ?_⟩
        · rw [hrp, heapUpd_getD_self rss rid.pageID rec hple]
          rw [hrp] at ha2
          simp only [List.length_append, List.length_cons, List.length_nil]
          omega
        · rw [hrp, heapUpd_getD_self rss rid.pageID rec hple]
          rw [hrp] at ha2 ha3
          rw [List.getD_append _ _ _ _ ha2]
          exact ha3
      · refine ⟨by omega, ?_, ?_⟩
        · rw [heapUpd_getD_ne rss rid.pageID rec r.pageID hple hrp]
          exact ha2
        · rw [heapUpd_getD_ne rss rid.pageID rec r.pageID hple hrp]
          exact ha3
  | delStep f0 ops0 dels0 rid f2 hreach hdel ih =>
    obtain ⟨rss, hrep, hmemIns, hmemDel⟩ := ih
    obtain ⟨hplt, hslt, hflen, hrep2⟩ := HeapRep_delete_ok f0 rss rid f2 hrep hdel
    obtain ⟨hlen0, -⟩ := hrep
    refine ⟨rss.set rid.pageID (markDel (rss.getD rid.pageID []) rid.slotID),
      hrep2, ?_, ?_⟩
    · intro r rc hmem hnd
      have hnd0 : r ∉ dels0 := fun hm => hnd (List.mem_cons_of_mem _ hm)
      have hner : r ≠ rid := fun he => hnd (he ▸ List.mem_cons_self _ _)
      obtain ⟨ha1, ha2, ha3⟩ := hmemIns r rc hmem hnd0
      by_cases hrp : r.pageID = rid.pageID
      · have hrs : r.slotID ≠ rid.slotID := by
          intro he
          apply hner
          cases r
          cases rid
          rw [RID.mk.injEq]
          exact ⟨hrp, he⟩
        refine ⟨by omega, ?_, ?_⟩
        · rw [hrp, getD_set_self rss rid.pageID _ _ (by omega), markDel_length]
          rw [hrp] at ha2
          exact ha2
        · rw [hrp, getD_set_self rss rid.pageID _ _ (by omega),
            markDel_getD_ne _ _ _ hrs]
          rw [hrp] at ha3
          exact ha3
      · refine ⟨by omega, ?_, ?_⟩
        · rw [getD_set_ne rss rid.pageID r.pageID _ _ (by omega)]
          exact ha2
        · rw [getD_set_ne rss rid.pageID r.pageID _ _ (by omega)]
          exact ha3
    · intro r hmem
      rcases List.mem_cons.mp hmem with heq | hmem0
      · subst heq
        refine ⟨by omega, ?_, ?_⟩
        · rw [getD_set_self rss r.pageID _ _ (by omega), markDel_length]
          exact hslt
        · rw [getD_set_self rss r.pageID _ _ (by omega),
            markDel_getD_eq _ _ hslt]
      · obtain ⟨ha1, ha2, ha3⟩ := hmemDel r hmem0
        by_cases hrp : r.pageID = rid.pageID
        · by_cases hrs : r.slotID = rid.slotID
          · refine ⟨by omega, ?_, ?_⟩
            · rw [hrp, getD_set_self rss rid.pageID _ _ (by omega),
                markDel_length]
              rw [hrp] at ha2
              exact ha2
            · rw [hrp, hrs, getD_set_self rss rid.pageID _ _ (by omega),
                markDel_getD_eq _ _ hslt]
          · refine ⟨by omega, ?_, ?_⟩
            · rw [hrp, getD_set_self rss rid.pageID _ _ (by omega),
                markDel_length]
              rw [hrp] at ha2
              exact ha2
            · rw [hrp, getD_set_self rss rid.pageID _ _ (by omega),
                markDel_getD_ne _ _ _ hrs]
              rw [hrp] at ha3
              exact ha3
        · refine ⟨by omega, ?_, ?_⟩
          · rw [getD_set_ne rss rid.pageID r.pageID _ _ (by omega)]
            exact ha2
          · rw [getD_set_ne rss rid.pageID r.pageID _ _ (by omega)]
            exact ha3

/-- C4 (amended): for every heap state reachable by successful inserts of
NONEMPTY records and successful deletes, `get(rid)` returns exactly the
inserted bytes for every inserted rid not (yet) deleted; `get(rid)` fails with
`SlotDeleted` for every deleted rid; and a deleted rid is never visited by
`scan`.  (The nonemptiness restriction is necessary: inserting the empty
record succeeds but its slot stores length 0, which `Read` reports as
`SlotDeleted` — see the counterexample.) -/
theorem heap_round_trip (f : List Page) (ops : List (RID × List Nat))
    (dels : List RID) (h : HeapReach f ops dels) :
    (∀ rid rec, (rid, rec) ∈ ops → rid ∉ dels →
      HeapFile.get f rid = .ok rec) ∧
    (∀ rid, rid ∈ dels → HeapFile.get f rid = .error .slotDeleted) ∧
    (∀ visit rid b, rid ∈ dels → (rid, b) ∉ (HeapFile.scan f visit).2) := by
  obtain ⟨rss, hrep, hmemIns, hmemDel⟩ := heapReach_invariant f ops dels h
  refine ⟨?_, ?_, ?_⟩
  · intro rid rec hmem hnd
    obtain ⟨h1, h2, h3⟩ := hmemIns rid rec hmem hnd
    have hga := HeapRep_get_alive f rss rid hrep h1 h2 (by rw [h3])
    rw [h3] at hga
    exact hga
  · intro rid hmem
    obtain ⟨h1, h2, h3⟩ := hmemDel rid hmem
    exact HeapRep_get_dead f rss rid hrep h1 h2 h3
  · intro visit rid b hmem hvis
    obtain ⟨h1, h2, h3⟩ := hmemDel rid hmem
    have hvis2 : (rid, b) ∈ (scanFrom f visit 0 f.length).2 := hvis
    obtain ⟨i, t, p, hrp, hr1, hr2⟩ := scanFrom_log f visit f.length 0 rid b hvis2
    have hi : i < f.length := by
      by_contra hni
      rw [readPageM_none f i hni] at hrp
      simp at hrp
    rw [readPageM_getD f i hi] at hrp
    have hpe : p = f.getD i (freshHeapPage 0) := by
      simp only [Except.ok.injEq] at hrp
      exact hrp.symm
    subst hpe
    subst hr1
    obtain ⟨hlen0, hpages⟩ := hrep
    obtain ⟨-, hprep⟩ := hpages i hi
    have h2' : t < (rss.getD i []).length := h2
    have h3' : ((rss.getD i []).getD t ([], false)).2 = false := h3
    rw [PageRep_read_dead _ _ _ hprep h2' h3'] at hr2
    simp at hr2

/-- All effects of one `heap.insert` into the empty heap, fully explicit. -/
theorem heap_insert_concrete (rec : List Nat) (hlen : rec.length ≤ 4076) :
    HeapFile.insert [] rec =
      .ok ([(SlottedPage.insert (SlottedPage.initIfFresh (freshHeapPage 0))
        rec).2], RID.mk 0 0) := by
  unfold HeapFile.insert HeapFile.findPageWithSpace
  rw [findFrom_fresh [] _ 0 _ (by simp)]
  show (match SlottedPage.insert (SlottedPage.initIfFresh (freshHeapPage 0))
      rec with
    | (.error e, _) => (.error e : Except StorageErr (List Page × RID))
    | (.ok slot, sp2) =>
      match writePageM [] sp2 with
      | .error e => .error e
      | .ok f2 => .ok (f2, RID.mk 0 slot)) = _
  have hh : SlottedPage.header (SlottedPage.initIfFresh (freshHeapPage 0)) =
      (0, 6, 4086) := (PageRep_fresh 0).2.2.2.2.1
  have hd0 : (SlottedPage.initIfFresh (freshHeapPage 0)).data.length = 4086 :=
    (PageRep_fresh 0).1
  have hdl : ¬ rec.length > 0xFFFF := by omega
  have hns : ¬ SlottedPage.freeSpace (SlottedPage.initIfFresh (freshHeapPage 0)) <
      ((rec.length + slotEntrySize : Nat) : Int) := by
    rw [freeSpace_initIfFresh_fresh]
    simp only [slotEntrySize]
    push_cast
    omega
  have heq := insert_ok_eq _ rec 0 6 4086 hh hd0 (by omega) (by omega) hdl hns
  rcases hI : SlottedPage.insert (SlottedPage.initIfFresh (freshHeapPage 0)) rec
    with ⟨res, sp2⟩
  have hpair := hI.symm.trans heq
  rw [Prod.mk.injEq] at hpair
  obtain ⟨hres, hsp2⟩ := hpair
  subst hres
  have hds2 : sp2.dataSize = 4086 := by
    rw [hsp2]
    rfl
  have hq2 : sp2.id = 0 := by
    rw [hsp2]
    show (SlottedPage.initIfFresh (freshHeapPage 0)).id = 0
    rw [initIfFresh_freshHeapPage]
    rfl
  show (match writePageM [] sp2 with
    | .error e => (.error e : Except StorageErr (List Page × RID))
    | .ok f2 => .ok (f2, RID.mk 0 0)) = _
  rw [writePageM_append [] sp2 (by rw [hds2, payloadSize_eq]; omega)
    (by rw [hq2]; rfl)]
  rfl

/-- The heap state after inserting `[42]` into the empty heap. -/
def pageW : Page :=
  (SlottedPage.insert (SlottedPage.initIfFresh (freshHeapPage 0)) [42]).2

theorem heapReachW : HeapReach [pageW] [(RID.mk 0 0, [42])] [] :=
  HeapReach.insStep [] [] [] [42] [pageW] (RID.mk 0 0) HeapReach.init
    (by simp) (heap_insert_concrete [42] (by decide))

theorem heap_round_trip_witness :
    HeapFile.get [pageW] (RID.mk 0 0) = .ok [42] :=
  (heap_round_trip [pageW] [(RID.mk 0 0, [42])] [] heapReachW).1
    (RID.mk 0 0) [42] (by simp) (by simp)

/-- C4 counterexample: inserting the EMPTY record succeeds and yields a rid,
but `get` on that rid — never deleted — fails with `SlotDeleted`, because the
slot's stored length 0 is the deletion marker.  This refutes the unrestricted
claim that `get` returns the inserted bytes for every rid a successful insert
yields. -/
theorem heap_round_trip_counterexample :
    ∃ f2 rid, HeapFile.insert [] [] = .ok (f2, rid) ∧
      HeapFile.get f2 rid = .error .slotDeleted := by
  refine ⟨_, _, heap_insert_concrete [] (by decide), ?_⟩
  have hh : SlottedPage.header (SlottedPage.initIfFresh (freshHeapPage 0)) =
      (0, 6, 4086) := (PageRep_fresh 0).2.2.2.2.1
  have hd0 : (SlottedPage.initIfFresh (freshHeapPage 0)).data.length = 4086 :=
    (PageRep_fresh 0).1
  have hns : ¬ SlottedPage.freeSpace (SlottedPage.initIfFresh (freshHeapPage 0)) <
      ((([] : List Nat).length + 4 : Nat) : Int) := by
    rw [freeSpace_initIfFresh_fresh]
    decide
  obtain ⟨hok, hhdr, hrec, hse1, hse2⟩ := insert_effects
    (SlottedPage.initIfFresh (freshHeapPage 0)) [] 0 6 4086 hh hd0 (by omega)
    (by omega) (by decide) hns
  have hgs : SlottedPage.getSlot
      (SlottedPage.insert (SlottedPage.initIfFresh (freshHeapPage 0)) []).2 0 =
      .ok (6, 0) := by
    unfold SlottedPage.getSlot
    have e1 : (SlottedPage.header
        (SlottedPage.insert (SlottedPage.initIfFresh (freshHeapPage 0)) []).2).1 =
        0 + 1 := by rw [hhdr]
    rw [e1, if_neg (by omega), if_neg (by decide),
      show ((slotPos 0).toNat : Nat) = 4086 - (0 + 1) * 4 by decide,
      hse1, hse2]
    rfl
  unfold HeapFile.get
  rw [readPageM_getD
    [(SlottedPage.insert (SlottedPage.initIfFresh (freshHeapPage 0)) []).2] 0
    (by simp)]
  show SlottedPage.read
    (SlottedPage.insert (SlottedPage.initIfFresh (freshHeapPage 0)) []).2 0 =
    .error .slotDeleted
  unfold SlottedPage.read
  rw [hgs]
  show (if (0 : Nat) = 0 then (.error .slotDeleted : Except StorageErr (List Nat))
    else if 6 + 0 > PayloadSize then .error .sliceOob
    else .ok (readBytes
      (SlottedPage.insert (SlottedPage.initIfFresh (freshHeapPage 0)) []).2.data
      6 0)) = _
  rw [if_pos rfl]

/-! ## B-tree index (`index` package)

The on-disk B-tree operates on `storage.Page`s through `ReadPage`/`WritePage`;
as for the heap file, the page store is modelled as the list of its pages
(page id = index) via `readPageM`/`writePageM`, the view justified by the
byte-codec theorems above.  Go slice/array indexing that can go out of range
is modelled by an explicit `oob` outcome at the exact program point (in Go
these are runtime panics that crash the process).  Loops and the unbounded
descent/ascent recursions take a fuel argument; fuel exhaustion (possible
only on cyclic or corrupt page graphs, where the Go code would not terminate)
surfaces as a storage `io` error. -/

/-- Errors of the `index` package: a storage-layer error, `ErrDupKey`,
`ErrCorruption`, or a Go panic (index/slice out of range). -/
inductive BtErr where
  | st (e : StorageErr)
  | dupKey
  | corruption
  | oob
deriving DecidableEq

def kindMeta : Nat := 0

def kindInternal : Nat := 1

def kindLeaf : Nat := 2

def nodeHdrSize : Nat := 16

def leafEntrySize : Nat := 16

def internalFirstKid : Nat := 4

def internalEntSize : Nat := 12

/-- `nodeKind(d) = d[0]` (`Page.Data` is a fixed 4086-byte array, so the read
is always in range). -/
def nodeKind (d : List Nat) : Nat := d.getD 0 0

/-- `setNodeHeader`. -/
def setNodeHeaderB (d : List Nat) (kind count parent aux : Nat) : List Nat :=
  writeBytes (writeBytes (writeBytes (writeBytes (writeBytes d 0 [kind]) 1 [0])
    2 (u16LE count)) 4 (u32LE parent)) 8 (u32LE aux)

/-- `metaRoot`. -/
def metaRoot (d : List Nat) : Nat := getU32 d 8

/-- `setMetaRoot`. -/
def setMetaRoot (d : List Nat) (root : Nat) : List Nat :=
  writeBytes d 8 (u32LE root)

def leafCapacity : Nat := (PayloadSize - nodeHdrSize) / leafEntrySize

def internalCapacity : Nat :=
  (PayloadSize - nodeHdrSize - internalFirstKid) / internalEntSize

/-- Decode loop of `leafLeafEntries` (counted loop, moving offset; each slice
expression is bounds-checked in program order). -/
def leafEntriesFrom (d : List Nat) : Nat → Nat → Except BtErr (List Nat × List RID)
  | _, 0 => .ok ([], [])
  | off, c + 1 =>
    if off + 8 > 4086 then .error .oob
    else if off + 12 > 4086 then .error .oob
    else if off + 14 > 4086 then .error .oob
    else
      match leafEntriesFrom d (off + 16) c with
      | .error e => .error e
      | .ok (ks, vs) =>
        .ok (getU64 d off :: ks,
          RID.mk (getU32 d (off + 8)) (getU16 d (off + 12)) :: vs)

/-- `leafLeafEntries`. -/
def leafLeafEntries (p : Page) : Except BtErr (List Nat × List RID) :=
  leafEntriesFrom p.data nodeHdrSize (getU16 p.data 2)

/-- Encode loop of `writeLeaf` (`keys[i]`/`vals[i]` walked in parallel;
`vals[i]` panics when `vals` is shorter than `keys`). -/
def writeLeafEntries : List Nat → List Nat → List RID → Nat →
    Except BtErr (List Nat)
  | d, [], _, _ => .ok d
  | d, key :: rest, vals, off =>
    if off + 8 > 4086 then .error .oob
    else if off + 12 > 4086 then .error .oob
    else
      match vals with
      | [] => .error .oob
      | v :: vrest =>
        if off + 14 > 4086 then .error .oob
        else
          writeLeafEntries
            (writeBytes (writeBytes (writeBytes d off (u64LE key)) (off + 8)
              (u32LE v.pageID)) (off + 12) (u16LE v.slotID))
            rest vrest (off + 16)

/-- `writeLeaf`: header, entries, zeroed remainder, `DataSize = PayloadSize`. -/
def writeLeaf (p : Page) (keys : List Nat) (vals : List RID) :
    Except BtErr Page :=
  match writeLeafEntries
      (setNodeHeaderB p.data kindLeaf keys.length 0xFFFFFFFF 0)
      keys vals nodeHdrSize with
  | .error e => .error e
  | .ok d1 =>
    .ok { p with
      data := writeBytes d1 (nodeHdrSize + leafEntrySize * keys.length)
        (List.replicate (PayloadSize - (nodeHdrSize + leafEntrySize * keys.length)) 0),
      dataSize := PayloadSize }

/-- Decode loop of `internalEntries`. -/
def internalEntriesFrom (d : List Nat) : Nat → Nat →
    Except BtErr (List Nat × List Nat)
  | _, 0 => .ok ([], [])
  | off, c + 1 =>
    if off + 8 > 4086 then .error .oob
    else if off + 12 > 4086 then .error .oob
    else
      match internalEntriesFrom d (off + 12) c with
      | .error e => .error e
      | .ok (ks, cs) => .ok (getU64 d off :: ks, getU32 d (off + 8) :: cs)

/-- `internalEntries`: first child at offset 16, then `(key, rightChild)`
entries; always returns one more child than keys. -/
def internalEntries (p : Page) : Except BtErr (List Nat × List Nat) :=
  match internalEntriesFrom p.data (nodeHdrSize + internalFirstKid)
      (getU16 p.data 2) with
  | .error e => .error e
  | .ok (ks, cs) => .ok (ks, getU32 p.data nodeHdrSize :: cs)

/-- Encode loop of `writeInternal`: writes `keys[i]` and `kids[i+1]`;
`kids[i+1]` panics when `kids` runs out. -/
def writeInternalEntries : List Nat → List Nat → List Nat → Nat → Nat →
    Except BtErr (List Nat)
  | d, [], _, _, _ => .ok d
  | d, key :: rest, kids, i, off =>
    if off + 8 > 4086 then .error .oob
    else if off + 12 > 4086 then .error .oob
    else
      match kids.get? (i + 1) with
      | none => .error .oob
      | some kid =>
        writeInternalEntries
          (writeBytes (writeBytes d off (u64LE key)) (off + 8) (u32LE kid))
          rest kids (i + 1) (off + 12)

/-- `writeInternal`: header, `kids[0]`, then the `(key, kids[i+1])` entries,
zeroed remainder. -/
def writeInternal (p : Page) (keys kids : List Nat) : Except BtErr Page :=
  match (kids.get? 0 :
      Option Nat) with
  | none => .error .oob
  | some k0 =>
    match writeInternalEntries
        (writeBytes (setNodeHeaderB p.data kindInternal keys.length 0xFFFFFFFF 0)
          nodeHdrSize (u32LE k0))
        keys kids 0 (nodeHdrSize + internalFirstKid) with
    | .error e => .error e
    | .ok d1 =>
      .ok { p with
        data := writeBytes d1
          (nodeHdrSize + internalFirstKid + internalEntSize * keys.length)
          (List.replicate (PayloadSize -
            (nodeHdrSize + internalFirstKid + internalEntSize * keys.length)) 0),
        dataSize := PayloadSize }

/-- `writeInternalRoot`: prepend the left child to the right-children list. -/
def writeInternalRoot (p : Page) (left : Nat) (keys : List Nat)
    (rightKids : List Nat) : Except BtErr Page :=
  writeInternal p keys (left :: rightKids)

/-- `insertU64`/`insertU32`/`insertRID`: shift-and-set insertion at position
`i` (all call sites have `i ≤ len`, where this equals the Go behaviour). -/
def insertAt {α : Type} (a : List α) (i : Nat) (v : α) : List α :=
  a.take i ++ v :: a.drop i

/-- `splitLeafArrays`: left half `(keys[:mid], vals[:mid])` stays in place,
right half `(keys[mid:], vals[mid:])` is returned. -/
def splitLeafArrays (keys : List Nat) (vals : List RID) :
    (List Nat × List RID) × (List Nat × List RID) :=
  ((keys.take (keys.length / 2), vals.take (keys.length / 2)),
   (keys.drop (keys.length / 2), vals.drop (keys.length / 2)))

/-- `splitInternalArrays`: left keeps `keys[:mid]`, `children[:mid+1]`; the
right half gets `keys[mid:]` — the middle key included — and
`children[mid+1:]`. -/
def splitInternalArrays (keys kids : List Nat) :
    (List Nat × List Nat) × (List Nat × List Nat) :=
  ((keys.take (keys.length / 2), kids.take (keys.length / 2 + 1)),
   (keys.drop (keys.length / 2), kids.drop (keys.length / 2 + 1)))

/-- `sort.Search`'s binary-search loop (`fuel ≥ j - i` iterations suffice). -/
def sortSearchAux (f : Nat → Bool) : Nat → Nat → Nat → Nat
  | i, _, 0 => i
  | i, j, fuel + 1 =>
    if i < j then
      if f ((i + j) / 2) then sortSearchAux f i ((i + j) / 2) fuel
      else sortSearchAux f ((i + j) / 2 + 1) j fuel
    else i

/-- `sort.Search n f`. -/
def sortSearch (n : Nat) (f : Nat → Bool) : Nat := sortSearchAux f 0 n n

/-- `allocPage`: the next page id is `size / PageSize`; the page is zeroed and
given a node header (not yet written to the file). -/
def allocPage (f : List Page) (kind : Nat) : Nat × Page :=
  (f.length, Page.mk f.length 0 PayloadSize
    (setNodeHeaderB (List.replicate PayloadSize 0) kind 0 0xFFFFFFFF 0))

/-- `findLeaf`'s descent loop.  `kids` always has one more element than
`keys`, so the `kids[i]` access with `i ≤ len(keys)` is in range. -/
def findLeafFrom (f : List Page) (key : Nat) : Nat → Nat → Except BtErr Page
  | _, 0 => .error (.st .io)
  | id, fuel + 1 =>
    match readPageM f id with
    | .error e => .error (.st e)
    | .ok p =>
      if nodeKind p.data = kindLeaf then .ok p
      else if nodeKind p.data = kindInternal then
        match internalEntries p with
        | .error e => .error e
        | .ok (keys, kids) =>
          findLeafFrom f key
            (kids.getD (sortSearch keys.length
              (fun i => decide (key < keys.getD i 0))) 0) fuel
      else .error .corruption

/-- First index of `childID` in `kids` (the linear scan of
`findParentAndIndex`). -/
def kidIndex : List Nat → Nat → Option Nat
  | [], _ => none
  | k :: rest, c =>
    if k = c then some 0
    else
      match kidIndex rest c with
      | some i => some (i + 1)
      | none => none

/-- `findParentAndIndex`. -/
def findParentAndIndex (f : List Page) : Nat → Nat → Nat → Nat →
    Except BtErr (Page × Nat)
  | _, _, _, 0 => .error (.st .io)
  | currID, childID, key, fuel + 1 =>
    match readPageM f currID with
    | .error e => .error (.st e)
    | .ok p =>
      if nodeKind p.data = kindLeaf then .error .corruption
      else
        match internalEntries p with
        | .error e => .error e
        | .ok (keys, kids) =>
          match kidIndex kids childID with
          | some i => .ok (p, i)
          | none =>
            findParentAndIndex f
              (kids.getD (sortSearch keys.length
                (fun i => decide (key < keys.getD i 0))) 0) childID key fuel

/-- The root-growth arm of `insertIntoParent` (`left.ID == bt.rootID`):
allocate a fresh internal root over the two split halves and point the meta
page at it. -/
def iipRoot (f : List Page) (rootID leftID key rightID : Nat) :
    Except BtErr Unit × (List Page × Nat) :=
  match writeInternalRoot (allocPage f kindInternal).2 leftID [key]
      [rightID] with
  | .error e => (.error e, (f, rootID))
  | .ok p2 =>
    match writePageM f p2 with
    | .error e => (.error (.st e), (f, rootID))
    | .ok f2 =>
      match readPageM f2 0 with
      | .error e => (.error (.st e), (f2, rootID))
      | .ok meta =>
        match writePageM f2
            { meta with
              data := setMetaRoot meta.data (allocPage f kindInternal).1 } with
        | .error e => (.error (.st e), (f2, rootID))
        | .ok f3 => (.ok (), (f3, (allocPage f kindInternal).1))

/-- The fitting-parent arm of `insertIntoParent`: rewrite the parent with the
separator and right child spliced in. -/
def iipParentFit (f : List Page) (rootID : Nat) (parent : Page)
    (pkeys2 kids2 : List Nat) : Except BtErr Unit × (List Page × Nat) :=
  match writeInternal parent pkeys2 kids2 with
  | .error e => (.error e, (f, rootID))
  | .ok p2 =>
    match writePageM f p2 with
    | .error e => (.error (.st e), (f, rootID))
    | .ok f2 => (.ok (), (f2, rootID))

/-- `insertIntoParent`, threading the mutated page store and root id through
every path (Go mutates the file in place, also on paths that later fail).
The root-growth and fitting-parent tails are factored out above. -/
def insertIntoParent : List Page → Nat → Nat → Nat → Nat → Nat →
    Except BtErr Unit × (List Page × Nat)
  | f, rootID, _, _, _, 0 => (.error (.st .io), (f, rootID))
  | f, rootID, leftID, key, rightID, fuel + 1 =>
    if leftID = rootID then
      iipRoot f rootID leftID key rightID
    else
      match findParentAndIndex f rootID leftID key (f.length + 1) with
      | .error e => (.error e, (f, rootID))
      | .ok (parent, idx) =>
        match internalEntries parent with
        | .error e => (.error e, (f, rootID))
        | .ok (pkeys, kids) =>
          if (insertAt pkeys idx key).length ≤ internalCapacity then
            iipParentFit f rootID parent (insertAt pkeys idx key)
              (insertAt kids (idx + 1) rightID)
          else
            match writeInternal parent
                (splitInternalArrays (insertAt pkeys idx key)
                  (insertAt kids (idx + 1) rightID)).1.1
                (splitInternalArrays (insertAt pkeys idx key)
                  (insertAt kids (idx + 1) rightID)).1.2 with
            | .error e => (.error e, (f, rootID))
            | .ok pl =>
              match writePageM f pl with
              | .error e => (.error (.st e), (f, rootID))
              | .ok f2 =>
                match writeInternal (allocPage f2 kindInternal).2
                    (splitInternalArrays (insertAt pkeys idx key)
                      (insertAt kids (idx + 1) rightID)).2.1
                    (splitInternalArrays (insertAt pkeys idx key)
                      (insertAt kids (idx + 1) rightID)).2.2 with
                | .error e => (.error e, (f2, rootID))
                | .ok rp2 =>
                  match writePageM f2 rp2 with
                  | .error e => (.error (.st e), (f2, rootID))
                  | .ok f3 =>
                    insertIntoParent f3 rootID parent.id
                      ((splitInternalArrays (insertAt pkeys idx key)
                        (insertAt kids (idx + 1) rightID)).2.1.getD 0 0)
                      (allocPage f2 kindInternal).1 fuel

/-- The `BTree` handle: the backing page store and the in-memory root id. -/
structure BT where
  pages : List Page
  rootID : Nat
deriving DecidableEq

/-- The no-split tail of `BTree.Insert`: rewrite the leaf with the new entry
spliced into its arrays. -/
def BTree.insertLeafFit (t : BT) (leaf : Page) (keys2 : List Nat)
    (vals2 : List RID) : Except BtErr Unit × BT :=
  match writeLeaf leaf keys2 vals2 with
  | .error e => (.error e, t)
  | .ok lp2 =>
    match writePageM t.pages lp2 with
    | .error e => (.error (.st e), t)
    | .ok f2 => (.ok (), BT.mk f2 t.rootID)

/-- The split tail of `BTree.Insert`: left half overwrites the leaf, right
half goes to a freshly allocated page, then the separator is pushed to the
parent. -/
def BTree.insertLeafSplit (t : BT) (leaf : Page) (keys2 : List Nat)
    (vals2 : List RID) : Except BtErr Unit × BT :=
  match writeLeaf leaf (splitLeafArrays keys2 vals2).1.1
      (splitLeafArrays keys2 vals2).1.2 with
  | .error e => (.error e, t)
  | .ok lp2 =>
    match writePageM t.pages lp2 with
    | .error e => (.error (.st e), t)
    | .ok f2 =>
      match writeLeaf (allocPage f2 kindLeaf).2
          (splitLeafArrays keys2 vals2).2.1
          (splitLeafArrays keys2 vals2).2.2 with
      | .error e => (.error e, BT.mk f2 t.rootID)
      | .ok rp2 =>
        match writePageM f2 rp2 with
        | .error e => (.error (.st e), BT.mk f2 t.rootID)
        | .ok f3 =>
          match insertIntoParent f3 t.rootID leaf.id
              ((splitLeafArrays keys2 vals2).2.1.getD 0 0)
              (allocPage f2 kindLeaf).1 (f3.length + 1) with
          | (res, (f4, root2)) => (res, BT.mk f4 root2)

/-- `BTree.Insert`, threading the mutated state through every path; the two
leaf-rewrite tails are factored out above. -/
def BTree.insert (t : BT) (key : Nat) (rid : RID) : Except BtErr Unit × BT :=
  match findLeafFrom t.pages key t.rootID (t.pages.length + 1) with
  | .error e => (.error e, t)
  | .ok leaf =>
    if nodeKind leaf.data ≠ kindLeaf then (.error .corruption, t)
    else
      match leafLeafEntries leaf with
      | .error e => (.error e, t)
      | .ok (keys, vals) =>
        if sortSearch keys.length (fun i => decide (key ≤ keys.getD i 0)) <
             keys.length ∧
           keys.getD (sortSearch keys.length
             (fun i => decide (key ≤ keys.getD i 0))) 0 = key then
          (.error .dupKey, t)
        else
          if (insertAt keys (sortSearch keys.length
              (fun i => decide (key ≤ keys.getD i 0))) key).length ≤
              leafCapacity then
            BTree.insertLeafFit t leaf
              (insertAt keys (sortSearch keys.length
                (fun i => decide (key ≤ keys.getD i 0))) key)
              (insertAt vals (sortSearch keys.length
                (fun i => decide (key ≤ keys.getD i 0))) rid)
          else
            BTree.insertLeafSplit t leaf
              (insertAt keys (sortSearch keys.length
                (fun i => decide (key ≤ keys.getD i 0))) key)
              (insertAt vals (sortSearch keys.length
                (fun i => decide (key ≤ keys.getD i 0))) rid)

/-- `BTree.Get`: returns `(rid, found)` like the Go `(RID, bool, error)`. -/
def BTree.get (t : BT) (key : Nat) : Except BtErr (RID × Bool) :=
  match findLeafFrom t.pages key t.rootID (t.pages.length + 1) with
  | .error e => .error e
  | .ok leaf =>
    match leafLeafEntries leaf with
    | .error e => .error e
    | .ok (keys, vals) =>
      if sortSearch keys.length (fun i => decide (key ≤ keys.getD i 0)) <
           keys.length ∧
         keys.getD (sortSearch keys.length
           (fun i => decide (key ≤ keys.getD i 0))) 0 = key then
        .ok (vals.getD (sortSearch keys.length
          (fun i => decide (key ≤ keys.getD i 0))) (RID.mk 0 0), true)
      else
        .ok (RID.mk 0 0, false)

/-- The tree `Open` bootstraps in an empty file: meta page 0 recording root
page 1, page 1 an empty leaf. -/
def btOpenFresh : BT :=
  BT.mk
    [Page.mk 0 0 PayloadSize
      (setMetaRoot (setNodeHeaderB (List.replicate PayloadSize 0) kindMeta 0
        0xFFFFFFFF 0) 1),
     Page.mk 1 0 PayloadSize
      (setNodeHeaderB (List.replicate PayloadSize 0) kindLeaf 0 0xFFFFFFFF 0)]
    1

theorem leafCapacity_eq : leafCapacity = 254 := rfl

theorem internalCapacity_eq : internalCapacity = 338 := rfl

/-- The write loop of `writeInternal` hits `kids[i+1]` out of range whenever
there are at most `i + len(keys)` children (and at least one key). -/
theorem writeInternalEntries_oob (keys : List Nat) :
    ∀ d kids i off, kids.length ≤ i + keys.length → 1 ≤ keys.length →
      writeInternalEntries d keys kids i off = .error .oob := by
  induction keys with
  | nil =>
    intro d kids i off h h1
    simp at h1
  | cons key rest ih =>
    intro d kids i off hlen h1
    unfold writeInternalEntries
    by_cases h8 : off + 8 > 4086
    · rw [if_pos h8]
    · rw [if_neg h8]
      by_cases h12 : off + 12 > 4086
      · rw [if_pos h12]
      · rw [if_neg h12]
        rcases hg : kids.get? (i + 1) with _ | kid
        · rfl
        · have hlt : i + 1 < kids.length := by
            by_contra hn
            rw [List.get?_eq_getElem?, List.getElem?_eq_none (by omega)] at hg
            simp at hg
          show writeInternalEntries _ rest kids (i + 1) (off + 12) = .error .oob
          exact ih _ kids (i + 1) (off + 12)
            (by simp only [List.length_cons] at hlen; omega)
            (by simp only [List.length_cons] at hlen; omega)

/-- `writeInternal` always panics (`kids[len(keys)]` out of range) when given
as many children as keys — which is exactly what `splitInternalArrays`
produces for the right half. -/
theorem writeInternal_shortKids (p : Page) (keys kids : List Nat)
    (hlen : kids.length ≤ keys.length) (hne : keys ≠ []) :
    writeInternal p keys kids = .error .oob := by
  have h1 : 1 ≤ keys.length := by
    cases keys with
    | nil => exact absurd rfl hne
    | cons a l => simp
  unfold writeInternal
  rcases hg : kids.get? 0 with _ | k0
  · rfl
  · show (match writeInternalEntries (writeBytes (setNodeHeaderB p.data
        kindInternal keys.length 4294967295 0) nodeHdrSize (u32LE k0)) keys
        kids 0 (nodeHdrSize + internalFirstKid) with
      | .error e => (.error e : Except BtErr Page)
      | .ok d1 => .ok { p with
          data := writeBytes d1 (nodeHdrSize + internalFirstKid + internalEntSize * keys.length) (List.replicate (PayloadSize - (nodeHdrSize + internalFirstKid + internalEntSize * keys.length)) 0),
          dataSize := PayloadSize }) = .error .oob
    rw [writeInternalEntries_oob keys _ kids 0 _ (by omega) h1]

/-! ### Node header and encode/decode roundtrip lemmas -/

theorem setNodeHeaderB_length (d : List Nat) (k c pr a : Nat) :
    (setNodeHeaderB d k c pr a).length = d.length := by
  unfold setNodeHeaderB
  simp only [writeBytes_length]

theorem nodeKind_setNodeHeaderB (d : List Nat) (k c pr a : Nat)
    (hd : 0 < d.length) :
    nodeKind (setNodeHeaderB d k c pr a) = k := by
  unfold nodeKind setNodeHeaderB
  rw [writeBytes_getD, if_neg (by omega), writeBytes_getD, if_neg (by omega),
    writeBytes_getD, if_neg (by omega), writeBytes_getD, if_neg (by omega),
    writeBytes_getD,
    if_pos (by simp only [List.length_cons, List.length_nil]; omega)]
  rfl

theorem getU16_setNodeHeaderB_count (d : List Nat) (k c pr a : Nat)
    (hd : d.length = 4086) :
    getU16 (setNodeHeaderB d k c pr a) 2 = c % 65536 := by
  unfold setNodeHeaderB
  rw [getU16_writeBytes_outside _ _ _ _ (by left; omega),
    getU16_writeBytes_outside _ _ _ _ (by left; omega),
    getU16_writeBytes_u16LE _ _ _ (by rw [writeBytes_length, writeBytes_length]; omega)]

theorem nodeKind_writeBytes_pos (d : List Nat) (off : Nat) (src : List Nat)
    (h : 0 < off) : nodeKind (writeBytes d off src) = nodeKind d := by
  unfold nodeKind
  rw [writeBytes_getD, if_neg (by omega)]

theorem nodeKind_eq_of_pres (d1 d0 : List Nat)
    (h : readBytes d1 0 1 = readBytes d0 0 1) : nodeKind d1 = nodeKind d0 := by
  unfold nodeKind
  have h2 := congrArg (fun l => l.getD 0 0) h
  simp only [readBytes_getD] at h2
  norm_num at h2
  simp only [List.getD_eq_getElem?_getD]
  exact h2

theorem getU16_congr (d d' : List Nat) (k : Nat)
    (h : readBytes d' k 2 = readBytes d k 2) : getU16 d' k = getU16 d k := by
  unfold getU16
  rw [h]

theorem getU32_congr (d d' : List Nat) (k : Nat)
    (h : readBytes d' k 4 = readBytes d k 4) : getU32 d' k = getU32 d k := by
  unfold getU32
  rw [h]

theorem getU64_congr (d d' : List Nat) (k : Nat)
    (h : readBytes d' k 8 = readBytes d k 8) : getU64 d' k = getU64 d k := by
  unfold getU64
  rw [h]

/-- The leaf decode loop only looks at the bytes of its own window. -/
theorem leafEntriesFrom_congr (d d' : List Nat) :
    ∀ c off,
      (∀ a n, off ≤ a → a + n ≤ off + 16 * c → readBytes d' a n = readBytes d a n) →
      leafEntriesFrom d' off c = leafEntriesFrom d off c := by
  intro c
  induction c with
  | zero => intro off h; rfl
  | succ c ih =>
    intro off h
    unfold leafEntriesFrom
    rw [ih (off + 16) (fun a n ha hn => h a n (by omega) (by omega)),
      getU64_congr d d' off (h off 8 (by omega) (by omega)),
      getU32_congr d d' (off + 8) (h (off + 8) 4 (by omega) (by omega)),
      getU16_congr d d' (off + 12) (h (off + 12) 2 (by omega) (by omega))]

/-- The internal decode loop only looks at the bytes of its own window. -/
theorem internalEntriesFrom_congr (d d' : List Nat) :
    ∀ c off,
      (∀ a n, off ≤ a → a + n ≤ off + 12 * c → readBytes d' a n = readBytes d a n) →
      internalEntriesFrom d' off c = internalEntriesFrom d off c := by
  intro c
  induction c with
  | zero => intro off h; rfl
  | succ c ih =>
    intro off h
    unfold internalEntriesFrom
    rw [ih (off + 12) (fun a n ha hn => h a n (by omega) (by omega)),
      getU64_congr d d' off (h off 8 (by omega) (by omega)),
      getU32_congr d d' (off + 8) (h (off + 8) 4 (by omega) (by omega))]

/-- The leaf encode loop succeeds on in-range input and decodes back to
exactly the written keys and rids; bytes below the window are untouched. -/
theorem writeLeafEntries_ok (keys : List Nat) :
    ∀ (vals : List RID) (d : List Nat) (off : Nat),
      d.length = 4086 → keys.length = vals.length →
      off + 16 * keys.length ≤ 4086 →
      (∀ k ∈ keys, k < 2 ^ 64) →
      (∀ v ∈ vals, v.pageID < 2 ^ 32 ∧ v.slotID < 2 ^ 16) →
      ∃ d1, writeLeafEntries d keys vals off = .ok d1 ∧ d1.length = 4086 ∧
        (∀ a n, a + n ≤ off → readBytes d1 a n = readBytes d a n) ∧
        leafEntriesFrom d1 off keys.length = .ok (keys, vals) := by
  induction keys with
  | nil =>
    intro vals d off hd hlen hfit hkb hvb
    cases vals with
    | cons v vs =>
      simp only [List.length_nil, List.length_cons] at hlen
      omega
    | nil => exact ⟨d, rfl, hd, fun a n _ => rfl, rfl⟩
  | cons key rest ih =>
    intro vals d off hd hlen hfit hkb hvb
    cases vals with
    | nil => simp only [List.length_cons, List.length_nil] at hlen; omega
    | cons v vrest =>
      simp only [List.length_cons] at hlen hfit
      obtain ⟨d1, heq, hlen1, hpres, hdec⟩ := ih vrest
        (writeBytes (writeBytes (writeBytes d off (u64LE key)) (off + 8)
          (u32LE v.pageID)) (off + 12) (u16LE v.slotID)) (off + 16)
        (by simp only [writeBytes_length]; exact hd)
        (by omega) (by omega)
        (fun k hk => hkb k (List.mem_cons_of_mem _ hk))
        (fun w hw => hvb w (List.mem_cons_of_mem _ hw))
      refine ⟨d1, ?_, hlen1, ?_, ?_⟩
      · show writeLeafEntries d (key :: rest) (v :: vrest) off = .ok d1
        unfold writeLeafEntries
        rw [if_neg (by omega), if_neg (by omega)]
        show (if off + 14 > 4086 then (.error .oob : Except BtErr (List Nat))
          else writeLeafEntries
            (writeBytes (writeBytes (writeBytes d off (u64LE key)) (off + 8)
              (u32LE v.pageID)) (off + 12) (u16LE v.slotID))
            rest vrest (off + 16)) = .ok d1
        rw [if_neg (by omega)]
        exact heq
      · intro a n han
        rw [hpres a n (by omega),
          readBytes_writeBytes_disjoint _ _ _ _ _ (by left; omega),
          readBytes_writeBytes_disjoint _ _ _ _ _ (by left; omega),
          readBytes_writeBytes_disjoint _ _ _ _ _ (by left; omega)]
      · show leafEntriesFrom d1 off (rest.length + 1) = .ok (key :: rest, v :: vrest)
        unfold leafEntriesFrom
        rw [if_neg (by omega), if_neg (by omega), if_neg (by omega), hdec]
        have e64 : getU64 d1 off = key := by
          rw [getU64_congr _ _ _ (hpres off 8 (by omega)),
            getU64_congr _ _ _
              (readBytes_writeBytes_disjoint _ _ _ _ _ (by left; omega)),
            getU64_congr _ _ _
              (readBytes_writeBytes_disjoint _ _ _ _ _ (by left; omega)),
            getU64_writeBytes_u64LE d off key (by omega)]
          exact Nat.mod_eq_of_lt (hkb key (List.mem_cons_self key rest))
        have e32 : getU32 d1 (off + 8) = v.pageID := by
          rw [getU32_congr _ _ _ (hpres (off + 8) 4 (by omega)),
            getU32_congr _ _ _
              (readBytes_writeBytes_disjoint _ _ _ _ _ (by left; omega)),
            getU32_writeBytes_u32LE _ (off + 8) _ (by rw [writeBytes_length]; omega)]
          exact Nat.mod_eq_of_lt (hvb v (List.mem_cons_self v vrest)).1
        have e16 : getU16 d1 (off + 12) = v.slotID := by
          rw [getU16_congr _ _ _ (hpres (off + 12) 2 (by omega)),
            getU16_writeBytes_u16LE _ (off + 12) _
              (by rw [writeBytes_length, writeBytes_length]; omega)]
          exact Nat.mod_eq_of_lt (hvb v (List.mem_cons_self v vrest)).2
        show (Except.ok (getU64 d1 off :: rest,
            RID.mk (getU32 d1 (off + 8)) (getU16 d1 (off + 12)) :: vrest) :
          Except BtErr (List Nat × List RID)) = .ok (key :: rest, v :: vrest)
        rw [e64, e32, e16]

/-- The internal encode loop succeeds on in-range input and decodes back to
the written keys together with the children tail `kids[i+1:]`. -/
theorem writeInternalEntries_ok (keys : List Nat) :
    ∀ (kids : List Nat) (d : List Nat) (i off : Nat),
      d.length = 4086 → kids.length = i + keys.length + 1 →
      off + 12 * keys.length ≤ 4086 →
      (∀ k ∈ keys, k < 2 ^ 64) → (∀ c ∈ kids, c < 2 ^ 32) →
      ∃ d1, writeInternalEntries d keys kids i off = .ok d1 ∧ d1.length = 4086 ∧
        (∀ a n, a + n ≤ off → readBytes d1 a n = readBytes d a n) ∧
        internalEntriesFrom d1 off keys.length = .ok (keys, kids.drop (i + 1)) := by
  induction keys with
  | nil =>
    intro kids d i off hd hlen hfit hkb hcb
    refine ⟨d, rfl, hd, fun a n _ => rfl, ?_⟩
    have hnil : kids.drop (i + 1) = [] :=
      List.drop_eq_nil_of_le (by simp only [List.length_nil] at hlen; omega)
    rw [hnil]
    rfl
  | cons key rest ih =>
    intro kids d i off hd hlen hfit hkb hcb
    simp only [List.length_cons] at hlen hfit
    have hlt : i + 1 < kids.length := by omega
    have hg : kids.get? (i + 1) = some (kids.getD (i + 1) 0) := by
      rw [List.get?_eq_getElem?, List.getElem?_eq_getElem hlt,
        List.getD_eq_getElem _ _ hlt]
    obtain ⟨d1, heq, hlen1, hpres, hdec⟩ := ih kids
      (writeBytes (writeBytes d off (u64LE key)) (off + 8)
        (u32LE (kids.getD (i + 1) 0))) (i + 1) (off + 12)
      (by simp only [writeBytes_length]; exact hd)
      (by omega) (by omega)
      (fun k hk => hkb k (List.mem_cons_of_mem _ hk)) hcb
    refine ⟨d1, ?_, hlen1, ?_, ?_⟩
    · show writeInternalEntries d (key :: rest) kids i off = .ok d1
      unfold writeInternalEntries
      rw [if_neg (by omega), if_neg (by omega), hg]
      show writeInternalEntries
        (writeBytes (writeBytes d off (u64LE key)) (off + 8)
          (u32LE (kids.getD (i + 1) 0))) rest kids (i + 1) (off + 12) = .ok d1
      exact heq
    · intro a n han
      rw [hpres a n (by omega),
        readBytes_writeBytes_disjoint _ _ _ _ _ (by left; omega),
        readBytes_writeBytes_disjoint _ _ _ _ _ (by left; omega)]
    · show internalEntriesFrom d1 off (rest.length + 1) =
        .ok (key :: rest, kids.drop (i + 1))
      unfold internalEntriesFrom
      rw [if_neg (by omega), if_neg (by omega), hdec]
      have e64 : getU64 d1 off = key := by
        rw [getU64_congr _ _ _ (hpres off 8 (by omega)),
          getU64_congr _ _ _
            (readBytes_writeBytes_disjoint _ _ _ _ _ (by left; omega)),
          getU64_writeBytes_u64LE d off key (by omega)]
        exact Nat.mod_eq_of_lt (hkb key (List.mem_cons_self key rest))
      have e32 : getU32 d1 (off + 8) = kids.getD (i + 1) 0 := by
        rw [getU32_congr _ _ _ (hpres (off + 8) 4 (by omega)),
          getU32_writeBytes_u32LE _ (off + 8) _ (by rw [writeBytes_length]; omega)]
        refine Nat.mod_eq_of_lt (hcb _ ?_)
        rw [List.getD_eq_getElem _ _ hlt]
        exact List.getElem_mem hlt
      have hdd : kids.getD (i + 1) 0 :: kids.drop (i + 1 + 1) = kids.drop (i + 1) := by
        rw [List.getD_eq_getElem _ _ hlt]
        exact (List.drop_eq_getElem_cons hlt).symm
      show (Except.ok (getU64 d1 off :: rest,
          getU32 d1 (off + 8) :: kids.drop (i + 1 + 1)) :
        Except BtErr (List Nat × List Nat)) = .ok (key :: rest, kids.drop (i + 1))
      rw [e64, e32, hdd]

/-- `writeLeaf` on an in-range leaf image succeeds and the result decodes back
to exactly the written entries. -/
theorem writeLeaf_ok (p : Page) (keys : List Nat) (vals : List RID)
    (hd : p.data.length = 4086) (hlen : keys.length = vals.length)
    (hcap : keys.length ≤ 254)
    (hkb : ∀ k ∈ keys, k < 2 ^ 64)
    (hvb : ∀ v ∈ vals, v.pageID < 2 ^ 32 ∧ v.slotID < 2 ^ 16) :
    ∃ p2, writeLeaf p keys vals = .ok p2 ∧ p2.id = p.id ∧
      p2.dataSize = PayloadSize ∧ p2.data.length = 4086 ∧
      nodeKind p2.data = kindLeaf ∧ leafLeafEntries p2 = .ok (keys, vals) := by
  have hd0 : (setNodeHeaderB p.data kindLeaf keys.length 0xFFFFFFFF 0).length = 4086 := by
    rw [setNodeHeaderB_length]; exact hd
  obtain ⟨d1, heq, hlen1, hpres, hdec⟩ := writeLeafEntries_ok keys vals
    (setNodeHeaderB p.data kindLeaf keys.length 0xFFFFFFFF 0) nodeHdrSize
    hd0 hlen (by simp only [nodeHdrSize]; omega) hkb hvb
  refine ⟨{ p with
      data := writeBytes d1 (nodeHdrSize + leafEntrySize * keys.length)
        (List.replicate (PayloadSize - (nodeHdrSize + leafEntrySize * keys.length)) 0),
      dataSize := PayloadSize }, ?_, rfl, rfl, ?_, ?_, ?_⟩
  · show writeLeaf p keys vals = _
    unfold writeLeaf
    rw [heq]
  · simp only [writeBytes_length]
    exact hlen1
  · rw [nodeKind_writeBytes_pos _ _ _ (by simp only [nodeHdrSize, leafEntrySize]; omega),
      nodeKind_eq_of_pres d1 _ (hpres 0 1 (by simp only [nodeHdrSize]; omega))]
    exact nodeKind_setNodeHeaderB _ _ _ _ _ (by omega)
  · show leafEntriesFrom
        (writeBytes d1 (nodeHdrSize + leafEntrySize * keys.length)
          (List.replicate (PayloadSize - (nodeHdrSize + leafEntrySize * keys.length)) 0))
        nodeHdrSize
        (getU16 (writeBytes d1 (nodeHdrSize + leafEntrySize * keys.length)
          (List.replicate (PayloadSize - (nodeHdrSize + leafEntrySize * keys.length)) 0)) 2) =
      .ok (keys, vals)
    have hc : getU16 (writeBytes d1 (nodeHdrSize + leafEntrySize * keys.length)
        (List.replicate (PayloadSize - (nodeHdrSize + leafEntrySize * keys.length)) 0)) 2 =
        keys.length := by
      rw [getU16_writeBytes_outside _ _ _ _
          (by left; simp only [nodeHdrSize, leafEntrySize]; omega),
        getU16_congr _ _ _ (hpres 2 2 (by simp only [nodeHdrSize]; omega)),
        getU16_setNodeHeaderB_count _ _ _ _ _ hd]
      omega
    rw [hc]
    have hzz : ∀ a n, nodeHdrSize ≤ a → a + n ≤ nodeHdrSize + 16 * keys.length →
        readBytes (writeBytes d1 (nodeHdrSize + leafEntrySize * keys.length)
          (List.replicate (PayloadSize - (nodeHdrSize + leafEntrySize * keys.length)) 0)) a n =
        readBytes d1 a n := by
      intro a n ha hn
      exact readBytes_writeBytes_disjoint _ _ _ _ _
        (by left; simp only [nodeHdrSize, leafEntrySize] at hn ⊢; omega)
    exact (leafEntriesFrom_congr d1 _ keys.length nodeHdrSize hzz).trans hdec

/-- `writeInternal` on an in-range internal image (one more child than keys)
succeeds and the result decodes back to exactly the written keys/children. -/
theorem writeInternal_ok (p : Page) (keys kids : List Nat)
    (hd : p.data.length = 4086) (hlen : kids.length = keys.length + 1)
    (hcap : keys.length ≤ 338)
    (hkb : ∀ k ∈ keys, k < 2 ^ 64) (hcb : ∀ c ∈ kids, c < 2 ^ 32) :
    ∃ p2, writeInternal p keys kids = .ok p2 ∧ p2.id = p.id ∧
      p2.dataSize = PayloadSize ∧ p2.data.length = 4086 ∧
      nodeKind p2.data = kindInternal ∧ internalEntries p2 = .ok (keys, kids) := by
  have h0 : 0 < kids.length := by omega
  have hg : kids.get? 0 = some (kids.getD 0 0) := by
    rw [List.get?_eq_getElem?, List.getElem?_eq_getElem h0,
      List.getD_eq_getElem _ _ h0]
  have hdk : (writeBytes (setNodeHeaderB p.data kindInternal keys.length 0xFFFFFFFF 0)
      nodeHdrSize (u32LE (kids.getD 0 0))).length = 4086 := by
    rw [writeBytes_length, setNodeHeaderB_length]; exact hd
  obtain ⟨d1, heq, hlen1, hpres, hdec⟩ := writeInternalEntries_ok keys kids
    (writeBytes (setNodeHeaderB p.data kindInternal keys.length 0xFFFFFFFF 0)
      nodeHdrSize (u32LE (kids.getD 0 0)))
    0 (nodeHdrSize + internalFirstKid) hdk (by omega)
    (by simp only [nodeHdrSize, internalFirstKid]; omega) hkb hcb
  refine ⟨{ p with
      data := writeBytes d1 (nodeHdrSize + internalFirstKid + internalEntSize * keys.length)
        (List.replicate (PayloadSize -
          (nodeHdrSize + internalFirstKid + internalEntSize * keys.length)) 0),
      dataSize := PayloadSize }, ?_, rfl, rfl, ?_, ?_, ?_⟩
  · show writeInternal p keys kids = _
    unfold writeInternal
    rw [hg]
    show (match writeInternalEntries
        (writeBytes (setNodeHeaderB p.data kindInternal keys.length 0xFFFFFFFF 0)
          nodeHdrSize (u32LE (kids.getD 0 0)))
        keys kids 0 (nodeHdrSize + internalFirstKid) with
      | .error e => (.error e : Except BtErr Page)
      | .ok d1 => .ok { p with
          data := writeBytes d1 (nodeHdrSize + internalFirstKid + internalEntSize * keys.length) (List.replicate (PayloadSize - (nodeHdrSize + internalFirstKid + internalEntSize * keys.length)) 0),
          dataSize := PayloadSize }) = _
    rw [heq]
  · simp only [writeBytes_length]
    exact hlen1
  · rw [nodeKind_writeBytes_pos _ _ _
        (by simp only [nodeHdrSize, internalFirstKid, internalEntSize]; omega),
      nodeKind_eq_of_pres d1 _
        (hpres 0 1 (by simp only [nodeHdrSize, internalFirstKid]; omega)),
      nodeKind_writeBytes_pos _ _ _ (by simp only [nodeHdrSize]; omega)]
    exact nodeKind_setNodeHeaderB _ _ _ _ _ (by omega)
  · show (match internalEntriesFrom
        (writeBytes d1 (nodeHdrSize + internalFirstKid + internalEntSize * keys.length)
          (List.replicate (PayloadSize -
            (nodeHdrSize + internalFirstKid + internalEntSize * keys.length)) 0))
        (nodeHdrSize + internalFirstKid)
        (getU16 (writeBytes d1 (nodeHdrSize + internalFirstKid + internalEntSize * keys.length)
          (List.replicate (PayloadSize -
            (nodeHdrSize + internalFirstKid + internalEntSize * keys.length)) 0)) 2) with
      | .error e => (.error e : Except BtErr (List Nat × List Nat))
      | .ok (ks, cs) => .ok (ks,
          getU32 (writeBytes d1 (nodeHdrSize + internalFirstKid + internalEntSize * keys.length)
            (List.replicate (PayloadSize -
              (nodeHdrSize + internalFirstKid + internalEntSize * keys.length)) 0))
            nodeHdrSize :: cs)) = .ok (keys, kids)
    have hc : getU16 (writeBytes d1
        (nodeHdrSize + internalFirstKid + internalEntSize * keys.length)
        (List.replicate (PayloadSize -
          (nodeHdrSize + internalFirstKid + internalEntSize * keys.length)) 0)) 2 =
        keys.length := by
      rw [getU16_writeBytes_outside _ _ _ _
          (by left; simp only [nodeHdrSize, internalFirstKid, internalEntSize]; omega),
        getU16_congr _ _ _
          (hpres 2 2 (by simp only [nodeHdrSize, internalFirstKid]; omega)),
        getU16_writeBytes_outside _ _ _ _ (by left; simp only [nodeHdrSize]; omega),
        getU16_setNodeHeaderB_count _ _ _ _ _ hd]
      omega
    rw [hc]
    have hzz : ∀ a n, nodeHdrSize + internalFirstKid ≤ a →
        a + n ≤ nodeHdrSize + internalFirstKid + 12 * keys.length →
        readBytes (writeBytes d1
          (nodeHdrSize + internalFirstKid + internalEntSize * keys.length)
          (List.replicate (PayloadSize -
            (nodeHdrSize + internalFirstKid + internalEntSize * keys.length)) 0)) a n =
        readBytes d1 a n := by
      intro a n ha hn
      exact readBytes_writeBytes_disjoint _ _ _ _ _
        (by left; simp only [nodeHdrSize, internalFirstKid, internalEntSize] at hn ⊢; omega)
    rw [internalEntriesFrom_congr d1 _ keys.length (nodeHdrSize + internalFirstKid) hzz,
      hdec]
    have hs1 : readBytes (writeBytes d1
        (nodeHdrSize + internalFirstKid + internalEntSize * keys.length)
        (List.replicate (PayloadSize -
          (nodeHdrSize + internalFirstKid + internalEntSize * keys.length)) 0))
        nodeHdrSize 4 = readBytes d1 nodeHdrSize 4 :=
      readBytes_writeBytes_disjoint _ _ _ _ _
        (by left; simp only [nodeHdrSize, internalFirstKid, internalEntSize]; omega)
    have hk0 : getU32 (writeBytes d1
        (nodeHdrSize + internalFirstKid + internalEntSize * keys.length)
        (List.replicate (PayloadSize -
          (nodeHdrSize + internalFirstKid + internalEntSize * keys.length)) 0))
        nodeHdrSize = kids.getD 0 0 := by
      rw [getU32_congr _ _ _ hs1,
        getU32_congr _ _ _
          (hpres nodeHdrSize 4 (by simp only [nodeHdrSize, internalFirstKid]; omega)),
        getU32_writeBytes_u32LE _ _ _
          (by rw [setNodeHeaderB_length]; simp only [nodeHdrSize]; omega)]
      refine Nat.mod_eq_of_lt (hcb _ ?_)
      rw [List.getD_eq_getElem _ _ h0]
      exact List.getElem_mem h0
    have hdd : kids.getD 0 0 :: kids.drop (0 + 1) = kids := by
      rw [List.getD_eq_getElem _ _ h0]
      have := (List.drop_eq_getElem_cons h0).symm
      rw [List.drop_zero] at this
      exact this
    show (Except.ok (keys, getU32 (writeBytes d1
        (nodeHdrSize + internalFirstKid + internalEntSize * keys.length)
        (List.replicate (PayloadSize -
          (nodeHdrSize + internalFirstKid + internalEntSize * keys.length)) 0))
        nodeHdrSize :: kids.drop (0 + 1)) :
      Except BtErr (List Nat × List Nat)) = .ok (keys, kids)
    rw [hk0, hdd]

/-! ### `sort.Search`, routing and array-insertion lemmas -/

theorem sortSearchAux_spec (f : Nat → Bool) (n : Nat)
    (hmono : ∀ a b, a ≤ b → b < n → f a = true → f b = true) :
    ∀ fuel i j, i ≤ j → j ≤ n → j - i ≤ fuel →
      (∀ k, k < i → f k = false) →
      (∀ k, j ≤ k → k < n → f k = true) →
      i ≤ sortSearchAux f i j fuel ∧ sortSearchAux f i j fuel ≤ j ∧
      (∀ k, k < sortSearchAux f i j fuel → f k = false) ∧
      (sortSearchAux f i j fuel < n → f (sortSearchAux f i j fuel) = true) := by
  intro fuel
  induction fuel with
  | zero =>
    intro i j hij hjn hfuel hlow hhigh
    have heq : sortSearchAux f i j 0 = i := rfl
    rw [heq]
    exact ⟨le_refl i, hij, hlow, fun hin => hhigh i (by omega) hin⟩
  | succ fuel ih =>
    intro i j hij hjn hfuel hlow hhigh
    by_cases hlt : i < j
    · cases hfh : f ((i + j) / 2) with
      | true =>
        have hrec := ih i ((i + j) / 2) (by omega) (by omega) (by omega) hlow
          (fun k hk1 hk2 => hmono ((i + j) / 2) k hk1 hk2 hfh)
        have heq : sortSearchAux f i j (fuel + 1) =
            sortSearchAux f i ((i + j) / 2) fuel := by
          show (if i < j then
              if f ((i + j) / 2) then sortSearchAux f i ((i + j) / 2) fuel
              else sortSearchAux f ((i + j) / 2 + 1) j fuel
            else i) = sortSearchAux f i ((i + j) / 2) fuel
          rw [if_pos hlt, if_pos hfh]
        rw [heq]
        exact ⟨hrec.1, le_trans hrec.2.1 (by omega), hrec.2.2.1, hrec.2.2.2⟩
      | false =>
        have hlow' : ∀ k, k < (i + j) / 2 + 1 → f k = false := by
          intro k hk
          by_cases hki : k < i
          · exact hlow k hki
          · cases hfk : f k with
            | false => rfl
            | true =>
              exfalso
              have hm := hmono k ((i + j) / 2) (by omega) (by omega) hfk
              rw [hfh] at hm
              exact Bool.false_ne_true hm
        have hrec := ih ((i + j) / 2 + 1) j (by omega) hjn (by omega) hlow' hhigh
        have heq : sortSearchAux f i j (fuel + 1) =
            sortSearchAux f ((i + j) / 2 + 1) j fuel := by
          show (if i < j then
              if f ((i + j) / 2) then sortSearchAux f i ((i + j) / 2) fuel
              else sortSearchAux f ((i + j) / 2 + 1) j fuel
            else i) = sortSearchAux f ((i + j) / 2 + 1) j fuel
          rw [if_pos hlt, if_neg (by simp [hfh])]
        rw [heq]
        exact ⟨le_trans (by omega) hrec.1, hrec.2.1, hrec.2.2.1, hrec.2.2.2⟩
    · have heq : sortSearchAux f i j (fuel + 1) = i := by
        show (if i < j then
            if f ((i + j) / 2) then sortSearchAux f i ((i + j) / 2) fuel
            else sortSearchAux f ((i + j) / 2 + 1) j fuel
          else i) = i
        rw [if_neg hlt]
      rw [heq]
      exact ⟨le_refl i, hij, hlow, fun hin => hhigh i (by omega) hin⟩

/-- `sort.Search n f` with `f` monotone on `[0, n)` returns the least index
where `f` holds (or `n`). -/
theorem sortSearch_spec (n : Nat) (f : Nat → Bool)
    (hmono : ∀ a b, a ≤ b → b < n → f a = true → f b = true) :
    sortSearch n f ≤ n ∧ (∀ k, k < sortSearch n f → f k = false) ∧
    (sortSearch n f < n → f (sortSearch n f) = true) := by
  have h := sortSearchAux_spec f n hmono n 0 n (by omega) (le_refl n) (by omega)
    (fun k hk => absurd hk (Nat.not_lt_zero k))
    (fun k h1 h2 => absurd h2 (by omega))
  exact ⟨h.2.1, h.2.2.1, h.2.2.2⟩

/-- The unique position characterisation of `sort.Search`. -/
theorem sortSearch_unique (n : Nat) (f : Nat → Bool) (j : Nat)
    (hmono : ∀ a b, a ≤ b → b < n → f a = true → f b = true)
    (hj : j ≤ n)
    (hlo : ∀ k, k < j → f k = false)
    (hhi : j < n → f j = true) :
    sortSearch n f = j := by
  obtain ⟨h1, h2, h3⟩ := sortSearch_spec n f hmono
  rcases Nat.lt_trichotomy (sortSearch n f) j with hlt | he | hgt
  · exfalso
    have ht := h3 (by omega)
    have hf := hlo _ hlt
    rw [hf] at ht
    exact Bool.false_ne_true ht
  · exact he
  · exfalso
    have hf := h2 j hgt
    have ht := hhi (by omega)
    rw [hf] at ht
    exact Bool.false_ne_true ht

theorem pairwise_lt_getD_mono (l : List Nat) (hs : List.Pairwise (· < ·) l)
    (a b : Nat) (hab : a ≤ b) (hb : b < l.length) :
    l.getD a 0 ≤ l.getD b 0 := by
  rcases Nat.eq_or_lt_of_le hab with h | h
  · rw [h]
  · rw [List.getD_eq_getElem _ _ (by omega), List.getD_eq_getElem _ _ hb]
    exact le_of_lt (List.pairwise_iff_getElem.mp hs a b (by omega) hb h)

/-- The descent routing of `findLeaf` (`sort.Search` with `key < keys[i]`)
lands on child slot `j` exactly when `keys[j-1] ≤ key < keys[j]`. -/
theorem route_eq (rkeys : List Nat) (k j : Nat)
    (hs : List.Pairwise (· < ·) rkeys) (hj : j ≤ rkeys.length)
    (hlo : 1 ≤ j → rkeys.getD (j - 1) 0 ≤ k)
    (hhi : j < rkeys.length → k < rkeys.getD j 0) :
    sortSearch rkeys.length (fun i => decide (k < rkeys.getD i 0)) = j := by
  refine sortSearch_unique _ _ j ?_ hj ?_ ?_
  · intro a b hab hb ha
    simp only [decide_eq_true_eq] at ha ⊢
    exact lt_of_lt_of_le ha (pairwise_lt_getD_mono rkeys hs a b hab hb)
  · intro m hm
    simp only [decide_eq_false_iff_not, not_lt]
    exact le_trans (pairwise_lt_getD_mono rkeys hs m (j - 1) (by omega) (by omega))
      (hlo (by omega))
  · intro hjn
    simp only [decide_eq_true_eq]
    exact hhi hjn

/-- The leaf-level `sort.Search` with `key ≤ keys[i]` lands on position `m`
exactly when everything before `m` is `< key` and `key ≤ keys[m]`. -/
theorem leafSearch_eq (keys : List Nat) (k m : Nat)
    (hs : List.Pairwise (· < ·) keys) (hm : m ≤ keys.length)
    (hlo : ∀ i, i < m → keys.getD i 0 < k)
    (hhi : m < keys.length → k ≤ keys.getD m 0) :
    sortSearch keys.length (fun i => decide (k ≤ keys.getD i 0)) = m := by
  refine sortSearch_unique _ _ m ?_ hm ?_ ?_
  · intro a b hab hb ha
    simp only [decide_eq_true_eq] at ha ⊢
    exact le_trans ha (pairwise_lt_getD_mono keys hs a b hab hb)
  · intro i hi
    simp only [decide_eq_false_iff_not, not_le]
    exact hlo i hi
  · intro hmn
    simp only [decide_eq_true_eq]
    exact hhi hmn

/-- `kidIndex` finds position `j` when the children ids are pairwise
distinct. -/
theorem kidIndex_spec (kids : List Nat) :
    ∀ (c j : Nat), j < kids.length → kids.getD j 0 = c →
      List.Pairwise (· ≠ ·) kids → kidIndex kids c = some j := by
  induction kids with
  | nil =>
    intro c j hj hc hp
    simp at hj
  | cons k rest ih =>
    intro c j hj hc hp
    rw [List.pairwise_cons] at hp
    obtain ⟨hk, htail⟩ := hp
    cases j with
    | zero =>
      rw [List.getD_cons_zero] at hc
      unfold kidIndex
      rw [if_pos hc]
    | succ j =>
      rw [List.getD_cons_succ] at hc
      have hj' : j < rest.length := by simp only [List.length_cons] at hj; omega
      have hkc : ¬ k = c := by
        intro he
        have hmem : c ∈ rest := by
          rw [← hc, List.getD_eq_getElem _ _ hj']
          exact List.getElem_mem hj'
        exact hk c hmem he
      unfold kidIndex
      rw [if_neg hkc, ih c j hj' hc htail]

theorem insertAt_length {α : Type} (a : List α) (i : Nat) (v : α) :
    (insertAt a i v).length = a.length + 1 := by
  unfold insertAt
  simp only [List.length_append, List.length_take, List.length_cons,
    List.length_drop]
  omega

theorem insertAt_map {α β : Type} (g : α → β) (a : List α) (i : Nat) (v : α) :
    (insertAt a i v).map g = insertAt (a.map g) i (g v) := by
  unfold insertAt
  simp only [List.map_append, List.map_take, List.map_cons, List.map_drop]

theorem mem_insertAt {α : Type} (a : List α) (i : Nat) (v x : α) :
    x ∈ insertAt a i v ↔ x = v ∨ x ∈ a := by
  unfold insertAt
  simp only [List.mem_append, List.mem_cons]
  constructor
  · rintro (h | h | h)
    · exact Or.inr (List.mem_of_mem_take h)
    · exact Or.inl h
    · exact Or.inr (List.mem_of_mem_drop h)
  · rintro (h | h)
    · exact Or.inr (Or.inl h)
    · have h2 : x ∈ a.take i ++ a.drop i := by
        rw [List.take_append_drop]
        exact h
      rcases List.mem_append.mp h2 with h3 | h3
      · exact Or.inl h3
      · exact Or.inr (Or.inr h3)

theorem pairwise_insertAt {α : Type} (R : α → α → Prop) (a : List α) (i : Nat)
    (v : α) (hs : List.Pairwise R a)
    (hlo : ∀ x ∈ a.take i, R x v)
    (hhi : ∀ x ∈ a.drop i, R v x) :
    List.Pairwise R (insertAt a i v) := by
  have hsplit := hs
  rw [← List.take_append_drop i a, List.pairwise_append] at hsplit
  obtain ⟨hp1, hp2, hcross⟩ := hsplit
  unfold insertAt
  rw [List.pairwise_append]
  refine ⟨hp1, ?_, ?_⟩
  · rw [List.pairwise_cons]
    exact ⟨hhi, hp2⟩
  · intro x hx y hy
    rcases List.mem_cons.mp hy with rfl | h
    · exact hlo x hx
    · exact hcross x hx y h

theorem mem_take_bound {α : Type} (a : List α) (i : Nat) (x d : α)
    (hx : x ∈ a.take i) : ∃ j, j < i ∧ j < a.length ∧ a.getD j d = x := by
  obtain ⟨n, hn, he⟩ := List.getElem_of_mem hx
  have hlen : n < min i a.length := by simpa [List.length_take] using hn
  refine ⟨n, by omega, by omega, ?_⟩
  rw [List.getD_eq_getElem _ _ (by omega)]
  rw [List.getElem_take] at he
  exact he

theorem mem_drop_bound {α : Type} (a : List α) (i : Nat) (x d : α)
    (hx : x ∈ a.drop i) : ∃ j, i ≤ j ∧ j < a.length ∧ a.getD j d = x := by
  obtain ⟨n, hn, he⟩ := List.getElem_of_mem hx
  have hlen : n < a.length - i := by simpa [List.length_drop] using hn
  refine ⟨i + n, by omega, by omega, ?_⟩
  rw [List.getD_eq_getElem _ _ (by omega)]
  rw [List.getElem_drop] at he
  exact he

/-! ### Path equations for the descent and insert control flow -/

theorem splitLeafArrays_eq (keys : List Nat) (vals : List RID) :
    splitLeafArrays keys vals =
      ((keys.take (keys.length / 2), vals.take (keys.length / 2)),
       (keys.drop (keys.length / 2), vals.drop (keys.length / 2))) := rfl

theorem splitInternalArrays_eq (keys kids : List Nat) :
    splitInternalArrays keys kids =
      ((keys.take (keys.length / 2), kids.take (keys.length / 2 + 1)),
       (keys.drop (keys.length / 2), kids.drop (keys.length / 2 + 1))) := rfl

/-- `findLeaf` stops at a leaf page. -/
theorem findLeaf_leaf (f : List Page) (key rid fuel : Nat) (P : Page)
    (hr : readPageM f rid = .ok P) (hk : nodeKind P.data = kindLeaf) :
    findLeafFrom f key rid (fuel + 1) = .ok P := by
  show (match readPageM f rid with
    | .error e => (.error (.st e) : Except BtErr Page)
    | .ok p =>
      if nodeKind p.data = kindLeaf then .ok p
      else if nodeKind p.data = kindInternal then
        match internalEntries p with
        | .error e => .error e
        | .ok (keys, kids) =>
          findLeafFrom f key
            (kids.getD (sortSearch keys.length
              (fun i => decide (key < keys.getD i 0))) 0) fuel
      else .error .corruption) = .ok P
  rw [hr]
  show (if nodeKind P.data = kindLeaf then (.ok P : Except BtErr Page)
    else if nodeKind P.data = kindInternal then
      match internalEntries P with
      | .error e => .error e
      | .ok (keys, kids) =>
        findLeafFrom f key
          (kids.getD (sortSearch keys.length
            (fun i => decide (key < keys.getD i 0))) 0) fuel
    else .error .corruption) = .ok P
  rw [if_pos hk]

/-- `findLeaf` descends through an internal page. -/
theorem findLeaf_internal (f : List Page) (key rid fuel : Nat) (P : Page)
    (rkeys kids : List Nat)
    (hr : readPageM f rid = .ok P) (hk : nodeKind P.data = kindInternal)
    (he : internalEntries P = .ok (rkeys, kids)) :
    findLeafFrom f key rid (fuel + 1) =
      findLeafFrom f key
        (kids.getD (sortSearch rkeys.length
          (fun i => decide (key < rkeys.getD i 0))) 0) fuel := by
  show (match readPageM f rid with
    | .error e => (.error (.st e) : Except BtErr Page)
    | .ok p =>
      if nodeKind p.data = kindLeaf then .ok p
      else if nodeKind p.data = kindInternal then
        match internalEntries p with
        | .error e => .error e
        | .ok (keys, kids) =>
          findLeafFrom f key
            (kids.getD (sortSearch keys.length
              (fun i => decide (key < keys.getD i 0))) 0) fuel
      else .error .corruption) = _
  rw [hr]
  show (if nodeKind P.data = kindLeaf then (.ok P : Except BtErr Page)
    else if nodeKind P.data = kindInternal then
      match internalEntries P with
      | .error e => .error e
      | .ok (keys, kids) =>
        findLeafFrom f key
          (kids.getD (sortSearch keys.length
            (fun i => decide (key < keys.getD i 0))) 0) fuel
    else .error .corruption) = _
  rw [if_neg (by rw [hk]; decide), if_pos hk, he]

/-- `findParentAndIndex` finds the parent at the root in one step when the
child is listed there. -/
theorem findParent_root (f : List Page) (rootID childID key fuel : Nat)
    (R : Page) (rkeys kids : List Nat) (j : Nat)
    (hr : readPageM f rootID = .ok R) (hk : nodeKind R.data = kindInternal)
    (he : internalEntries R = .ok (rkeys, kids))
    (hj : kidIndex kids childID = some j) :
    findParentAndIndex f rootID childID key (fuel + 1) = .ok (R, j) := by
  show (match readPageM f rootID with
    | .error e => (.error (.st e) : Except BtErr (Page × Nat))
    | .ok p =>
      if nodeKind p.data = kindLeaf then .error .corruption
      else
        match internalEntries p with
        | .error e => .error e
        | .ok (keys, kids) =>
          match kidIndex kids childID with
          | some i => .ok (p, i)
          | none =>
            findParentAndIndex f
              (kids.getD (sortSearch keys.length
                (fun i => decide (key < keys.getD i 0))) 0) childID key fuel) =
    .ok (R, j)
  rw [hr]
  show (if nodeKind R.data = kindLeaf then
      (.error .corruption : Except BtErr (Page × Nat))
    else
      match internalEntries R with
      | .error e => .error e
      | .ok (keys, kids) =>
        match kidIndex kids childID with
        | some i => .ok (R, i)
        | none =>
          findParentAndIndex f
            (kids.getD (sortSearch keys.length
              (fun i => decide (key < keys.getD i 0))) 0) childID key fuel) =
    .ok (R, j)
  rw [if_neg (by rw [hk]; decide), he]
  show (match kidIndex kids childID with
    | some i => (.ok (R, i) : Except BtErr (Page × Nat))
    | none =>
      findParentAndIndex f
        (kids.getD (sortSearch rkeys.length
          (fun i => decide (key < rkeys.getD i 0))) 0) childID key fuel) =
    .ok (R, j)
  rw [hj]

/-- `BTree.Insert` after a successful descent to leaf `L`: the dup test and
the two leaf-rewrite tails, with the decoded arrays plugged in. -/
theorem insert_eq_branch (t : BT) (key : Nat) (rid : RID) (L : Page)
    (keys : List Nat) (vals : List RID)
    (hfl : findLeafFrom t.pages key t.rootID (t.pages.length + 1) = .ok L)
    (hkind : nodeKind L.data = kindLeaf)
    (hdec : leafLeafEntries L = .ok (keys, vals)) :
    BTree.insert t key rid =
      (if sortSearch keys.length (fun i => decide (key ≤ keys.getD i 0)) <
            keys.length ∧
          keys.getD (sortSearch keys.length
            (fun i => decide (key ≤ keys.getD i 0))) 0 = key then
        ((.error .dupKey : Except BtErr Unit), t)
      else if (insertAt keys (sortSearch keys.length
            (fun i => decide (key ≤ keys.getD i 0))) key).length ≤
            leafCapacity then
        BTree.insertLeafFit t L
          (insertAt keys (sortSearch keys.length
            (fun i => decide (key ≤ keys.getD i 0))) key)
          (insertAt vals (sortSearch keys.length
            (fun i => decide (key ≤ keys.getD i 0))) rid)
      else
        BTree.insertLeafSplit t L
          (insertAt keys (sortSearch keys.length
            (fun i => decide (key ≤ keys.getD i 0))) key)
          (insertAt vals (sortSearch keys.length
            (fun i => decide (key ≤ keys.getD i 0))) rid)) := by
  unfold BTree.insert
  rw [hfl]
  show (if nodeKind L.data ≠ kindLeaf then
      ((.error .corruption : Except BtErr Unit), t)
    else
      match leafLeafEntries L with
      | .error e => (.error e, t)
      | .ok (keys, vals) =>
        if sortSearch keys.length (fun i => decide (key ≤ keys.getD i 0)) <
             keys.length ∧
           keys.getD (sortSearch keys.length
             (fun i => decide (key ≤ keys.getD i 0))) 0 = key then
          (.error .dupKey, t)
        else
          if (insertAt keys (sortSearch keys.length
              (fun i => decide (key ≤ keys.getD i 0))) key).length ≤
              leafCapacity then
            BTree.insertLeafFit t L
              (insertAt keys (sortSearch keys.length
                (fun i => decide (key ≤ keys.getD i 0))) key)
              (insertAt vals (sortSearch keys.length
                (fun i => decide (key ≤ keys.getD i 0))) rid)
          else
            BTree.insertLeafSplit t L
              (insertAt keys (sortSearch keys.length
                (fun i => decide (key ≤ keys.getD i 0))) key)
              (insertAt vals (sortSearch keys.length
                (fun i => decide (key ≤ keys.getD i 0))) rid)) = _
  rw [if_neg (by simp [hkind]), hdec]

/-- `BTree.Get` after a successful descent to leaf `L`. -/
theorem get_eq_branch (t : BT) (key : Nat) (L : Page)
    (keys : List Nat) (vals : List RID)
    (hfl : findLeafFrom t.pages key t.rootID (t.pages.length + 1) = .ok L)
    (hdec : leafLeafEntries L = .ok (keys, vals)) :
    BTree.get t key =
      (if sortSearch keys.length (fun i => decide (key ≤ keys.getD i 0)) <
            keys.length ∧
          keys.getD (sortSearch keys.length
            (fun i => decide (key ≤ keys.getD i 0))) 0 = key then
        .ok (vals.getD (sortSearch keys.length
          (fun i => decide (key ≤ keys.getD i 0))) (RID.mk 0 0), true)
      else
        .ok (RID.mk 0 0, false)) := by
  unfold BTree.get
  rw [hfl]
  show (match leafLeafEntries L with
    | .error e => (.error e : Except BtErr (RID × Bool))
    | .ok (keys, vals) =>
      if sortSearch keys.length (fun i => decide (key ≤ keys.getD i 0)) <
           keys.length ∧
         keys.getD (sortSearch keys.length
           (fun i => decide (key ≤ keys.getD i 0))) 0 = key then
        .ok (vals.getD (sortSearch keys.length
          (fun i => decide (key ≤ keys.getD i 0))) (RID.mk 0 0), true)
      else
        .ok (RID.mk 0 0, false)) = _
  rw [hdec]

/-- `insertIntoParent` dispatch: the root-growth arm. -/
theorem iip_eq_root (f : List Page) (rootID leftID key rightID fuel : Nat)
    (h : leftID = rootID) :
    insertIntoParent f rootID leftID key rightID (fuel + 1) =
      iipRoot f rootID leftID key rightID := by
  unfold insertIntoParent
  rw [if_pos h]

/-- `insertIntoParent` dispatch: the non-root arm after the parent search and
decode, leaving the capacity test. -/
theorem iip_eq_parent (f : List Page) (rootID leftID key rightID fuel : Nat)
    (parent : Page) (idx : Nat) (pkeys kids : List Nat)
    (h : ¬ leftID = rootID)
    (hfp : findParentAndIndex f rootID leftID key (f.length + 1) =
      .ok (parent, idx))
    (hdec : internalEntries parent = .ok (pkeys, kids)) :
    insertIntoParent f rootID leftID key rightID (fuel + 1) =
      (if (insertAt pkeys idx key).length ≤ internalCapacity then
        iipParentFit f rootID parent (insertAt pkeys idx key)
          (insertAt kids (idx + 1) rightID)
      else
        match writeInternal parent
            (splitInternalArrays (insertAt pkeys idx key)
              (insertAt kids (idx + 1) rightID)).1.1
            (splitInternalArrays (insertAt pkeys idx key)
              (insertAt kids (idx + 1) rightID)).1.2 with
        | .error e => (.error e, (f, rootID))
        | .ok pl =>
          match writePageM f pl with
          | .error e => (.error (.st e), (f, rootID))
          | .ok f2 =>
            match writeInternal (allocPage f2 kindInternal).2
                (splitInternalArrays (insertAt pkeys idx key)
                  (insertAt kids (idx + 1) rightID)).2.1
                (splitInternalArrays (insertAt pkeys idx key)
                  (insertAt kids (idx + 1) rightID)).2.2 with
            | .error e => (.error e, (f2, rootID))
            | .ok rp2 =>
              match writePageM f2 rp2 with
              | .error e => (.error (.st e), (f2, rootID))
              | .ok f3 =>
                insertIntoParent f3 rootID parent.id
                  ((splitInternalArrays (insertAt pkeys idx key)
                    (insertAt kids (idx + 1) rightID)).2.1.getD 0 0)
                  (allocPage f2 kindInternal).1 fuel) := by
  show (if leftID = rootID then iipRoot f rootID leftID key rightID
    else
      match findParentAndIndex f rootID leftID key (f.length + 1) with
      | .error e => (.error e, (f, rootID))
      | .ok (parent, idx) =>
        match internalEntries parent with
        | .error e => (.error e, (f, rootID))
        | .ok (pkeys, kids) =>
          if (insertAt pkeys idx key).length ≤ internalCapacity then
            iipParentFit f rootID parent (insertAt pkeys idx key)
              (insertAt kids (idx + 1) rightID)
          else
            match writeInternal parent
                (splitInternalArrays (insertAt pkeys idx key)
                  (insertAt kids (idx + 1) rightID)).1.1
                (splitInternalArrays (insertAt pkeys idx key)
                  (insertAt kids (idx + 1) rightID)).1.2 with
            | .error e => (.error e, (f, rootID))
            | .ok pl =>
              match writePageM f pl with
              | .error e => (.error (.st e), (f, rootID))
              | .ok f2 =>
                match writeInternal (allocPage f2 kindInternal).2
                    (splitInternalArrays (insertAt pkeys idx key)
                      (insertAt kids (idx + 1) rightID)).2.1
                    (splitInternalArrays (insertAt pkeys idx key)
                      (insertAt kids (idx + 1) rightID)).2.2 with
                | .error e => (.error e, (f2, rootID))
                | .ok rp2 =>
                  match writePageM f2 rp2 with
                  | .error e => (.error (.st e), (f2, rootID))
                  | .ok f3 =>
                    insertIntoParent f3 rootID parent.id
                      ((splitInternalArrays (insertAt pkeys idx key)
                        (insertAt kids (idx + 1) rightID)).2.1.getD 0 0)
                      (allocPage f2 kindInternal).1 fuel) = _
  rw [if_neg h, hfp]
  show (match internalEntries parent with
    | .error e => ((.error e : Except BtErr Unit), (f, rootID))
    | .ok (pkeys, kids) =>
      if (insertAt pkeys idx key).length ≤ internalCapacity then
        iipParentFit f rootID parent (insertAt pkeys idx key)
          (insertAt kids (idx + 1) rightID)
      else
        match writeInternal parent
            (splitInternalArrays (insertAt pkeys idx key)
              (insertAt kids (idx + 1) rightID)).1.1
            (splitInternalArrays (insertAt pkeys idx key)
              (insertAt kids (idx + 1) rightID)).1.2 with
        | .error e => (.error e, (f, rootID))
        | .ok pl =>
          match writePageM f pl with
          | .error e => (.error (.st e), (f, rootID))
          | .ok f2 =>
            match writeInternal (allocPage f2 kindInternal).2
                (splitInternalArrays (insertAt pkeys idx key)
                  (insertAt kids (idx + 1) rightID)).2.1
                (splitInternalArrays (insertAt pkeys idx key)
                  (insertAt kids (idx + 1) rightID)).2.2 with
            | .error e => (.error e, (f2, rootID))
            | .ok rp2 =>
              match writePageM f2 rp2 with
              | .error e => (.error (.st e), (f2, rootID))
              | .ok f3 =>
                insertIntoParent f3 rootID parent.id
                  ((splitInternalArrays (insertAt pkeys idx key)
                    (insertAt kids (idx + 1) rightID)).2.1.getD 0 0)
                  (allocPage f2 kindInternal).1 fuel) = _
  rw [hdec]

/-- The root-growth arm always succeeds: a fresh internal root with one
separator and the two halves as children, and the meta page repointed. -/
theorem iipRoot_ok (f : List Page) (rootID key rightID : Nat)
    (hlen2 : 2 ≤ f.length) (hflen : f.length < 2 ^ 32)
    (hkey : key < 2 ^ 64) (hroot : rootID < 2 ^ 32) (hright : rightID < 2 ^ 32)
    (hmds : (f.getD 0 (freshHeapPage 0)).dataSize ≤ PayloadSize)
    (hm0 : (f.getD 0 (freshHeapPage 0)).id = 0) :
    ∃ R2, iipRoot f rootID rootID key rightID =
        (.ok (), ((f ++ [R2]).set 0
          { f.getD 0 (freshHeapPage 0) with
            data := setMetaRoot (f.getD 0 (freshHeapPage 0)).data f.length },
          f.length)) ∧
      R2.id = f.length ∧ R2.dataSize = PayloadSize ∧ R2.data.length = 4086 ∧
      nodeKind R2.data = kindInternal ∧
      internalEntries R2 = .ok ([key], [rootID, rightID]) := by
  obtain ⟨R2, hw, hid, hds, hl, hk, hdec⟩ := writeInternal_ok
    (allocPage f kindInternal).2 [key] [rootID, rightID]
    (by show (setNodeHeaderB (List.replicate PayloadSize 0) kindInternal 0
          0xFFFFFFFF 0).length = 4086
        rw [setNodeHeaderB_length, List.length_replicate]
        exact payloadSize_eq)
    (by simp) (by simp)
    (by intro a ha
        rw [List.mem_singleton] at ha
        omega)
    (by intro c hc
        rcases List.mem_cons.mp hc with rfl | hc2
        · exact hroot
        · rw [List.mem_singleton] at hc2
          omega)
  have hid' : R2.id = f.length := hid
  refine ⟨R2, ?_, hid', hds, hl, hk, hdec⟩
  unfold iipRoot writeInternalRoot
  rw [hw]
  show (match writePageM f R2 with
    | .error e => ((.error (.st e) : Except BtErr Unit), (f, rootID))
    | .ok f2 =>
      match readPageM f2 0 with
      | .error e => (.error (.st e), (f2, rootID))
      | .ok meta =>
        match writePageM f2 { meta with
            data := setMetaRoot meta.data (allocPage f kindInternal).1 } with
        | .error e => (.error (.st e), (f2, rootID))
        | .ok f3 => (.ok (), (f3, (allocPage f kindInternal).1))) = _
  rw [writePageM_append f R2 (by rw [hds]; simp) hid']
  show (match readPageM (f ++ [R2]) 0 with
    | .error e => ((.error (.st e) : Except BtErr Unit), (f ++ [R2], rootID))
    | .ok meta =>
      match writePageM (f ++ [R2]) { meta with
          data := setMetaRoot meta.data (allocPage f kindInternal).1 } with
      | .error e => (.error (.st e), (f ++ [R2], rootID))
      | .ok f3 => (.ok (), (f3, (allocPage f kindInternal).1))) = _
  rw [readPageM_getD (f ++ [R2]) 0 (by simp only [List.length_append]; omega)]
  have hg0 : (f ++ [R2]).getD 0 (freshHeapPage 0) = f.getD 0 (freshHeapPage 0) :=
    List.getD_append _ _ _ _ (by omega)
  rw [hg0]
  show (match writePageM (f ++ [R2]) { f.getD 0 (freshHeapPage 0) with
      data := setMetaRoot (f.getD 0 (freshHeapPage 0)).data
        (allocPage f kindInternal).1 } with
    | .error e => ((.error (.st e) : Except BtErr Unit), (f ++ [R2], rootID))
    | .ok f3 => (.ok (), (f3, (allocPage f kindInternal).1))) = _
  rw [writePageM_set (f ++ [R2]) _
    (by show ¬ (f.getD 0 (freshHeapPage 0)).dataSize > PayloadSize
        omega)
    (by show (f.getD 0 (freshHeapPage 0)).id < (f ++ [R2]).length
        rw [hm0]
        simp only [List.length_append]
        omega)]
  have hrid : ({ f.getD 0 (freshHeapPage 0) with
      data := setMetaRoot (f.getD 0 (freshHeapPage 0)).data
        (allocPage f kindInternal).1 } : Page).id = 0 := hm0
  rw [hrid]
  rfl

/-- The fitting-parent arm succeeds and overwrites the parent in place. -/
theorem iipParentFit_ok (f : List Page) (rootID : Nat) (parent : Page)
    (pkeys2 kids2 : List Nat)
    (hd : parent.data.length = 4086) (hpid : parent.id < f.length)
    (hlen : kids2.length = pkeys2.length + 1) (hcap : pkeys2.length ≤ 338)
    (hkb : ∀ k ∈ pkeys2, k < 2 ^ 64) (hcb : ∀ c ∈ kids2, c < 2 ^ 32) :
    ∃ P2, iipParentFit f rootID parent pkeys2 kids2 =
        (.ok (), (f.set parent.id P2, rootID)) ∧
      P2.id = parent.id ∧ P2.dataSize = PayloadSize ∧ P2.data.length = 4086 ∧
      nodeKind P2.data = kindInternal ∧ internalEntries P2 = .ok (pkeys2, kids2) := by
  obtain ⟨P2, hw, hid, hds, hl, hk, hdec⟩ :=
    writeInternal_ok parent pkeys2 kids2 hd hlen hcap hkb hcb
  refine ⟨P2, ?_, hid, hds, hl, hk, hdec⟩
  unfold iipParentFit
  rw [hw]
  show (match writePageM f P2 with
    | .error e => ((.error (.st e) : Except BtErr Unit), (f, rootID))
    | .ok f2 => (.ok (), (f2, rootID))) = _
  rw [writePageM_set f P2 (by rw [hds]; simp) (by rw [hid]; exact hpid), hid]

/-- The overflowing-parent arm always ends in an error: the right half of
`splitInternalArrays` has as many children as keys, so its `writeInternal`
panics (C2); the earlier writes may fail too, but no path returns `ok`. -/
theorem iip_over_fails (f : List Page) (rootID leftID key rightID fuel : Nat)
    (parent : Page) (idx : Nat) (pkeys kids : List Nat)
    (h : ¬ leftID = rootID)
    (hfp : findParentAndIndex f rootID leftID key (f.length + 1) =
      .ok (parent, idx))
    (hdec : internalEntries parent = .ok (pkeys, kids))
    (hover : ¬ (insertAt pkeys idx key).length ≤ internalCapacity)
    (hkl : kids.length = pkeys.length + 1) :
    ∃ e, (insertIntoParent f rootID leftID key rightID (fuel + 1)).1 =
      .error e := by
  rw [iip_eq_parent f rootID leftID key rightID fuel parent idx pkeys kids h
    hfp hdec, if_neg hover]
  rcases hw1 : writeInternal parent
      (splitInternalArrays (insertAt pkeys idx key)
        (insertAt kids (idx + 1) rightID)).1.1
      (splitInternalArrays (insertAt pkeys idx key)
        (insertAt kids (idx + 1) rightID)).1.2 with e | pl
  · exact ⟨e, rfl⟩
  · show ∃ e, (match writePageM f pl with
      | .error e => ((.error (.st e) : Except BtErr Unit), (f, rootID))
      | .ok f2 =>
        match writeInternal (allocPage f2 kindInternal).2
            (splitInternalArrays (insertAt pkeys idx key)
              (insertAt kids (idx + 1) rightID)).2.1
            (splitInternalArrays (insertAt pkeys idx key)
              (insertAt kids (idx + 1) rightID)).2.2 with
        | .error e => (.error e, (f2, rootID))
        | .ok rp2 =>
          match writePageM f2 rp2 with
          | .error e => (.error (.st e), (f2, rootID))
          | .ok f3 =>
            insertIntoParent f3 rootID parent.id
              ((splitInternalArrays (insertAt pkeys idx key)
                (insertAt kids (idx + 1) rightID)).2.1.getD 0 0)
              (allocPage f2 kindInternal).1 fuel).1 = .error e
    rcases hw2 : writePageM f pl with e | f2
    · exact ⟨.st e, rfl⟩
    · have hoob : writeInternal (allocPage f2 kindInternal).2
          (splitInternalArrays (insertAt pkeys idx key)
            (insertAt kids (idx + 1) rightID)).2.1
          (splitInternalArrays (insertAt pkeys idx key)
            (insertAt kids (idx + 1) rightID)).2.2 = .error .oob := by
        apply writeInternal_shortKids
        · show ((insertAt kids (idx + 1) rightID).drop
              ((insertAt pkeys idx key).length / 2 + 1)).length ≤
            ((insertAt pkeys idx key).drop
              ((insertAt pkeys idx key).length / 2)).length
          simp only [List.length_drop, insertAt_length]
          omega
        · show ((insertAt pkeys idx key).drop
              ((insertAt pkeys idx key).length / 2)) ≠ []
          intro hnil
          have hln := congrArg List.length hnil
          simp only [List.length_drop, insertAt_length, List.length_nil] at hln
          omega
      show ∃ e, (match writeInternal (allocPage f2 kindInternal).2
          (splitInternalArrays (insertAt pkeys idx key)
            (insertAt kids (idx + 1) rightID)).2.1
          (splitInternalArrays (insertAt pkeys idx key)
            (insertAt kids (idx + 1) rightID)).2.2 with
        | .error e => ((.error e : Except BtErr Unit), (f2, rootID))
        | .ok rp2 =>
          match writePageM f2 rp2 with
          | .error e => (.error (.st e), (f2, rootID))
          | .ok f3 =>
            insertIntoParent f3 rootID parent.id
              ((splitInternalArrays (insertAt pkeys idx key)
                (insertAt kids (idx + 1) rightID)).2.1.getD 0 0)
              (allocPage f2 kindInternal).1 fuel).1 = .error e
      rw [hoob]
      exact ⟨.oob, rfl⟩

/-- The no-split leaf tail succeeds on an in-range leaf image. -/
theorem insertLeafFit_ok (t : BT) (leaf : Page) (keys2 : List Nat)
    (vals2 : List RID)
    (hd : leaf.data.length = 4086) (hpid : leaf.id < t.pages.length)
    (hlen : keys2.length = vals2.length) (hcap : keys2.length ≤ 254)
    (hkb : ∀ k ∈ keys2, k < 2 ^ 64)
    (hvb : ∀ v ∈ vals2, v.pageID < 2 ^ 32 ∧ v.slotID < 2 ^ 16) :
    ∃ L2, BTree.insertLeafFit t leaf keys2 vals2 =
        (.ok (), BT.mk (t.pages.set leaf.id L2) t.rootID) ∧
      L2.id = leaf.id ∧ L2.dataSize = PayloadSize ∧ L2.data.length = 4086 ∧
      nodeKind L2.data = kindLeaf ∧ leafLeafEntries L2 = .ok (keys2, vals2) := by
  obtain ⟨L2, hw, hid, hds, hl, hk, hdec⟩ :=
    writeLeaf_ok leaf keys2 vals2 hd hlen hcap hkb hvb
  refine ⟨L2, ?_, hid, hds, hl, hk, hdec⟩
  unfold BTree.insertLeafFit
  rw [hw]
  show (match writePageM t.pages L2 with
    | .error e => ((.error (.st e) : Except BtErr Unit), t)
    | .ok f2 => (.ok (), BT.mk f2 t.rootID)) = _
  rw [writePageM_set t.pages L2 (by rw [hds]; simp) (by rw [hid]; exact hpid),
    hid]

/-- The split leaf tail: both halves are written out (left in place, right to
a fresh page) and control passes to `insertIntoParent` on the updated file. -/
theorem insertLeafSplit_ok (t : BT) (leaf : Page) (keys2 : List Nat)
    (vals2 : List RID)
    (hd : leaf.data.length = 4086) (hpid : leaf.id < t.pages.length)
    (hlen : keys2.length = vals2.length) (hcap : keys2.length ≤ 255)
    (hkb : ∀ k ∈ keys2, k < 2 ^ 64)
    (hvb : ∀ v ∈ vals2, v.pageID < 2 ^ 32 ∧ v.slotID < 2 ^ 16) :
    ∃ L2 R2,
      BTree.insertLeafSplit t leaf keys2 vals2 =
        ((insertIntoParent ((t.pages.set leaf.id L2) ++ [R2]) t.rootID leaf.id
            ((keys2.drop (keys2.length / 2)).getD 0 0)
            (t.pages.set leaf.id L2).length
            (((t.pages.set leaf.id L2) ++ [R2]).length + 1)).1,
          BT.mk
            (insertIntoParent ((t.pages.set leaf.id L2) ++ [R2]) t.rootID leaf.id
              ((keys2.drop (keys2.length / 2)).getD 0 0)
              (t.pages.set leaf.id L2).length
              (((t.pages.set leaf.id L2) ++ [R2]).length + 1)).2.1
            (insertIntoParent ((t.pages.set leaf.id L2) ++ [R2]) t.rootID leaf.id
              ((keys2.drop (keys2.length / 2)).getD 0 0)
              (t.pages.set leaf.id L2).length
              (((t.pages.set leaf.id L2) ++ [R2]).length + 1)).2.2) ∧
      L2.id = leaf.id ∧ L2.dataSize = PayloadSize ∧ L2.data.length = 4086 ∧
      nodeKind L2.data = kindLeaf ∧
      leafLeafEntries L2 = .ok (keys2.take (keys2.length / 2),
        vals2.take (keys2.length / 2)) ∧
      R2.id = (t.pages.set leaf.id L2).length ∧ R2.dataSize = PayloadSize ∧
      R2.data.length = 4086 ∧ nodeKind R2.data = kindLeaf ∧
      leafLeafEntries R2 = .ok (keys2.drop (keys2.length / 2),
        vals2.drop (keys2.length / 2)) := by
  obtain ⟨L2, hwL, hidL, hdsL, hlL, hkL, hdecL⟩ := writeLeaf_ok leaf
    (keys2.take (keys2.length / 2)) (vals2.take (keys2.length / 2)) hd
    (by simp only [List.length_take]; omega)
    (by simp only [List.length_take]; omega)
    (fun k hk => hkb k (List.mem_of_mem_take hk))
    (fun v hv => hvb v (List.mem_of_mem_take hv))
  obtain ⟨R2, hwR, hidR, hdsR, hlR, hkR, hdecR⟩ := writeLeaf_ok
    (allocPage (t.pages.set leaf.id L2) kindLeaf).2
    (keys2.drop (keys2.length / 2)) (vals2.drop (keys2.length / 2))
    (by show (setNodeHeaderB (List.replicate PayloadSize 0) kindLeaf 0
          0xFFFFFFFF 0).length = 4086
        rw [setNodeHeaderB_length, List.length_replicate]
        exact payloadSize_eq)
    (by simp only [List.length_drop]; omega)
    (by simp only [List.length_drop]; omega)
    (fun k hk => hkb k (List.mem_of_mem_drop hk))
    (fun v hv => hvb v (List.mem_of_mem_drop hv))
  have hidR' : R2.id = (t.pages.set leaf.id L2).length := hidR
  refine ⟨L2, R2, ?_, hidL, hdsL, hlL, hkL, hdecL, hidR', hdsR, hlR, hkR, hdecR⟩
  unfold BTree.insertLeafSplit
  simp only [splitLeafArrays_eq]
  rw [hwL]
  show (match writePageM t.pages L2 with
    | .error e => ((.error (.st e) : Except BtErr Unit), t)
    | .ok f2 =>
      match writeLeaf (allocPage f2 kindLeaf).2
          (keys2.drop (keys2.length / 2)) (vals2.drop (keys2.length / 2)) with
      | .error e => (.error e, BT.mk f2 t.rootID)
      | .ok rp2 =>
        match writePageM f2 rp2 with
        | .error e => (.error (.st e), BT.mk f2 t.rootID)
        | .ok f3 =>
          match insertIntoParent f3 t.rootID leaf.id
              ((keys2.drop (keys2.length / 2)).getD 0 0)
              (allocPage f2 kindLeaf).1 (f3.length + 1) with
          | (res, (f4, root2)) => (res, BT.mk f4 root2)) = _
  rw [writePageM_set t.pages L2 (by rw [hdsL]; simp) (by rw [hidL]; exact hpid),
    hidL]
  show (match writeLeaf (allocPage (t.pages.set leaf.id L2) kindLeaf).2
      (keys2.drop (keys2.length / 2)) (vals2.drop (keys2.length / 2)) with
    | .error e => ((.error e : Except BtErr Unit), BT.mk (t.pages.set leaf.id L2) t.rootID)
    | .ok rp2 =>
      match writePageM (t.pages.set leaf.id L2) rp2 with
      | .error e => (.error (.st e), BT.mk (t.pages.set leaf.id L2) t.rootID)
      | .ok f3 =>
        match insertIntoParent f3 t.rootID leaf.id
            ((keys2.drop (keys2.length / 2)).getD 0 0)
            (allocPage (t.pages.set leaf.id L2) kindLeaf).1 (f3.length + 1) with
        | (res, (f4, root2)) => (res, BT.mk f4 root2)) = _
  rw [hwR]
  show (match writePageM (t.pages.set leaf.id L2) R2 with
    | .error e => ((.error (.st e) : Except BtErr Unit),
        BT.mk (t.pages.set leaf.id L2) t.rootID)
    | .ok f3 =>
      match insertIntoParent f3 t.rootID leaf.id
          ((keys2.drop (keys2.length / 2)).getD 0 0)
          (allocPage (t.pages.set leaf.id L2) kindLeaf).1 (f3.length + 1) with
      | (res, (f4, root2)) => (res, BT.mk f4 root2)) = _
  rw [writePageM_append (t.pages.set leaf.id L2) R2 (by rw [hdsR]; simp)
    hidR']
  rfl

/-! ### Ghost representation of a reachable B-tree

With `internalCapacity = 338` and the C2 split bug, every reachable tree has
depth at most two: a root (leaf, or internal after the first leaf split)
whose children are all leaves.  A third level would require an internal-node
split, which always panics (`writeInternal_shortKids`). -/

/-- `LeafRep p es`: page `p` is a well-formed leaf storing exactly the
key-sorted entries `es` (all within the u64/u32/u16 ranges Go's types
enforce). -/
def LeafRep (p : Page) (es : List (Nat × RID)) : Prop :=
  p.data.length = 4086 ∧ p.dataSize = PayloadSize ∧ nodeKind p.data = kindLeaf ∧
  es.length ≤ leafCapacity ∧
  List.Pairwise (fun a b => a.1 < b.1) es ∧
  (∀ e ∈ es, e.1 < 2 ^ 64 ∧ e.2.pageID < 2 ^ 32 ∧ e.2.slotID < 2 ^ 16) ∧
  leafLeafEntries p = .ok (es.map Prod.fst, es.map Prod.snd)

/-- `ChunkOk rkeys j es`: the entries of child `j` sit strictly below
separator `j` and at or above separator `j - 1` (the search-tree routing
bounds of the strict-`<` descent). -/
def ChunkOk (rkeys : List Nat) (j : Nat) (es : List (Nat × RID)) : Prop :=
  ∀ e ∈ es, (j < rkeys.length → e.1 < rkeys.getD j 0) ∧
    (1 ≤ j → rkeys.getD (j - 1) 0 ≤ e.1)

/-- Every page of the file sits at the index matching its id and respects the
`DataSize` bound (needed for rewrites through `writePageM`). -/
def PagesOk (f : List Page) : Prop :=
  ∀ i, i < f.length → (f.getD i (freshHeapPage 0)).id = i ∧
    (f.getD i (freshHeapPage 0)).dataSize ≤ PayloadSize

/-- `BTRep t tes`: tree handle `t` represents the entry set `tes`.  Either
the root is still the bootstrap leaf, or it is an internal node whose
children are leaves holding consecutive chunks of `tes`. -/
def BTRep (t : BT) (tes : List (Nat × RID)) : Prop :=
  PagesOk t.pages ∧ 2 ≤ t.pages.length ∧ t.rootID < t.pages.length ∧
  t.rootID ≠ 0 ∧
  ((t.pages.length = 2 ∧
    LeafRep (t.pages.getD t.rootID (freshHeapPage 0)) tes)
   ∨
   (∃ (rkeys kids : List Nat) (chunks : List (List (Nat × RID))),
     nodeKind (t.pages.getD t.rootID (freshHeapPage 0)).data = kindInternal ∧
     (t.pages.getD t.rootID (freshHeapPage 0)).data.length = 4086 ∧
     internalEntries (t.pages.getD t.rootID (freshHeapPage 0)) =
       .ok (rkeys, kids) ∧
     List.Pairwise (· < ·) rkeys ∧
     (∀ k ∈ rkeys, k < 2 ^ 64) ∧
     1 ≤ rkeys.length ∧ rkeys.length ≤ internalCapacity ∧
     kids.length = rkeys.length + 1 ∧
     List.Pairwise (· ≠ ·) kids ∧
     (∀ c ∈ kids, c < t.pages.length ∧ c ≠ 0 ∧ c ≠ t.rootID) ∧
     chunks.length = kids.length ∧
     tes = chunks.flatten ∧
     t.pages.length = kids.length + 2 ∧
     (∀ j, j < kids.length →
       LeafRep (t.pages.getD (kids.getD j 0) (freshHeapPage 0))
         (chunks.getD j []) ∧
       ChunkOk rkeys j (chunks.getD j []))))

/-- The leaf search finds a present key at its sorted position. -/
theorem leaf_lookup_found (es : List (Nat × RID)) (k : Nat) (r : RID)
    (hs : List.Pairwise (fun a b => a.1 < b.1) es) (hmem : (k, r) ∈ es) :
    sortSearch (es.map Prod.fst).length
        (fun i => decide (k ≤ (es.map Prod.fst).getD i 0)) <
      (es.map Prod.fst).length ∧
    (es.map Prod.fst).getD (sortSearch (es.map Prod.fst).length
        (fun i => decide (k ≤ (es.map Prod.fst).getD i 0))) 0 = k ∧
    (es.map Prod.snd).getD (sortSearch (es.map Prod.fst).length
        (fun i => decide (k ≤ (es.map Prod.fst).getD i 0))) (RID.mk 0 0) = r := by
  obtain ⟨m, hm, he⟩ := List.getElem_of_mem hmem
  have hsk : List.Pairwise (· < ·) (es.map Prod.fst) := List.pairwise_map.mpr hs
  have hmlen : m < (es.map Prod.fst).length := by simpa using hm
  have hkey : (es.map Prod.fst).getD m 0 = k := by
    rw [List.getD_eq_getElem _ _ hmlen, List.getElem_map, he]
  have hss : sortSearch (es.map Prod.fst).length
      (fun i => decide (k ≤ (es.map Prod.fst).getD i 0)) = m := by
    apply leafSearch_eq _ _ _ hsk (by omega)
    · intro i hi
      have hilen : i < (es.map Prod.fst).length := by omega
      rw [List.getD_eq_getElem _ _ hilen, List.getElem_map]
      have hlt := List.pairwise_iff_getElem.mp hs i m (by simpa using hilen)
        hm hi
      rw [he] at hlt
      exact hlt
    · intro hmn
      rw [hkey]
  rw [hss]
  refine ⟨hmlen, hkey, ?_⟩
  have hmlen2 : m < (es.map Prod.snd).length := by simpa using hm
  rw [List.getD_eq_getElem _ _ hmlen2, List.getElem_map, he]

/-- The leaf search never reports an absent key. -/
theorem leaf_lookup_absent (es : List (Nat × RID)) (k : Nat)
    (hnone : ∀ p ∈ es, p.1 ≠ k) :
    ¬ (sortSearch (es.map Prod.fst).length
          (fun i => decide (k ≤ (es.map Prod.fst).getD i 0)) <
        (es.map Prod.fst).length ∧
      (es.map Prod.fst).getD (sortSearch (es.map Prod.fst).length
          (fun i => decide (k ≤ (es.map Prod.fst).getD i 0))) 0 = k) := by
  rintro ⟨h1, h2⟩
  rw [List.getD_eq_getElem _ _ h1, List.getElem_map] at h2
  exact hnone _ (List.getElem_mem _) h2

/-- The descent from a represented tree lands on the leaf whose chunk holds
the looked-up entry. -/
theorem BTRep_findLeaf_mem (t : BT) (tes : List (Nat × RID)) (k : Nat)
    (r : RID) (h : BTRep t tes) (hmem : (k, r) ∈ tes) :
    ∃ L ch, findLeafFrom t.pages k t.rootID (t.pages.length + 1) = .ok L ∧
      LeafRep L ch ∧ (k, r) ∈ ch := by
  obtain ⟨hpo, hlen2, hrlt, hrne, hcase⟩ := h
  rcases hcase with ⟨hl2, hleaf⟩ |
    ⟨rkeys, kids, chunks, hk, hdl, hdec, hsort, hkb, h1k, hcapk, hklen, hdist,
      hkids, hclen, htes, hacc, hch⟩
  · exact ⟨t.pages.getD t.rootID (freshHeapPage 0), tes,
      findLeaf_leaf t.pages k t.rootID t.pages.length _
        (readPageM_getD t.pages t.rootID hrlt) hleaf.2.2.1,
      hleaf, hmem⟩
  · rw [htes] at hmem
    obtain ⟨ch, hchmem, hpmem⟩ := List.mem_flatten.mp hmem
    obtain ⟨j0, hj0, hcheq⟩ := List.getElem_of_mem hchmem
    have hj0k : j0 < kids.length := by omega
    obtain ⟨hLrep, hcok⟩ := hch j0 hj0k
    have hgd : chunks.getD j0 [] = ch := by
      rw [List.getD_eq_getElem _ _ hj0]
      exact hcheq
    have hroute : sortSearch rkeys.length
        (fun i => decide (k < rkeys.getD i 0)) = j0 := by
      apply route_eq rkeys k j0 hsort (by omega)
      · intro h1j
        exact (hcok (k, r) (by rw [hgd]; exact hpmem)).2 h1j
      · intro hj0r
        exact (hcok (k, r) (by rw [hgd]; exact hpmem)).1 hj0r
    have hkmem : kids.getD j0 0 ∈ kids := by
      rw [List.getD_eq_getElem _ _ hj0k]
      exact List.getElem_mem hj0k
    refine ⟨t.pages.getD (kids.getD j0 0) (freshHeapPage 0), chunks.getD j0 [],
      ?_, hLrep, by rw [hgd]; exact hpmem⟩
    rw [findLeaf_internal t.pages k t.rootID t.pages.length _ rkeys kids
      (readPageM_getD _ _ hrlt) hk hdec, hroute]
    have hflen : t.pages.length = (t.pages.length - 1) + 1 := by omega
    rw [hflen]
    exact findLeaf_leaf t.pages k (kids.getD j0 0) (t.pages.length - 1) _
      (readPageM_getD _ _ (hkids _ hkmem).1) hLrep.2.2.1

/-- The descent from a represented tree always reaches some represented
leaf whose chunk is part of the entry set. -/
theorem BTRep_findLeaf_any (t : BT) (tes : List (Nat × RID)) (k : Nat)
    (h : BTRep t tes) :
    ∃ L ch, findLeafFrom t.pages k t.rootID (t.pages.length + 1) = .ok L ∧
      LeafRep L ch ∧ (∀ p ∈ ch, p ∈ tes) := by
  obtain ⟨hpo, hlen2, hrlt, hrne, hcase⟩ := h
  rcases hcase with ⟨hl2, hleaf⟩ |
    ⟨rkeys, kids, chunks, hk, hdl, hdec, hsort, hkb, h1k, hcapk, hklen, hdist,
      hkids, hclen, htes, hacc, hch⟩
  · exact ⟨t.pages.getD t.rootID (freshHeapPage 0), tes,
      findLeaf_leaf t.pages k t.rootID t.pages.length _
        (readPageM_getD t.pages t.rootID hrlt) hleaf.2.2.1,
      hleaf, fun p hp => hp⟩
  · have hmono : ∀ a b, a ≤ b → b < rkeys.length →
        (fun i => decide (k < rkeys.getD i 0)) a = true →
        (fun i => decide (k < rkeys.getD i 0)) b = true := by
      intro a b hab hb ha
      simp only [decide_eq_true_eq] at ha ⊢
      exact lt_of_lt_of_le ha (pairwise_lt_getD_mono rkeys hsort a b hab hb)
    obtain ⟨hjle, _, _⟩ := sortSearch_spec rkeys.length
      (fun i => decide (k < rkeys.getD i 0)) hmono
    have hjk : sortSearch rkeys.length
        (fun i => decide (k < rkeys.getD i 0)) < kids.length := by omega
    obtain ⟨hLrep, hcok⟩ := hch _ hjk
    have hkmem : kids.getD (sortSearch rkeys.length
        (fun i => decide (k < rkeys.getD i 0))) 0 ∈ kids := by
      rw [List.getD_eq_getElem _ _ hjk]
      exact List.getElem_mem hjk
    refine ⟨t.pages.getD (kids.getD (sortSearch rkeys.length
        (fun i => decide (k < rkeys.getD i 0))) 0) (freshHeapPage 0),
      chunks.getD (sortSearch rkeys.length
        (fun i => decide (k < rkeys.getD i 0))) [],
      ?_, hLrep, ?_⟩
    · rw [findLeaf_internal t.pages k t.rootID t.pages.length _ rkeys kids
        (readPageM_getD _ _ hrlt) hk hdec]
      have hflen : t.pages.length = (t.pages.length - 1) + 1 := by omega
      rw [hflen]
      exact findLeaf_leaf t.pages k _ (t.pages.length - 1) _
        (readPageM_getD _ _ (hkids _ hkmem).1) hLrep.2.2.1
    · intro p hp
      rw [htes]
      refine List.mem_flatten.mpr ⟨chunks.getD (sortSearch rkeys.length
        (fun i => decide (k < rkeys.getD i 0))) [], ?_, hp⟩
      rw [List.getD_eq_getElem _ _ (by omega)]
      exact List.getElem_mem (by omega)

/-- `BTree.Get` returns the stored rid with `found = true` for any entry of
a represented tree. -/
theorem BTRep_get_found (t : BT) (tes : List (Nat × RID)) (k : Nat) (r : RID)
    (h : BTRep t tes) (hmem : (k, r) ∈ tes) :
    BTree.get t k = .ok (r, true) := by
  obtain ⟨L, ch, hfl, hrep, hchm⟩ := BTRep_findLeaf_mem t tes k r h hmem
  obtain ⟨_, _, _, _, hsort, _, hdec⟩ := hrep
  obtain ⟨hlt, hgd, hval⟩ := leaf_lookup_found ch k r hsort hchm
  rw [get_eq_branch t k L (ch.map Prod.fst) (ch.map Prod.snd) hfl hdec,
    if_pos ⟨hlt, hgd⟩, hval]

/-- `BTree.Get` returns `found = false` for any key absent from a
represented tree. -/
theorem BTRep_get_notfound (t : BT) (tes : List (Nat × RID)) (k : Nat)
    (h : BTRep t tes) (hmem : ∀ r : RID, (k, r) ∉ tes) :
    BTree.get t k = .ok (RID.mk 0 0, false) := by
  obtain ⟨L, ch, hfl, hrep, hsub⟩ := BTRep_findLeaf_any t tes k h
  obtain ⟨_, _, _, _, hsort, _, hdec⟩ := hrep
  have hnone : ∀ p ∈ ch, p.1 ≠ k := by
    intro p hp he
    apply hmem p.2
    have hp2 : (k, p.2) = p := by rw [← he]
    rw [hp2]
    exact hsub p hp
  rw [get_eq_branch t k L (ch.map Prod.fst) (ch.map Prod.snd) hfl hdec,
    if_neg (leaf_lookup_absent ch k hnone)]

/-- A second insert of a present key fails with `DuplicateKey` and leaves the
tree untouched. -/
theorem BTRep_insert_dup (t : BT) (tes : List (Nat × RID)) (k : Nat)
    (r1 r2 : RID) (h : BTRep t tes) (hmem : (k, r1) ∈ tes) :
    BTree.insert t k r2 = (.error .dupKey, t) := by
  obtain ⟨L, ch, hfl, hrep, hchm⟩ := BTRep_findLeaf_mem t tes k r1 h hmem
  obtain ⟨_, _, hkind, _, hsort, _, hdec⟩ := hrep
  obtain ⟨hlt, hgd, _⟩ := leaf_lookup_found ch k r1 hsort hchm
  rw [insert_eq_branch t k r2 L (ch.map Prod.fst) (ch.map Prod.snd) hfl hkind
    hdec, if_pos ⟨hlt, hgd⟩]

/-! ### Support lemmas for the insert preservation proof -/

theorem PagesOk_set (f : List Page) (j : Nat) (p : Page) (hpo : PagesOk f)
    (hj : j < f.length) (hid : p.id = j) (hds : p.dataSize ≤ PayloadSize) :
    PagesOk (f.set j p) := by
  intro i hi
  rw [List.length_set] at hi
  by_cases he : j = i
  · subst he
    rw [getD_set_self _ _ _ _ hj]
    exact ⟨hid, hds⟩
  · rw [getD_set_ne _ _ _ _ _ he]
    exact hpo i hi

theorem PagesOk_append (f : List Page) (p : Page) (hpo : PagesOk f)
    (hid : p.id = f.length) (hds : p.dataSize ≤ PayloadSize) :
    PagesOk (f ++ [p]) := by
  intro i hi
  rw [List.length_append, List.length_cons, List.length_nil] at hi
  by_cases he : i < f.length
  · rw [List.getD_append _ _ _ _ he]
    exact hpo i he
  · have hif : i = f.length := by omega
    subst hif
    rw [getD_append_last]
    exact ⟨hid, hds⟩

theorem pairwise_ne_getD (kids : List Nat)
    (hdist : List.Pairwise (· ≠ ·) kids) (a b : Nat)
    (ha : a < kids.length) (hb : b < kids.length) (hne : a ≠ b) :
    kids.getD a 0 ≠ kids.getD b 0 := by
  rw [List.getD_eq_getElem _ _ ha, List.getD_eq_getElem _ _ hb]
  rcases Nat.lt_or_ge a b with h | h
  · exact List.pairwise_iff_getElem.mp hdist a b ha hb h
  · have hba : b < a := by omega
    exact (List.pairwise_iff_getElem.mp hdist b a hb ha hba).symm

theorem getD_map_fst (ch : List (Nat × RID)) (i : Nat) (hi : i < ch.length) :
    (ch.map Prod.fst).getD i 0 = (ch.getD i (0, RID.mk 0 0)).1 := by
  rw [List.getD_eq_getElem _ _ (by simpa using hi), List.getElem_map,
    List.getD_eq_getElem _ _ hi]

theorem mem_flatten_insertAt {α : Type} (cs : List (List α)) (i : Nat)
    (c : List α) (x : α) :
    x ∈ (insertAt cs i c).flatten ↔ x ∈ c ∨ x ∈ cs.flatten := by
  constructor
  · intro hx
    obtain ⟨s, hs, hxs⟩ := List.mem_flatten.mp hx
    rcases (mem_insertAt cs i c s).mp hs with rfl | hs2
    · exact Or.inl hxs
    · exact Or.inr (List.mem_flatten.mpr ⟨s, hs2, hxs⟩)
  · rintro (hx | hx)
    · exact List.mem_flatten.mpr ⟨c, (mem_insertAt cs i c c).mpr (Or.inl rfl), hx⟩
    · obtain ⟨s, hs, hxs⟩ := List.mem_flatten.mp hx
      exact List.mem_flatten.mpr ⟨s, (mem_insertAt cs i c s).mpr (Or.inr hs), hxs⟩

/-- Replacing chunk `j` decomposes both flattenings around that chunk. -/
theorem flatten_set_decomp {α : Type} (cs : List (List α)) (j : Nat)
    (c : List α) (hj : j < cs.length) :
    (cs.set j c).flatten =
      (cs.take j).flatten ++ (c ++ (cs.drop (j + 1)).flatten) ∧
    cs.flatten =
      (cs.take j).flatten ++ (cs.getD j [] ++ (cs.drop (j + 1)).flatten) := by
  have hset : cs.set j c = cs.take j ++ c :: cs.drop (j + 1) :=
    List.set_eq_take_cons_drop c hj
  have hcs : cs = cs.take j ++ cs.getD j [] :: cs.drop (j + 1) := by
    conv_lhs => rw [← List.take_append_drop j cs]
    rw [List.drop_eq_getElem_cons hj, List.getD_eq_getElem _ _ hj]
  constructor
  · rw [hset, List.flatten_append, List.flatten_cons]
  · conv_lhs => rw [hcs]
    rw [List.flatten_append, List.flatten_cons]

/-- The position returned by the leaf search when the key is absent:
everything before it is smaller, everything from it on is larger. -/
theorem leafSearch_insert_pos (keys : List Nat) (k : Nat)
    (hs : List.Pairwise (· < ·) keys)
    (hcond : ¬ (sortSearch keys.length
          (fun i => decide (k ≤ keys.getD i 0)) < keys.length ∧
      keys.getD (sortSearch keys.length
        (fun i => decide (k ≤ keys.getD i 0))) 0 = k)) :
    sortSearch keys.length (fun i => decide (k ≤ keys.getD i 0)) ≤
      keys.length ∧
    (∀ i, i < sortSearch keys.length (fun i => decide (k ≤ keys.getD i 0)) →
      keys.getD i 0 < k) ∧
    (sortSearch keys.length (fun i => decide (k ≤ keys.getD i 0)) <
        keys.length →
      k < keys.getD (sortSearch keys.length
        (fun i => decide (k ≤ keys.getD i 0))) 0) := by
  have hmono : ∀ a b, a ≤ b → b < keys.length →
      (fun i => decide (k ≤ keys.getD i 0)) a = true →
      (fun i => decide (k ≤ keys.getD i 0)) b = true := by
    intro a b hab hb ha
    simp only [decide_eq_true_eq] at ha ⊢
    exact le_trans ha (pairwise_lt_getD_mono keys hs a b hab hb)
  obtain ⟨h1, h2, h3⟩ := sortSearch_spec keys.length _ hmono
  refine ⟨h1, ?_, ?_⟩
  · intro i hi
    have hf := h2 i hi
    simp only [decide_eq_false_iff_not, not_le] at hf
    exact hf
  · intro hlt
    have ht := h3 hlt
    simp only [decide_eq_true_eq] at ht
    have hne : keys.getD (sortSearch keys.length
        (fun i => decide (k ≤ keys.getD i 0))) 0 ≠ k := by
      intro he
      exact hcond ⟨hlt, he⟩
    omega

/-- Inserting a fresh entry at its search position keeps the ghost chunk
sorted, bounded and in byte-image correspondence. -/
theorem insert_entry_facts (ch : List (Nat × RID)) (k : Nat) (r : RID)
    (m : Nat)
    (hs : List.Pairwise (fun a b => a.1 < b.1) ch)
    (hb : ∀ e ∈ ch, e.1 < 2 ^ 64 ∧ e.2.pageID < 2 ^ 32 ∧ e.2.slotID < 2 ^ 16)
    (hk : k < 2 ^ 64) (hrp : r.pageID < 2 ^ 32) (hrs : r.slotID < 2 ^ 16)
    (hm : m ≤ ch.length)
    (hlo : ∀ i, i < m → (ch.map Prod.fst).getD i 0 < k)
    (hhi : m < ch.length → k < (ch.map Prod.fst).getD m 0) :
    (insertAt ch m (k, r)).map Prod.fst = insertAt (ch.map Prod.fst) m k ∧
    (insertAt ch m (k, r)).map Prod.snd = insertAt (ch.map Prod.snd) m r ∧
    (insertAt ch m (k, r)).length = ch.length + 1 ∧
    List.Pairwise (fun a b => a.1 < b.1) (insertAt ch m (k, r)) ∧
    (∀ e ∈ insertAt ch m (k, r),
      e.1 < 2 ^ 64 ∧ e.2.pageID < 2 ^ 32 ∧ e.2.slotID < 2 ^ 16) ∧
    (∀ p, p ∈ insertAt ch m (k, r) ↔ p = (k, r) ∨ p ∈ ch) := by
  have hsk : List.Pairwise (· < ·) (ch.map Prod.fst) := List.pairwise_map.mpr hs
  refine ⟨insertAt_map Prod.fst ch m (k, r), insertAt_map Prod.snd ch m (k, r),
    insertAt_length ch m (k, r), ?_, ?_, fun p => mem_insertAt ch m (k, r) p⟩
  · refine pairwise_insertAt _ ch m (k, r) hs ?_ ?_
    · intro x hx
      obtain ⟨i, him, hil, he⟩ := mem_take_bound ch m x (0, RID.mk 0 0) hx
      have hfst := hlo i him
      rw [getD_map_fst ch i hil, he] at hfst
      exact hfst
    · intro x hx
      obtain ⟨i, him, hil, he⟩ := mem_drop_bound ch m x (0, RID.mk 0 0) hx
      have hmlt : m < ch.length := by omega
      have h1 : k < (ch.map Prod.fst).getD m 0 := hhi hmlt
      have h2 : (ch.map Prod.fst).getD m 0 ≤ (ch.map Prod.fst).getD i 0 :=
        pairwise_lt_getD_mono _ hsk m i him (by simpa using hil)
      rw [getD_map_fst ch i hil, he] at h2
      omega
  · intro e he
    rcases (mem_insertAt ch m (k, r) e).mp he with rfl | he2
    · exact ⟨hk, hrp, hrs⟩
    · exact hb e he2

theorem getD_take_g {α : Type} (l : List α) (n i : Nat) (d : α) (h : i < n) :
    (l.take n).getD i d = l.getD i d := by
  simp only [List.getD_eq_getElem?_getD, List.getElem?_take]
  rw [if_pos h]

theorem getD_drop_g {α : Type} (l : List α) (n i : Nat) (d : α) :
    (l.drop n).getD i d = l.getD (n + i) d := by
  simp [List.getD_eq_getElem?_getD, List.getElem?_drop]

theorem getD_insertAt_lt {α : Type} (a : List α) (i : Nat) (v : α) (j : Nat)
    (d : α) (hj : j < i) (hi : i ≤ a.length) :
    (insertAt a i v).getD j d = a.getD j d := by
  unfold insertAt
  rw [List.getD_append _ _ _ _ (by simp only [List.length_take]; omega)]
  exact getD_take_g a i j d hj

theorem getD_insertAt_self {α : Type} (a : List α) (i : Nat) (v : α) (d : α)
    (hi : i ≤ a.length) : (insertAt a i v).getD i d = v := by
  unfold insertAt
  rw [List.getD_append_right _ _ _ _ (by simp only [List.length_take]; omega)]
  have hz : i - (a.take i).length = 0 := by simp only [List.length_take]; omega
  rw [hz, List.getD_cons_zero]

theorem getD_insertAt_gt {α : Type} (a : List α) (i : Nat) (v : α) (j : Nat)
    (d : α) (hj : i < j) (hi : i ≤ a.length) :
    (insertAt a i v).getD j d = a.getD (j - 1) d := by
  unfold insertAt
  rw [List.getD_append_right _ _ _ _ (by simp only [List.length_take]; omega)]
  have hs : j - (a.take i).length = (j - i - 1) + 1 := by
    simp only [List.length_take]
    omega
  rw [hs, List.getD_cons_succ, getD_drop_g]
  congr 1
  omega

/-- Inserting into a tree whose root is still the bootstrap leaf preserves
the representation and adds exactly the new entry. -/
theorem map_fst_getD_lt (es : List (Nat × RID))
    (hs : List.Pairwise (fun a b => a.1 < b.1) es) (i j : Nat) (hij : i < j)
    (hj : j < es.length) :
    (es.map Prod.fst).getD i 0 < (es.map Prod.fst).getD j 0 := by
  have hsk : List.Pairwise (· < ·) (es.map Prod.fst) := List.pairwise_map.mpr hs
  have hi : i < es.length := by omega
  rw [List.getD_eq_getElem _ _ (by simpa using hi),
    List.getD_eq_getElem _ _ (by simpa using hj)]
  exact List.pairwise_iff_getElem.mp hsk i j (by simpa using hi)
    (by simpa using hj) hij

theorem BTRep_insert_leafroot (t : BT) (tes : List (Nat × RID)) (k : Nat)
    (r : RID) (t2 : BT)
    (hpo : PagesOk t.pages) (hlen2 : 2 ≤ t.pages.length)
    (hrlt : t.rootID < t.pages.length) (hrne : t.rootID ≠ 0)
    (hl2 : t.pages.length = 2)
    (hleaf : LeafRep (t.pages.getD t.rootID (freshHeapPage 0)) tes)
    (hk : k < 2 ^ 64) (hrp : r.pageID < 2 ^ 32) (hrs : r.slotID < 2 ^ 16)
    (hins : BTree.insert t k r = (.ok (), t2)) :
    ∃ tes2, BTRep t2 tes2 ∧ ∀ p, p ∈ tes2 ↔ p = (k, r) ∨ p ∈ tes := by
  obtain ⟨hdl, hdsz, hkind, hcap, hsort, hbnd, hdec⟩ := hleaf
  have hLid : (t.pages.getD t.rootID (freshHeapPage 0)).id = t.rootID :=
    (hpo _ hrlt).1
  have hfl : findLeafFrom t.pages k t.rootID (t.pages.length + 1) =
      .ok (t.pages.getD t.rootID (freshHeapPage 0)) :=
    findLeaf_leaf t.pages k t.rootID t.pages.length _
      (readPageM_getD t.pages t.rootID hrlt) hkind
  have hbr := insert_eq_branch t k r (t.pages.getD t.rootID (freshHeapPage 0))
    (tes.map Prod.fst) (tes.map Prod.snd) hfl hkind hdec
  set m := sortSearch (tes.map Prod.fst).length
    (fun i => decide (k ≤ (tes.map Prod.fst).getD i 0)) with hmdef
  by_cases hdup : m < (tes.map Prod.fst).length ∧
      (tes.map Prod.fst).getD m 0 = k
  · rw [if_pos hdup] at hbr
    rw [hbr] at hins
    have hbad := congrArg Prod.fst hins
    simp at hbad
  · rw [if_neg hdup] at hbr
    obtain ⟨hm, hlo, hhi⟩ := leafSearch_insert_pos (tes.map Prod.fst) k
      (List.pairwise_map.mpr hsort) hdup
    rw [← hmdef] at hm hlo hhi
    have hmlen : m ≤ tes.length := by
      simp only [List.length_map] at hm
      exact hm
    obtain ⟨hmapf, hmaps, hlen', hsort2, hbnd2, hmem2⟩ :=
      insert_entry_facts tes k r m hsort hbnd hk hrp hrs hmlen hlo
        (fun hml => hhi (by simp only [List.length_map]; exact hml))
    have hkb2 : ∀ kk ∈ insertAt (tes.map Prod.fst) m k, kk < 2 ^ 64 := by
      intro kk hkk
      rw [← hmapf] at hkk
      obtain ⟨e, he, heq2⟩ := List.mem_map.mp hkk
      rw [← heq2]
      exact (hbnd2 e he).1
    have hvb2 : ∀ v ∈ insertAt (tes.map Prod.snd) m r,
        v.pageID < 2 ^ 32 ∧ v.slotID < 2 ^ 16 := by
      intro v hv
      rw [← hmaps] at hv
      obtain ⟨e, he, heq2⟩ := List.mem_map.mp hv
      rw [← heq2]
      exact ⟨(hbnd2 e he).2.1, (hbnd2 e he).2.2⟩
    have hlen12 : (insertAt (tes.map Prod.fst) m k).length =
        (insertAt (tes.map Prod.snd) m r).length := by
      simp only [insertAt_length, List.length_map]
    have hLlt : (t.pages.getD t.rootID (freshHeapPage 0)).id <
        t.pages.length := by
      rw [hLid]; exact hrlt
    by_cases hfit : (insertAt (tes.map Prod.fst) m k).length ≤ leafCapacity
    · -- no split: the leaf is rewritten in place
      obtain ⟨L2, heq, hidL, hdsL, hlL, hkL, hdecL⟩ := insertLeafFit_ok t
        (t.pages.getD t.rootID (freshHeapPage 0))
        (insertAt (tes.map Prod.fst) m k) (insertAt (tes.map Prod.snd) m r)
        hdl hLlt hlen12
        (by rw [← leafCapacity_eq]; exact hfit) hkb2 hvb2
      rw [if_pos hfit, heq] at hbr
      rw [hbr] at hins
      have ht2 : t2 = BT.mk (t.pages.set
          (t.pages.getD t.rootID (freshHeapPage 0)).id L2) t.rootID :=
        (congrArg Prod.snd hins).symm
      subst ht2
      refine ⟨insertAt tes m (k, r), ⟨?_, ?_, ?_, ?_, Or.inl ⟨?_, ?_⟩⟩, hmem2⟩
      · exact PagesOk_set t.pages _ L2 hpo hLlt hidL (le_of_eq hdsL)
      · simp only [List.length_set]
        exact hlen2
      · simp only [List.length_set]
        exact hrlt
      · exact hrne
      · simp only [List.length_set]
        exact hl2
      · show LeafRep ((t.pages.set (t.pages.getD t.rootID (freshHeapPage 0)).id
          L2).getD t.rootID (freshHeapPage 0)) (insertAt tes m (k, r))
        rw [hLid, getD_set_self _ _ _ _ hrlt]
        refine ⟨hlL, hdsL, hkL, ?_, hsort2, hbnd2, ?_⟩
        · rw [hlen']
          rw [insertAt_length, List.length_map] at hfit
          exact hfit
        · rw [hmapf, hmaps]
          exact hdecL
    · -- leaf split and root growth
      have h254 : tes.length ≤ 254 := by
        rw [leafCapacity_eq] at hcap
        exact hcap
      have h255 : (insertAt (tes.map Prod.fst) m k).length = 255 := by
        rw [insertAt_length, List.length_map]
        rw [insertAt_length, List.length_map, leafCapacity_eq] at hfit
        omega
      obtain ⟨L2, R2, heq, hidL, hdsL, hlL, hkL, hdecL, hidR, hdsR, hlR, hkR,
        hdecR⟩ := insertLeafSplit_ok t
        (t.pages.getD t.rootID (freshHeapPage 0))
        (insertAt (tes.map Prod.fst) m k) (insertAt (tes.map Prod.snd) m r)
        hdl hLlt hlen12 (by omega) hkb2 hvb2
      rw [hLid] at hidL hidR
      have hmid127 : (insertAt (tes.map Prod.fst) m k).length / 2 = 127 := by
        rw [h255]
      rw [if_neg hfit, heq, hLid] at hbr
      rw [iip_eq_root _ _ _ _ _ _ rfl] at hbr
      rw [hmid127] at hbr hdecL hdecR
      have hes255 : (insertAt tes m (k, r)).length = 255 := by
        rw [hlen']
        rw [insertAt_length, List.length_map] at h255
        omega
      have hsetlen : (t.pages.set t.rootID L2).length = 2 := by
        simp only [List.length_set]
        exact hl2
      have hf3len : (t.pages.set t.rootID L2 ++ [R2]).length = 3 := by
        simp only [List.length_append, List.length_set, List.length_cons,
          List.length_nil]
        omega
      have hf3g0 : ((t.pages.set t.rootID L2) ++ [R2]).getD 0 (freshHeapPage 0)
          = t.pages.getD 0 (freshHeapPage 0) := by
        rw [List.getD_append _ _ _ _ (by simp only [List.length_set]; omega),
          getD_set_ne _ _ _ _ _ hrne]
      have hsepidx : ((insertAt (tes.map Prod.fst) m k).drop 127).getD 0 0 =
          (insertAt (tes.map Prod.fst) m k).getD 127 0 := by
        rw [getD_drop]
      have hsep64 : ((insertAt (tes.map Prod.fst) m k).drop 127).getD 0 0 <
          2 ^ 64 := by
        apply hkb2
        rw [hsepidx, List.getD_eq_getElem _ _ (by rw [h255]; omega)]
        exact List.getElem_mem _
      obtain ⟨NR, heq2, hidN, hdsN, hlN, hkN, hdecN⟩ := iipRoot_ok
        (t.pages.set t.rootID L2 ++ [R2]) t.rootID
        (((insertAt (tes.map Prod.fst) m k).drop 127).getD 0 0)
        ((t.pages.set t.rootID L2).length)
        (by omega) (by rw [hf3len]; norm_num) hsep64
        (lt_trans (by omega) (by norm_num : (2 : Nat) < 2 ^ 32))
        (by rw [hsetlen]; norm_num)
        (by rw [hf3g0]; exact (hpo 0 (by omega)).2)
        (by rw [hf3g0]; exact (hpo 0 (by omega)).1)
      rw [heq2] at hbr
      rw [hbr] at hins
      have ht2 : t2 = BT.mk (((t.pages.set t.rootID L2 ++ [R2]) ++ [NR]).set 0 { (t.pages.set t.rootID L2 ++ [R2]).getD 0 (freshHeapPage 0) with data := setMetaRoot ((t.pages.set t.rootID L2 ++ [R2]).getD 0 (freshHeapPage 0)).data (t.pages.set t.rootID L2 ++ [R2]).length }) (t.pages.set t.rootID L2 ++ [R2]).length :=
        (congrArg Prod.snd hins).symm
      subst ht2
      set M2 : Page := { (t.pages.set t.rootID L2 ++ [R2]).getD 0 (freshHeapPage 0) with data := setMetaRoot ((t.pages.set t.rootID L2 ++ [R2]).getD 0 (freshHeapPage 0)).data (t.pages.set t.rootID L2 ++ [R2]).length } with hM2
      set F4 : List Page := ((t.pages.set t.rootID L2 ++ [R2]) ++ [NR]).set 0 M2
        with hF4
      have hmid0 : M2.id = 0 := by
        show ((t.pages.set t.rootID L2 ++ [R2]).getD 0 (freshHeapPage 0)).id = 0
        rw [hf3g0]
        exact (hpo 0 (by omega)).1
      have hmds2 : M2.dataSize ≤ PayloadSize := by
        show ((t.pages.set t.rootID L2 ++ [R2]).getD 0
          (freshHeapPage 0)).dataSize ≤ PayloadSize
        rw [hf3g0]
        exact (hpo 0 (by omega)).2
      have hgroot : F4.getD ((t.pages.set t.rootID L2 ++ [R2]).length)
          (freshHeapPage 0) = NR := by
        rw [hF4, getD_set_ne _ _ _ _ _ (by omega)]
        exact getD_append_last _ _ _
      have hgL2 : F4.getD t.rootID (freshHeapPage 0) = L2 := by
        rw [hF4, getD_set_ne _ _ _ _ _ (Ne.symm hrne),
          List.getD_append _ _ _ _ (by omega),
          List.getD_append _ _ _ _ (by omega)]
        exact getD_set_self _ _ _ _ (by omega)
      have hgR2 : F4.getD ((t.pages.set t.rootID L2).length)
          (freshHeapPage 0) = R2 := by
        rw [hF4, getD_set_ne _ _ _ _ _ (by omega),
          List.getD_append _ _ _ _ (by omega)]
        exact getD_append_last _ _ _
      have hF4len : F4.length = 4 := by
        rw [hF4]
        simp only [List.length_set, List.length_append, List.length_cons,
          List.length_nil]
        omega
      refine ⟨insertAt tes m (k, r), ⟨?_, ?_, ?_, ?_, Or.inr
        ⟨[((insertAt (tes.map Prod.fst) m k).drop 127).getD 0 0],
         [t.rootID, (t.pages.set t.rootID L2).length],
         [(insertAt tes m (k, r)).take 127, (insertAt tes m (k, r)).drop 127],
         ?_, ?_, ?_, ?_, ?_, ?_, ?_, ?_, ?_, ?_, ?_, ?_, ?_, ?_⟩⟩, hmem2⟩
      · show PagesOk F4
        rw [hF4]
        refine PagesOk_set _ 0 _ ?_
          (by simp only [List.length_append, List.length_cons, List.length_nil]
              omega) hmid0 hmds2
        refine PagesOk_append _ _ ?_ hidN (le_of_eq hdsN)
        refine PagesOk_append _ _ ?_ hidR (le_of_eq hdsR)
        exact PagesOk_set _ _ _ hpo hrlt hidL (le_of_eq hdsL)
      · show 2 ≤ F4.length
        omega
      · show (t.pages.set t.rootID L2 ++ [R2]).length < F4.length
        omega
      · show (t.pages.set t.rootID L2 ++ [R2]).length ≠ 0
        omega
      · show nodeKind (F4.getD ((t.pages.set t.rootID L2 ++ [R2]).length)
          (freshHeapPage 0)).data = kindInternal
        rw [hgroot]
        exact hkN
      · show (F4.getD ((t.pages.set t.rootID L2 ++ [R2]).length)
          (freshHeapPage 0)).data.length = 4086
        rw [hgroot]
        exact hlN
      · show internalEntries (F4.getD ((t.pages.set t.rootID L2 ++ [R2]).length)
          (freshHeapPage 0)) = _
        rw [hgroot]
        exact hdecN
      · simp
      · intro x hx
        rw [List.mem_singleton] at hx
        subst hx
        exact hsep64
      · simp
      · rw [internalCapacity_eq]
        simp
      · simp
      · refine List.pairwise_cons.mpr ⟨?_, by simp⟩
        intro b hb
        rw [List.mem_singleton] at hb
        subst hb
        omega
      · intro c hc
        rcases List.mem_cons.mp hc with rfl | hc2
        · refine ⟨?_, hrne, ?_⟩
          · show t.rootID < F4.length
            omega
          · show t.rootID ≠ (t.pages.set t.rootID L2 ++ [R2]).length
            omega
        · rw [List.mem_singleton] at hc2
          subst hc2
          refine ⟨?_, ?_, ?_⟩
          · show (t.pages.set t.rootID L2).length < F4.length
            omega
          · omega
          · show (t.pages.set t.rootID L2).length ≠
              (t.pages.set t.rootID L2 ++ [R2]).length
            omega
      · simp
      · show insertAt tes m (k, r) = _
        rw [List.flatten_cons, List.flatten_cons, List.flatten_nil,
          List.append_nil, List.take_append_drop]
      · show F4.length = _
        simp only [List.length_cons, List.length_nil]
        omega
      · intro j2 hj2
        simp only [List.length_cons, List.length_nil] at hj2
        rcases j2 with _ | _ | n
        · constructor
          · show LeafRep (F4.getD ([t.rootID,
              (t.pages.set t.rootID L2).length].getD 0 0) (freshHeapPage 0))
              ([(insertAt tes m (k, r)).take 127,
                (insertAt tes m (k, r)).drop 127].getD 0 [])
            rw [List.getD_cons_zero, List.getD_cons_zero, hgL2]
            refine ⟨hlL, hdsL, hkL, ?_, ?_, ?_, ?_⟩
            · rw [leafCapacity_eq]
              simp only [List.length_take]
              omega
            · exact List.Pairwise.sublist (List.take_sublist _ _) hsort2
            · exact fun e he => hbnd2 e (List.mem_of_mem_take he)
            · rw [List.map_take, List.map_take, hmapf, hmaps]
              exact hdecL
          · intro e he
            rw [List.getD_cons_zero] at he
            obtain ⟨i, hi127, hilen, hie⟩ :=
              mem_take_bound _ _ e (0, RID.mk 0 0) he
            constructor
            · intro _
              rw [List.getD_cons_zero]
              have h1 : ((insertAt tes m (k, r)).map Prod.fst).getD i 0 = e.1 := by
                rw [getD_map_fst _ _ hilen, hie]
              have h2 := map_fst_getD_lt (insertAt tes m (k, r)) hsort2 i 127
                hi127 (by omega)
              rw [hsepidx, ← hmapf]
              omega
            · intro h10
              omega
        · constructor
          · show LeafRep (F4.getD ([t.rootID,
              (t.pages.set t.rootID L2).length].getD 1 0) (freshHeapPage 0))
              ([(insertAt tes m (k, r)).take 127,
                (insertAt tes m (k, r)).drop 127].getD 1 [])
            rw [List.getD_cons_succ, List.getD_cons_zero,
              List.getD_cons_succ, List.getD_cons_zero, hgR2]
            refine ⟨hlR, hdsR, hkR, ?_, ?_, ?_, ?_⟩
            · rw [leafCapacity_eq]
              simp only [List.length_drop]
              omega
            · exact List.Pairwise.sublist (List.drop_sublist _ _) hsort2
            · exact fun e he => hbnd2 e (List.mem_of_mem_drop he)
            · rw [List.map_drop, List.map_drop, hmapf, hmaps]
              exact hdecR
          · intro e he
            rw [List.getD_cons_succ, List.getD_cons_zero] at he
            obtain ⟨i, hi127, hilen, hie⟩ :=
              mem_drop_bound _ _ e (0, RID.mk 0 0) he
            constructor
            · intro hcontr
              simp only [List.length_cons, List.length_nil] at hcontr
              omega
            · intro _
              show ([((insertAt (tes.map Prod.fst) m k).drop 127).getD 0
                0].getD (1 - 1) 0) ≤ e.1
              rw [(by omega : (1 : Nat) - 1 = 0), List.getD_cons_zero]
              have h1 : ((insertAt tes m (k, r)).map Prod.fst).getD i 0 = e.1 := by
                rw [getD_map_fst _ _ hilen, hie]
              have h2 : ((insertAt tes m (k, r)).map Prod.fst).getD 127 0 ≤
                  ((insertAt tes m (k, r)).map Prod.fst).getD i 0 :=
                pairwise_lt_getD_mono _ (List.pairwise_map.mpr hsort2) 127 i
                  hi127 (by simp only [List.length_map]; omega)
              rw [hsepidx, ← hmapf]
              omega
        · omega

/-- A defaulted read at an in-range index is a member of the list. -/
theorem getD_mem_of_lt {α : Type} (l : List α) (i : Nat) (d : α)
    (h : i < l.length) : l.getD i d ∈ l := by
  rw [List.getD_eq_getElem _ _ h]
  exact List.getElem_mem h

/-- Inserting under an internal root preserves the representation and adds
exactly the new entry. -/
theorem BTRep_insert_internal (t : BT) (k : Nat) (r : RID) (t2 : BT)
    (rkeys kids : List Nat) (chunks : List (List (Nat × RID)))
    (hpo : PagesOk t.pages) (hlen2 : 2 ≤ t.pages.length)
    (hrlt : t.rootID < t.pages.length) (hrne : t.rootID ≠ 0)
    (hrk : nodeKind (t.pages.getD t.rootID (freshHeapPage 0)).data =
      kindInternal)
    (hrdl : (t.pages.getD t.rootID (freshHeapPage 0)).data.length = 4086)
    (hrdec : internalEntries (t.pages.getD t.rootID (freshHeapPage 0)) =
      .ok (rkeys, kids))
    (hrsort : List.Pairwise (· < ·) rkeys)
    (hrkb : ∀ kk ∈ rkeys, kk < 2 ^ 64)
    (h1k : 1 ≤ rkeys.length) (hcapk : rkeys.length ≤ internalCapacity)
    (hklen : kids.length = rkeys.length + 1)
    (hdist : List.Pairwise (· ≠ ·) kids)
    (hkids : ∀ c ∈ kids, c < t.pages.length ∧ c ≠ 0 ∧ c ≠ t.rootID)
    (hclen : chunks.length = kids.length)
    (hacc : t.pages.length = kids.length + 2)
    (hch : ∀ j, j < kids.length →
      LeafRep (t.pages.getD (kids.getD j 0) (freshHeapPage 0))
        (chunks.getD j []) ∧
      ChunkOk rkeys j (chunks.getD j []))
    (hk : k < 2 ^ 64) (hrp : r.pageID < 2 ^ 32) (hrs : r.slotID < 2 ^ 16)
    (hins : BTree.insert t k r = (.ok (), t2)) :
    ∃ tes2, BTRep t2 tes2 ∧
      ∀ p, p ∈ tes2 ↔ p = (k, r) ∨ p ∈ chunks.flatten := by
  have hmono : ∀ a b, a ≤ b → b < rkeys.length →
      (fun i => decide (k < rkeys.getD i 0)) a = true →
      (fun i => decide (k < rkeys.getD i 0)) b = true := by
    intro a b hab hb ha
    simp only [decide_eq_true_eq] at ha ⊢
    exact lt_of_lt_of_le ha (pairwise_lt_getD_mono rkeys hrsort a b hab hb)
  obtain ⟨hjle, hjlow, hjhigh⟩ := sortSearch_spec rkeys.length
    (fun i => decide (k < rkeys.getD i 0)) hmono
  set j := sortSearch rkeys.length (fun i => decide (k < rkeys.getD i 0))
    with hjdef
  have hjk : j < kids.length := by omega
  obtain ⟨hLrep, hcok⟩ := hch j hjk
  obtain ⟨hdl, hdsz, hkind, hcap, hsort, hbnd, hdec⟩ := hLrep
  have hkdmem : kids.getD j 0 ∈ kids := by
    rw [List.getD_eq_getElem _ _ hjk]
    exact List.getElem_mem hjk
  obtain ⟨hkdlt, hkdne0, hkdner⟩ := hkids _ hkdmem
  have hLid : (t.pages.getD (kids.getD j 0) (freshHeapPage 0)).id =
      kids.getD j 0 := (hpo _ hkdlt).1
  have hfl : findLeafFrom t.pages k t.rootID (t.pages.length + 1) =
      .ok (t.pages.getD (kids.getD j 0) (freshHeapPage 0)) := by
    rw [findLeaf_internal t.pages k t.rootID t.pages.length _ rkeys kids
      (readPageM_getD _ _ hrlt) hrk hrdec, ← hjdef]
    have hflen : t.pages.length = (t.pages.length - 1) + 1 := by omega
    rw [hflen]
    exact findLeaf_leaf t.pages k _ (t.pages.length - 1) _
      (readPageM_getD _ _ hkdlt) hkind
  have hbr := insert_eq_branch t k r
    (t.pages.getD (kids.getD j 0) (freshHeapPage 0))
    ((chunks.getD j []).map Prod.fst) ((chunks.getD j []).map Prod.snd)
    hfl hkind hdec
  set m := sortSearch ((chunks.getD j []).map Prod.fst).length
    (fun i => decide (k ≤ ((chunks.getD j []).map Prod.fst).getD i 0))
    with hmdef
  by_cases hdup : m < ((chunks.getD j []).map Prod.fst).length ∧
      ((chunks.getD j []).map Prod.fst).getD m 0 = k
  · rw [if_pos hdup] at hbr
    rw [hbr] at hins
    have hbad := congrArg Prod.fst hins
    simp at hbad
  · rw [if_neg hdup] at hbr
    obtain ⟨hm, hlo, hhi⟩ := leafSearch_insert_pos
      ((chunks.getD j []).map Prod.fst) k (List.pairwise_map.mpr hsort) hdup
    rw [← hmdef] at hm hlo hhi
    have hmlen : m ≤ (chunks.getD j []).length := by
      simp only [List.length_map] at hm
      exact hm
    obtain ⟨hmapf, hmaps, hlen2', hsort2, hbnd2, hmem2⟩ :=
      insert_entry_facts (chunks.getD j []) k r m hsort hbnd hk hrp hrs hmlen
        hlo (fun hml => hhi (by simp only [List.length_map]; exact hml))
    have hkb2 : ∀ kk ∈ insertAt ((chunks.getD j []).map Prod.fst) m k,
        kk < 2 ^ 64 := by
      intro kk hkk
      rw [← hmapf] at hkk
      obtain ⟨e, he, heq2⟩ := List.mem_map.mp hkk
      rw [← heq2]
      exact (hbnd2 e he).1
    have hvb2 : ∀ v ∈ insertAt ((chunks.getD j []).map Prod.snd) m r,
        v.pageID < 2 ^ 32 ∧ v.slotID < 2 ^ 16 := by
      intro v hv
      rw [← hmaps] at hv
      obtain ⟨e, he, heq2⟩ := List.mem_map.mp hv
      rw [← heq2]
      exact ⟨(hbnd2 e he).2.1, (hbnd2 e he).2.2⟩
    have hlen12 : (insertAt ((chunks.getD j []).map Prod.fst) m k).length =
        (insertAt ((chunks.getD j []).map Prod.snd) m r).length := by
      simp only [insertAt_length, List.length_map]
    have hLlt : (t.pages.getD (kids.getD j 0) (freshHeapPage 0)).id <
        t.pages.length := by
      rw [hLid]
      exact hkdlt
    have hcok2 : ChunkOk rkeys j (insertAt (chunks.getD j []) m (k, r)) := by
      intro e he
      rcases (mem_insertAt _ _ _ e).mp he with rfl | he2
      · constructor
        · intro hjr
          have ht := hjhigh hjr
          simp only [decide_eq_true_eq] at ht
          exact ht
        · intro h1j
          have hf := hjlow (j - 1) (by omega)
          simp only [decide_eq_false_iff_not, not_lt] at hf
          exact hf
      · exact hcok e he2
    by_cases hfit : (insertAt ((chunks.getD j []).map Prod.fst) m k).length ≤
        leafCapacity
    · -- no split: the leaf is rewritten in place under the same root
      obtain ⟨L2, heq, hidL, hdsL, hlL, hkL, hdecL⟩ := insertLeafFit_ok t
        (t.pages.getD (kids.getD j 0) (freshHeapPage 0))
        (insertAt ((chunks.getD j []).map Prod.fst) m k)
        (insertAt ((chunks.getD j []).map Prod.snd) m r)
        hdl hLlt hlen12 (by rw [← leafCapacity_eq]; exact hfit) hkb2 hvb2
      rw [hLid] at hidL
      rw [if_pos hfit, heq, hLid] at hbr
      rw [hbr] at hins
      have ht2 : t2 = BT.mk (t.pages.set (kids.getD j 0) L2) t.rootID :=
        (congrArg Prod.snd hins).symm
      subst ht2
      have hrootg : (t.pages.set (kids.getD j 0) L2).getD t.rootID
          (freshHeapPage 0) = t.pages.getD t.rootID (freshHeapPage 0) :=
        getD_set_ne _ _ _ _ _ hkdner
      refine ⟨(chunks.set j (insertAt (chunks.getD j []) m (k, r))).flatten,
        ⟨?_, ?_, ?_, ?_, Or.inr ⟨rkeys, kids,
          chunks.set j (insertAt (chunks.getD j []) m (k, r)),
          ?_, ?_, ?_, ?_, ?_, ?_, ?_, ?_, ?_, ?_, ?_, ?_, ?_, ?_⟩⟩, ?_⟩
      · exact PagesOk_set _ _ _ hpo hkdlt hidL (le_of_eq hdsL)
      · show 2 ≤ (t.pages.set (kids.getD j 0) L2).length
        simp only [List.length_set]
        exact hlen2
      · show t.rootID < (t.pages.set (kids.getD j 0) L2).length
        simp only [List.length_set]
        exact hrlt
      · exact hrne
      · show nodeKind ((t.pages.set (kids.getD j 0) L2).getD t.rootID
          (freshHeapPage 0)).data = kindInternal
        rw [hrootg]
        exact hrk
      · show ((t.pages.set (kids.getD j 0) L2).getD t.rootID
          (freshHeapPage 0)).data.length = 4086
        rw [hrootg]
        exact hrdl
      · show internalEntries ((t.pages.set (kids.getD j 0) L2).getD t.rootID
          (freshHeapPage 0)) = _
        rw [hrootg]
        exact hrdec
      · exact hrsort
      · exact hrkb
      · exact h1k
      · exact hcapk
      · exact hklen
      · exact hdist
      · intro c hc
        refine ⟨?_, (hkids c hc).2.1, (hkids c hc).2.2⟩
        show c < (t.pages.set (kids.getD j 0) L2).length
        simp only [List.length_set]
        exact (hkids c hc).1
      · show (chunks.set j (insertAt (chunks.getD j []) m (k, r))).length = _
        simp only [List.length_set]
        exact hclen
      · rfl
      · show (t.pages.set (kids.getD j 0) L2).length = kids.length + 2
        simp only [List.length_set]
        exact hacc
      · intro j2 hj2
        by_cases hjj : j2 = j
        · subst hjj
          constructor
          · show LeafRep ((t.pages.set (kids.getD j 0) L2).getD
              (kids.getD j 0) (freshHeapPage 0))
              ((chunks.set j (insertAt (chunks.getD j []) m (k, r))).getD
                j [])
            rw [getD_set_self _ _ _ _ hkdlt, getD_set_self _ _ _ _ (by omega)]
            refine ⟨hlL, hdsL, hkL, ?_, hsort2, hbnd2, ?_⟩
            · rw [hlen2']
              rw [insertAt_length, List.length_map] at hfit
              exact hfit
            · rw [hmapf, hmaps]
              exact hdecL
          · intro e he
            rw [getD_set_self _ _ _ _ (by omega)] at he
            exact hcok2 e he
        · have hne2 : j ≠ j2 := fun he => hjj he.symm
          constructor
          · show LeafRep ((t.pages.set (kids.getD j 0) L2).getD
              (kids.getD j2 0) (freshHeapPage 0))
              ((chunks.set j (insertAt (chunks.getD j []) m (k, r))).getD
                j2 [])
            rw [getD_set_ne _ _ _ _ _
              (pairwise_ne_getD kids hdist j j2 hjk hj2 hne2),
              getD_set_ne _ _ _ _ _ hne2]
            exact (hch j2 hj2).1
          · intro e he
            rw [getD_set_ne _ _ _ _ _ hne2] at he
            exact (hch j2 hj2).2 e he
      · obtain ⟨hd1, hd2⟩ := flatten_set_decomp chunks j
          (insertAt (chunks.getD j []) m (k, r)) (by omega)
        intro p
        rw [hd1, hd2]
        simp only [List.mem_append]
        constructor
        · rintro (hA | hE | hB)
          · exact Or.inr (Or.inl hA)
          · rcases (hmem2 p).mp hE with rfl | hP
            · exact Or.inl rfl
            · exact Or.inr (Or.inr (Or.inl hP))
          · exact Or.inr (Or.inr (Or.inr hB))
        · rintro (rfl | hA | hC | hB)
          · exact Or.inr (Or.inl ((hmem2 _).mpr (Or.inl rfl)))
          · exact Or.inl hA
          · exact Or.inr (Or.inl ((hmem2 _).mpr (Or.inr hC)))
          · exact Or.inr (Or.inr hB)
    · -- leaf split: left half in place, right half on a fresh page,
      -- separator pushed into the root
      have h254 : (chunks.getD j []).length ≤ 254 := by
        rw [leafCapacity_eq] at hcap
        exact hcap
      have h255 : (insertAt ((chunks.getD j []).map Prod.fst) m k).length =
          255 := by
        rw [insertAt_length, List.length_map]
        rw [insertAt_length, List.length_map, leafCapacity_eq] at hfit
        omega
      have hmid127 : (insertAt ((chunks.getD j []).map Prod.fst) m k).length /
          2 = 127 := by rw [h255]
      obtain ⟨L2, R2, heq, hidL, hdsL, hlL, hkL, hdecL, hidR, hdsR, hlR, hkR,
        hdecR⟩ := insertLeafSplit_ok t
        (t.pages.getD (kids.getD j 0) (freshHeapPage 0))
        (insertAt ((chunks.getD j []).map Prod.fst) m k)
        (insertAt ((chunks.getD j []).map Prod.snd) m r)
        hdl hLlt hlen12 (by omega) hkb2 hvb2
      rw [hLid] at hidL hidR
      rw [if_neg hfit, heq, hLid] at hbr
      rw [hmid127] at hbr hdecL hdecR
      have hes255 : (insertAt (chunks.getD j []) m (k, r)).length = 255 := by
        rw [hlen2']
        rw [insertAt_length, List.length_map] at h255
        omega
      have hsetlen : (t.pages.set (kids.getD j 0) L2).length =
          t.pages.length := by
        simp only [List.length_set]
      have hf3len : (t.pages.set (kids.getD j 0) L2 ++ [R2]).length =
          t.pages.length + 1 := by
        simp only [List.length_append, List.length_set, List.length_cons,
          List.length_nil]
      have hplen341 : t.pages.length ≤ 341 := by
        rw [internalCapacity_eq] at hcapk
        omega
      have hsepidx : ((insertAt ((chunks.getD j []).map Prod.fst) m k).drop
          127).getD 0 0 =
          (insertAt ((chunks.getD j []).map Prod.fst) m k).getD 127 0 := by
        rw [getD_drop]
      have hsep64 : ((insertAt ((chunks.getD j []).map Prod.fst) m k).drop
          127).getD 0 0 < 2 ^ 64 := by
        apply hkb2
        rw [hsepidx]
        exact getD_mem_of_lt _ _ _ (by rw [h255]; omega)
      have hsep_e : ((insertAt ((chunks.getD j []).map Prod.fst) m k).drop
          127).getD 0 0 =
          ((insertAt (chunks.getD j []) m (k, r)).map Prod.fst).getD 127 0 := by
        rw [hsepidx, ← hmapf]
      have hroot3 : (t.pages.set (kids.getD j 0) L2 ++ [R2]).getD t.rootID
          (freshHeapPage 0) = t.pages.getD t.rootID (freshHeapPage 0) := by
        rw [List.getD_append _ _ _ _ (by simp only [List.length_set]; omega),
          getD_set_ne _ _ _ _ _ hkdner]
      have hrm : readPageM (t.pages.set (kids.getD j 0) L2 ++ [R2]) t.rootID =
          .ok (t.pages.getD t.rootID (freshHeapPage 0)) := by
        have hr2 := readPageM_getD (t.pages.set (kids.getD j 0) L2 ++ [R2])
          t.rootID (by omega)
        rw [hroot3] at hr2
        exact hr2
      have hkidx : kidIndex kids (kids.getD j 0) = some j :=
        kidIndex_spec kids (kids.getD j 0) j hjk rfl hdist
      have hfp : findParentAndIndex (t.pages.set (kids.getD j 0) L2 ++ [R2])
          t.rootID (kids.getD j 0)
          (((insertAt ((chunks.getD j []).map Prod.fst) m k).drop 127).getD 0 0)
          ((t.pages.set (kids.getD j 0) L2 ++ [R2]).length + 1) =
          .ok (t.pages.getD t.rootID (freshHeapPage 0), j) :=
        findParent_root _ _ _ _ _ _ rkeys kids j hrm hrk hrdec hkidx
      have hiip := iip_eq_parent (t.pages.set (kids.getD j 0) L2 ++ [R2])
        t.rootID (kids.getD j 0)
        (((insertAt ((chunks.getD j []).map Prod.fst) m k).drop 127).getD 0 0)
        ((t.pages.set (kids.getD j 0) L2).length)
        ((t.pages.set (kids.getD j 0) L2 ++ [R2]).length)
        (t.pages.getD t.rootID (freshHeapPage 0)) j rkeys kids
        hkdner hfp hrdec
      by_cases hpfit : (insertAt rkeys j (((insertAt ((chunks.getD
          j []).map Prod.fst) m k).drop 127).getD 0 0)).length ≤
          internalCapacity
      · -- the root absorbs the separator and the new child
        rw [hiip, if_pos hpfit] at hbr
        have h338 := hpfit
        rw [internalCapacity_eq] at h338
        have hkb3 : ∀ kk ∈ insertAt rkeys j (((insertAt ((chunks.getD
            j []).map Prod.fst) m k).drop 127).getD 0 0), kk < 2 ^ 64 := by
          intro kk hkk
          rcases (mem_insertAt _ _ _ _).mp hkk with rfl | hk2
          · exact hsep64
          · exact hrkb kk hk2
        have hcb3 : ∀ c ∈ insertAt kids (j + 1)
            ((t.pages.set (kids.getD j 0) L2).length), c < 2 ^ 32 := by
          intro c hc
          rcases (mem_insertAt _ _ _ _).mp hc with rfl | hc2
          · rw [hsetlen]
            exact lt_of_le_of_lt hplen341 (by norm_num)
          · exact lt_trans (lt_of_lt_of_le (hkids c hc2).1 hplen341)
              (by norm_num)
        have hpid3 : (t.pages.getD t.rootID (freshHeapPage 0)).id <
            (t.pages.set (kids.getD j 0) L2 ++ [R2]).length := by
          rw [(hpo _ hrlt).1]
          omega
        obtain ⟨P2, heq3, hidP, hdsP, hlP, hkP, hdecP⟩ := iipParentFit_ok
          (t.pages.set (kids.getD j 0) L2 ++ [R2]) t.rootID
          (t.pages.getD t.rootID (freshHeapPage 0))
          (insertAt rkeys j (((insertAt ((chunks.getD j []).map Prod.fst) m
            k).drop 127).getD 0 0))
          (insertAt kids (j + 1) ((t.pages.set (kids.getD j 0) L2).length))
          hrdl hpid3 (by simp only [insertAt_length]; omega) h338 hkb3 hcb3
        rw [(hpo _ hrlt).1] at hidP
        rw [heq3, (hpo _ hrlt).1] at hbr
        rw [hbr] at hins
        have ht2 : t2 = BT.mk ((t.pages.set (kids.getD j 0) L2 ++ [R2]).set
            t.rootID P2) t.rootID := (congrArg Prod.snd hins).symm
        subst ht2
        have hgP2 : ((t.pages.set (kids.getD j 0) L2 ++ [R2]).set t.rootID
            P2).getD t.rootID (freshHeapPage 0) = P2 :=
          getD_set_self _ _ _ _ (by omega)
        have hgL2 : ((t.pages.set (kids.getD j 0) L2 ++ [R2]).set t.rootID
            P2).getD (kids.getD j 0) (freshHeapPage 0) = L2 := by
          rw [getD_set_ne _ _ _ _ _ (Ne.symm hkdner),
            List.getD_append _ _ _ _ (by simp only [List.length_set]; omega)]
          exact getD_set_self _ _ _ _ hkdlt
        have hgR2 : ((t.pages.set (kids.getD j 0) L2 ++ [R2]).set t.rootID
            P2).getD ((t.pages.set (kids.getD j 0) L2).length)
            (freshHeapPage 0) = R2 := by
          rw [getD_set_ne _ _ _ _ _ (by omega)]
          exact getD_append_last _ _ _
        have hgOld : ∀ c, c < t.pages.length → c ≠ kids.getD j 0 →
            c ≠ t.rootID →
            ((t.pages.set (kids.getD j 0) L2 ++ [R2]).set t.rootID P2).getD c
              (freshHeapPage 0) = t.pages.getD c (freshHeapPage 0) := by
          intro c hcl hcj hcr
          rw [getD_set_ne _ _ _ _ _ (fun he => hcr he.symm),
            List.getD_append _ _ _ _ (by simp only [List.length_set]; omega),
            getD_set_ne _ _ _ _ _ (fun he => hcj he.symm)]
        have hF4len : ((t.pages.set (kids.getD j 0) L2 ++ [R2]).set t.rootID
            P2).length = t.pages.length + 1 := by
          simp only [List.length_set, List.length_append, List.length_cons,
            List.length_nil]
        refine ⟨(insertAt (chunks.set j ((insertAt (chunks.getD j []) m
            (k, r)).take 127)) (j + 1) ((insertAt (chunks.getD j []) m
            (k, r)).drop 127)).flatten,
          ⟨?_, ?_, ?_, ?_, Or.inr
            ⟨insertAt rkeys j (((insertAt ((chunks.getD j []).map Prod.fst) m
              k).drop 127).getD 0 0),
             insertAt kids (j + 1) ((t.pages.set (kids.getD j 0) L2).length),
             insertAt (chunks.set j ((insertAt (chunks.getD j []) m
               (k, r)).take 127)) (j + 1) ((insertAt (chunks.getD j []) m
               (k, r)).drop 127),
             ?_, ?_, ?_, ?_, ?_, ?_, ?_, ?_, ?_, ?_, ?_, ?_, ?_, ?_⟩⟩, ?_⟩
        · refine PagesOk_set _ _ _ ?_ (by omega) hidP (le_of_eq hdsP)
          refine PagesOk_append _ _ ?_ hidR (le_of_eq hdsR)
          exact PagesOk_set _ _ _ hpo hkdlt hidL (le_of_eq hdsL)
        · show 2 ≤ ((t.pages.set (kids.getD j 0) L2 ++ [R2]).set t.rootID
            P2).length
          omega
        · show t.rootID < ((t.pages.set (kids.getD j 0) L2 ++ [R2]).set
            t.rootID P2).length
          omega
        · exact hrne
        · show nodeKind (((t.pages.set (kids.getD j 0) L2 ++ [R2]).set
            t.rootID P2).getD t.rootID (freshHeapPage 0)).data = kindInternal
          rw [hgP2]
          exact hkP
        · show (((t.pages.set (kids.getD j 0) L2 ++ [R2]).set t.rootID
            P2).getD t.rootID (freshHeapPage 0)).data.length = 4086
          rw [hgP2]
          exact hlP
        · show internalEntries (((t.pages.set (kids.getD j 0) L2 ++
            [R2]).set t.rootID P2).getD t.rootID (freshHeapPage 0)) = _
          rw [hgP2]
          exact hdecP
        · -- the widened root keys stay sorted
          have hjr1 : 1 ≤ j → rkeys.getD (j - 1) 0 ≤
              ((insertAt (chunks.getD j []) m (k, r)).map Prod.fst).getD 0 0 := by
            intro h1j
            have he0 : (insertAt (chunks.getD j []) m (k, r)).getD 0
                (0, RID.mk 0 0) ∈ insertAt (chunks.getD j []) m (k, r) :=
              getD_mem_of_lt _ _ _ (by omega)
            have hb0 := (hcok2 _ he0).2 h1j
            rw [getD_map_fst _ _ (by omega)]
            exact hb0
          refine pairwise_insertAt _ rkeys j _ hrsort ?_ ?_
          · intro x hx
            obtain ⟨i, hij, hilen, hie⟩ := mem_take_bound rkeys j x 0 hx
            have hmono1 : rkeys.getD i 0 ≤ rkeys.getD (j - 1) 0 :=
              pairwise_lt_getD_mono rkeys hrsort i (j - 1) (by omega)
                (by omega)
            have hb0 := hjr1 (by omega)
            have hstrict : ((insertAt (chunks.getD j []) m
                (k, r)).map Prod.fst).getD 0 0 <
                ((insertAt (chunks.getD j []) m (k, r)).map Prod.fst).getD
                  127 0 :=
              map_fst_getD_lt _ hsort2 0 127 (by omega) (by omega)
            rw [← hie, hsep_e]
            omega
          · intro x hx
            obtain ⟨i, hij, hilen, hie⟩ := mem_drop_bound rkeys j x 0 hx
            have hup := (hcok2 ((insertAt (chunks.getD j []) m (k, r)).getD
                127 (0, RID.mk 0 0))
              (getD_mem_of_lt _ _ _ (by omega))).1 (by omega)
            have hmono1 : rkeys.getD j 0 ≤ rkeys.getD i 0 :=
              pairwise_lt_getD_mono rkeys hrsort j i hij hilen
            have hconv : ((insertAt (chunks.getD j []) m
                (k, r)).map Prod.fst).getD 127 0 =
                ((insertAt (chunks.getD j []) m (k, r)).getD 127
                  (0, RID.mk 0 0)).1 := getD_map_fst _ _ (by omega)
            rw [← hie, hsep_e]
            omega
        · intro kk hkk
          rcases (mem_insertAt _ _ _ _).mp hkk with rfl | hk2
          · exact hsep64
          · exact hrkb kk hk2
        · simp only [insertAt_length]
          omega
        · exact hpfit
        · simp only [insertAt_length]
          omega
        · refine pairwise_insertAt _ kids (j + 1) _ hdist ?_ ?_
          · intro x hx
            have hxl := (hkids x (List.mem_of_mem_take hx)).1
            omega
          · intro x hx
            have hxl := (hkids x (List.mem_of_mem_drop hx)).1
            omega
        · intro c hc
          rcases (mem_insertAt _ _ _ _).mp hc with rfl | hc2
          · refine ⟨?_, ?_, ?_⟩
            · show (t.pages.set (kids.getD j 0) L2).length <
                ((t.pages.set (kids.getD j 0) L2 ++ [R2]).set t.rootID
                  P2).length
              omega
            · omega
            · show (t.pages.set (kids.getD j 0) L2).length ≠ t.rootID
              omega
          · refine ⟨?_, (hkids c hc2).2.1, (hkids c hc2).2.2⟩
            show c < ((t.pages.set (kids.getD j 0) L2 ++ [R2]).set t.rootID
              P2).length
            have := (hkids c hc2).1
            omega
        · simp only [insertAt_length, List.length_set]
          omega
        · rfl
        · show ((t.pages.set (kids.getD j 0) L2 ++ [R2]).set t.rootID
            P2).length = _
          simp only [insertAt_length]
          omega
        · intro j2 hj2
          simp only [insertAt_length] at hj2
          by_cases hc1 : j2 < j
          · have hkg : (insertAt kids (j + 1) ((t.pages.set (kids.getD j 0)
                L2).length)).getD j2 0 = kids.getD j2 0 :=
              getD_insertAt_lt _ _ _ _ _ (by omega) (by omega)
            have hcg : (insertAt (chunks.set j ((insertAt (chunks.getD j [])
                m (k, r)).take 127)) (j + 1) ((insertAt (chunks.getD j []) m
                (k, r)).drop 127)).getD j2 [] = chunks.getD j2 [] := by
              rw [getD_insertAt_lt _ _ _ _ _ (by omega)
                (by simp only [List.length_set]; omega),
                getD_set_ne _ _ _ _ _ (by omega)]
            have hkj2' : j2 < kids.length := by omega
            have hkmem2 : kids.getD j2 0 ∈ kids := by
              rw [List.getD_eq_getElem _ _ hkj2']
              exact List.getElem_mem _
            constructor
            · rw [hkg, hcg, hgOld _ (hkids _ hkmem2).1
                (pairwise_ne_getD kids hdist j2 j hkj2' hjk (by omega))
                (hkids _ hkmem2).2.2]
              exact (hch j2 hkj2').1
            · rw [hcg]
              intro e he
              have hold := (hch j2 hkj2').2 e he
              constructor
              · intro hjr2
                rw [getD_insertAt_lt _ _ _ _ _ hc1 (by omega)]
                exact hold.1 (by omega)
              · intro h1j2
                rw [getD_insertAt_lt _ _ _ _ _ (by omega) (by omega)]
                exact hold.2 h1j2
          · by_cases hc2 : j2 = j
            · subst hc2
              have hkg : (insertAt kids (j + 1) ((t.pages.set (kids.getD j
                  0) L2).length)).getD j 0 = kids.getD j 0 :=
                getD_insertAt_lt _ _ _ _ _ (by omega) (by omega)
              have hcg : (insertAt (chunks.set j ((insertAt (chunks.getD j
                  []) m (k, r)).take 127)) (j + 1) ((insertAt (chunks.getD
                  j []) m (k, r)).drop 127)).getD j [] =
                  (insertAt (chunks.getD j []) m (k, r)).take 127 := by
                rw [getD_insertAt_lt _ _ _ _ _ (by omega)
                  (by simp only [List.length_set]; omega)]
                exact getD_set_self _ _ _ _ (by omega)
              constructor
              · rw [hkg, hcg, hgL2]
                refine ⟨hlL, hdsL, hkL, ?_, ?_, ?_, ?_⟩
                · rw [leafCapacity_eq]
                  simp only [List.length_take]
                  omega
                · exact List.Pairwise.sublist (List.take_sublist _ _) hsort2
                · exact fun e he => hbnd2 e (List.mem_of_mem_take he)
                · rw [List.map_take, List.map_take, hmapf, hmaps]
                  exact hdecL
              · rw [hcg]
                intro e he
                obtain ⟨i, hi127, hilen, hie⟩ :=
                  mem_take_bound _ _ e (0, RID.mk 0 0) he
                constructor
                · intro _
                  rw [getD_insertAt_self _ _ _ _ (by omega)]
                  have h1 : ((insertAt (chunks.getD j []) m
                      (k, r)).map Prod.fst).getD i 0 = e.1 := by
                    rw [getD_map_fst _ _ hilen, hie]
                  have h2 := map_fst_getD_lt _ hsort2 i 127 hi127 (by omega)
                  rw [hsep_e]
                  omega
                · intro h1j
                  rw [getD_insertAt_lt _ _ _ _ _ (by omega) (by omega)]
                  exact (hcok2 e (List.mem_of_mem_take he)).2 h1j
            · by_cases hc3 : j2 = j + 1
              · subst hc3
                have hkg : (insertAt kids (j + 1) ((t.pages.set (kids.getD j
                    0) L2).length)).getD (j + 1) 0 =
                    (t.pages.set (kids.getD j 0) L2).length :=
                  getD_insertAt_self _ _ _ _ (by omega)
                have hcg : (insertAt (chunks.set j ((insertAt (chunks.getD j
                    []) m (k, r)).take 127)) (j + 1) ((insertAt (chunks.getD
                    j []) m (k, r)).drop 127)).getD (j + 1) [] =
                    (insertAt (chunks.getD j []) m (k, r)).drop 127 :=
                  getD_insertAt_self _ _ _ _
                    (by simp only [List.length_set]; omega)
                constructor
                · rw [hkg, hcg, hgR2]
                  refine ⟨hlR, hdsR, hkR, ?_, ?_, ?_, ?_⟩
                  · rw [leafCapacity_eq]
                    simp only [List.length_drop]
                    omega
                  · exact List.Pairwise.sublist (List.drop_sublist _ _) hsort2
                  · exact fun e he => hbnd2 e (List.mem_of_mem_drop he)
                  · rw [List.map_drop, List.map_drop, hmapf, hmaps]
                    exact hdecR
                · rw [hcg]
                  intro e he
                  obtain ⟨i, hi127, hilen, hie⟩ :=
                    mem_drop_bound _ _ e (0, RID.mk 0 0) he
                  constructor
                  · intro hjr2
                    simp only [insertAt_length] at hjr2
                    rw [getD_insertAt_gt _ _ _ _ _ (by omega) (by omega),
                      Nat.add_sub_cancel]
                    exact (hcok2 e (List.mem_of_mem_drop he)).1 (by omega)
                  · intro _
                    rw [Nat.add_sub_cancel,
                      getD_insertAt_self _ _ _ _ (by omega)]
                    have h1 : ((insertAt (chunks.getD j []) m
                        (k, r)).map Prod.fst).getD i 0 = e.1 := by
                      rw [getD_map_fst _ _ hilen, hie]
                    have h2 : ((insertAt (chunks.getD j []) m
                        (k, r)).map Prod.fst).getD 127 0 ≤
                        ((insertAt (chunks.getD j []) m
                          (k, r)).map Prod.fst).getD i 0 :=
                      pairwise_lt_getD_mono _ (List.pairwise_map.mpr hsort2)
                        127 i hi127 (by simp only [List.length_map]; omega)
                    rw [hsep_e]
                    omega
              · have hge : j + 2 ≤ j2 := by omega
                have hkg : (insertAt kids (j + 1) ((t.pages.set (kids.getD j
                    0) L2).length)).getD j2 0 = kids.getD (j2 - 1) 0 :=
                  getD_insertAt_gt _ _ _ _ _ (by omega) (by omega)
                have hcg : (insertAt (chunks.set j ((insertAt (chunks.getD j
                    []) m (k, r)).take 127)) (j + 1) ((insertAt (chunks.getD
                    j []) m (k, r)).drop 127)).getD j2 [] =
                    chunks.getD (j2 - 1) [] := by
                  rw [getD_insertAt_gt _ _ _ _ _ (by omega)
                    (by simp only [List.length_set]; omega),
                    getD_set_ne _ _ _ _ _ (by omega)]
                have hkj2' : j2 - 1 < kids.length := by omega
                have hkmem2 : kids.getD (j2 - 1) 0 ∈ kids := by
                  rw [List.getD_eq_getElem _ _ hkj2']
                  exact List.getElem_mem _
                constructor
                · rw [hkg, hcg, hgOld _ (hkids _ hkmem2).1
                    (pairwise_ne_getD kids hdist (j2 - 1) j hkj2' hjk
                      (by omega))
                    (hkids _ hkmem2).2.2]
                  exact (hch (j2 - 1) hkj2').1
                · rw [hcg]
                  intro e he
                  have hold := (hch (j2 - 1) hkj2').2 e he
                  constructor
                  · intro hjr2
                    simp only [insertAt_length] at hjr2
                    rw [getD_insertAt_gt _ _ _ _ _ (by omega) (by omega)]
                    exact hold.1 (by omega)
                  · intro h1j2
                    rw [getD_insertAt_gt _ _ _ _ _ (by omega) (by omega)]
                    exact hold.2 (by omega)
        · intro p
          rw [mem_flatten_insertAt]
          obtain ⟨hd1, hd2⟩ := flatten_set_decomp chunks j
            ((insertAt (chunks.getD j []) m (k, r)).take 127) (by omega)
          rw [hd1, hd2]
          simp only [List.mem_append]
          have hsp : ∀ q : Nat × RID, q ∈ insertAt (chunks.getD j []) m
              (k, r) ↔
              q ∈ (insertAt (chunks.getD j []) m (k, r)).take 127 ∨
              q ∈ (insertAt (chunks.getD j []) m (k, r)).drop 127 := by
            intro q
            conv_lhs => rw [← List.take_append_drop 127
              (insertAt (chunks.getD j []) m (k, r))]
            exact List.mem_append
          constructor
          · rintro (hR | hA | hL | hB)
            · rcases (hmem2 p).mp ((hsp p).mpr (Or.inr hR)) with rfl | hP
              · exact Or.inl rfl
              · exact Or.inr (Or.inr (Or.inl hP))
            · exact Or.inr (Or.inl hA)
            · rcases (hmem2 p).mp ((hsp p).mpr (Or.inl hL)) with rfl | hP
              · exact Or.inl rfl
              · exact Or.inr (Or.inr (Or.inl hP))
            · exact Or.inr (Or.inr (Or.inr hB))
          · rintro (rfl | hA | hC | hB)
            · rcases (hsp _).mp ((hmem2 _).mpr (Or.inl rfl)) with hL | hR
              · exact Or.inr (Or.inr (Or.inl hL))
              · exact Or.inl hR
            · exact Or.inr (Or.inl hA)
            · rcases (hsp p).mp ((hmem2 p).mpr (Or.inr hC)) with hL | hR
              · exact Or.inr (Or.inr (Or.inl hL))
              · exact Or.inl hR
            · exact Or.inr (Or.inr (Or.inr hB))
      · -- overflowing root: the C2 split panic makes the insert fail
        exfalso
        obtain ⟨e, herr⟩ := iip_over_fails
          (t.pages.set (kids.getD j 0) L2 ++ [R2]) t.rootID (kids.getD j 0)
          (((insertAt ((chunks.getD j []).map Prod.fst) m k).drop 127).getD
            0 0)
          ((t.pages.set (kids.getD j 0) L2).length)
          ((t.pages.set (kids.getD j 0) L2 ++ [R2]).length)
          (t.pages.getD t.rootID (freshHeapPage 0)) j rkeys kids
          hkdner hfp hrdec hpfit hklen
        have hok : (insertIntoParent (t.pages.set (kids.getD j 0) L2 ++ [R2])
            t.rootID (kids.getD j 0)
            (((insertAt ((chunks.getD j []).map Prod.fst) m k).drop 127).getD
              0 0)
            ((t.pages.set (kids.getD j 0) L2).length)
            ((t.pages.set (kids.getD j 0) L2 ++ [R2]).length + 1)).1 =
            .ok () := by
          have hfst : (BTree.insert t k r).1 = (insertIntoParent
              (t.pages.set (kids.getD j 0) L2 ++ [R2]) t.rootID
              (kids.getD j 0)
              (((insertAt ((chunks.getD j []).map Prod.fst) m k).drop
                127).getD 0 0)
              ((t.pages.set (kids.getD j 0) L2).length)
              ((t.pages.set (kids.getD j 0) L2 ++ [R2]).length + 1)).1 :=
            congrArg Prod.fst hbr
          rw [← hfst, hins]
        rw [herr] at hok
        simp at hok

/-- Any represented tree absorbs a successful insert: the new state is again
represented, with exactly the new entry added. -/
theorem BTRep_insert_ok (t : BT) (tes : List (Nat × RID)) (k : Nat) (r : RID)
    (t2 : BT) (h : BTRep t tes)
    (hk : k < 2 ^ 64) (hrp : r.pageID < 2 ^ 32) (hrs : r.slotID < 2 ^ 16)
    (hins : BTree.insert t k r = (.ok (), t2)) :
    ∃ tes2, BTRep t2 tes2 ∧ ∀ p, p ∈ tes2 ↔ p = (k, r) ∨ p ∈ tes := by
  obtain ⟨hpo, hlen2, hrlt, hrne, hcase⟩ := h
  rcases hcase with ⟨hl2, hleaf⟩ | ⟨rkeys, kids, chunks, hrk, hrdl, hrdec,
    hrsort, hrkb, h1k, hcapk, hklen, hdist, hkids, hclen, htes, hacc, hch⟩
  · exact BTRep_insert_leafroot t tes k r t2 hpo hlen2 hrlt hrne hl2 hleaf
      hk hrp hrs hins
  · subst htes
    exact BTRep_insert_internal t k r t2 rkeys kids chunks hpo hlen2 hrlt
      hrne hrk hrdl hrdec hrsort hrkb h1k hcapk hklen hdist hkids hclen hacc
      hch hk hrp hrs hins

/-- The bootstrap leaf of a freshly opened tree decodes to no entries. -/
theorem fresh_leaf_decode :
    leafLeafEntries (btOpenFresh.pages.getD 1 (freshHeapPage 0)) =
      .ok ([], []) := by
  show leafEntriesFrom
    (setNodeHeaderB (List.replicate PayloadSize 0) kindLeaf 0 0xFFFFFFFF 0)
    nodeHdrSize
    (getU16 (setNodeHeaderB (List.replicate PayloadSize 0) kindLeaf 0
      0xFFFFFFFF 0) 2) = .ok ([], [])
  rw [getU16_setNodeHeaderB_count _ _ _ _ _
    (by rw [List.length_replicate]; exact payloadSize_eq)]
  rfl

/-- Page 1 of a freshly opened tree is a leaf node. -/
theorem fresh_leaf_kind :
    nodeKind (btOpenFresh.pages.getD 1 (freshHeapPage 0)).data = kindLeaf :=
  nodeKind_setNodeHeaderB _ _ _ _ _
    (by rw [List.length_replicate, payloadSize_eq]; omega)

/-- A freshly opened tree represents the empty entry set. -/
theorem BTRep_fresh : BTRep btOpenFresh [] := by
  refine ⟨?_, ?_, ?_, ?_, Or.inl ⟨rfl, ?_, rfl, ?_, ?_, ?_, ?_, ?_⟩⟩
  · intro i hi
    have h2 : i < 2 := hi
    rcases i with _ | _ | n
    · exact ⟨rfl, Nat.le_refl _⟩
    · exact ⟨rfl, Nat.le_refl _⟩
    · omega
  · show (2 : Nat) ≤ 2
    omega
  · show (1 : Nat) < 2
    omega
  · show (1 : Nat) ≠ 0
    omega
  · show (setNodeHeaderB (List.replicate PayloadSize 0) kindLeaf 0 0xFFFFFFFF
      0).length = 4086
    rw [setNodeHeaderB_length, List.length_replicate]
    exact payloadSize_eq
  · exact fresh_leaf_kind
  · exact Nat.zero_le _
  · exact List.Pairwise.nil
  · exact fun e he => nomatch he
  · exact fresh_leaf_decode

/-- The states reachable from a fresh `Open` by successful inserts of
in-range entries, together with the list of inserted entries. -/
inductive BReach : BT → List (Nat × RID) → Prop where
  | init : BReach btOpenFresh []
  | step (t : BT) (es : List (Nat × RID)) (k : Nat) (r : RID) (t2 : BT) :
      BReach t es → k < 2 ^ 64 → r.pageID < 2 ^ 32 → r.slotID < 2 ^ 16 →
      BTree.insert t k r = (.ok (), t2) →
      BReach t2 ((k, r) :: es)

/-- Every reachable state is represented, and its entry set is exactly the
set of inserted entries. -/
theorem btReach_invariant (t : BT) (es : List (Nat × RID))
    (h : BReach t es) :
    ∃ tes, BTRep t tes ∧ ∀ p, p ∈ tes ↔ p ∈ es := by
  induction h with
  | init => exact ⟨[], BTRep_fresh, fun p => Iff.rfl⟩
  | step t es k r t2 h1 hk hrp hrs hins ih =>
    obtain ⟨tes, hrep, hmem⟩ := ih
    obtain ⟨tes2, hrep2, hmem2⟩ :=
      BTRep_insert_ok t tes k r t2 hrep hk hrp hrs hins
    refine ⟨tes2, hrep2, fun p => ?_⟩
    rw [hmem2 p, List.mem_cons, hmem p]

/-- Splicing into the empty list yields the singleton at any position. -/
theorem insertAt_nil {α : Type} (i : Nat) (v : α) :
    insertAt ([] : List α) i v = [v] := by
  unfold insertAt
  rw [List.take_nil, List.drop_nil, List.nil_append]

/-- The tree state after inserting `(42, (1, 1))` into a fresh tree. -/
def btOne : BT := (BTree.insert btOpenFresh 42 (RID.mk 1 1)).2

/-- That first insert succeeds. -/
theorem insert_fresh_eq : BTree.insert btOpenFresh 42 (RID.mk 1 1) =
    (.ok (), btOne) := by
  have hfst : (BTree.insert btOpenFresh 42 (RID.mk 1 1)).1 = .ok () := by
    have hfl : findLeafFrom btOpenFresh.pages 42 btOpenFresh.rootID
        (btOpenFresh.pages.length + 1) =
        .ok (btOpenFresh.pages.getD 1 (freshHeapPage 0)) :=
      findLeaf_leaf btOpenFresh.pages 42 btOpenFresh.rootID
        btOpenFresh.pages.length _
        (readPageM_getD btOpenFresh.pages btOpenFresh.rootID
          (by show (1 : Nat) < 2; omega))
        fresh_leaf_kind
    have hbr := insert_eq_branch btOpenFresh 42 (RID.mk 1 1)
      (btOpenFresh.pages.getD 1 (freshHeapPage 0)) [] [] hfl fresh_leaf_kind
      fresh_leaf_decode
    rw [if_neg (fun hc => Nat.not_lt_zero _ hc.1), insertAt_nil, insertAt_nil,
      if_pos (by rw [leafCapacity_eq]; show (1 : Nat) ≤ 254; omega)] at hbr
    obtain ⟨L2, heq, _⟩ := insertLeafFit_ok btOpenFresh
      (btOpenFresh.pages.getD 1 (freshHeapPage 0)) [42] [RID.mk 1 1]
      (by show (setNodeHeaderB (List.replicate PayloadSize 0) kindLeaf 0
            0xFFFFFFFF 0).length = 4086
          rw [setNodeHeaderB_length, List.length_replicate]
          exact payloadSize_eq)
      (by show (1 : Nat) < 2; omega)
      rfl
      (by show (1 : Nat) ≤ 254; omega)
      (by intro kk hkk
          rw [List.mem_singleton] at hkk
          subst hkk
          norm_num)
      (by intro v hv
          rw [List.mem_singleton] at hv
          subst hv
          refine ⟨?_, ?_⟩
          · show (1 : Nat) < 2 ^ 32
            norm_num
          · show (1 : Nat) < 2 ^ 16
            norm_num)
    rw [hbr, heq]
  have heta : BTree.insert btOpenFresh 42 (RID.mk 1 1) =
      ((BTree.insert btOpenFresh 42 (RID.mk 1 1)).1,
       (BTree.insert btOpenFresh 42 (RID.mk 1 1)).2) := Prod.mk.eta.symm
  rw [heta, hfst]
  rfl

/-- C2 (code bug): on an overflowing internal node the code's
`splitInternalArrays` gives the right half `keys[mid:]` — keeping the middle
key the specification says is promoted-and-dropped — together with
`children[mid+1:]`, i.e. as many children as keys instead of one more.
`writeInternal` on that right half then reads `kids[len(keys)]` out of range:
in Go this is an index-out-of-range panic (modelled as the `oob` outcome), so
no internal split ever produces the two well-formed nodes the claim
describes.  Concretely for keys `[1,2,3]`, children `[10,11,12,13]`, `m = 1`:
the right half is `([2,3], [12,13])` (middle key 2 kept, 2 keys with only 2
children) and writing it panics. -/
theorem internal_split_bug :
    splitInternalArrays [1, 2, 3] [10, 11, 12, 13] =
      (([1], [10, 11]), ([2, 3], [12, 13])) ∧
    writeInternal (Page.mk 7 0 4086 (List.replicate 4086 0))
      (splitInternalArrays [1, 2, 3] [10, 11, 12, 13]).2.1
      (splitInternalArrays [1, 2, 3] [10, 11, 12, 13]).2.2 = .error .oob := by
  constructor
  · rfl
  · rfl

/-- C1: B-tree point law.  Over every state reachable from a fresh `Open` by
successful inserts (`BReach t es` collects the inserted entries, in
particular covering sequences long enough to split the bootstrap leaf):
`Get` returns the matching rid with `found = true` for every inserted key,
and `(0, 0)` with `found = false` for every key never inserted. -/
theorem btree_point_law (t : BT) (es : List (Nat × RID)) (h : BReach t es) :
    (∀ k r, (k, r) ∈ es → BTree.get t k = .ok (r, true)) ∧
    (∀ k, (∀ r : RID, (k, r) ∉ es) →
      BTree.get t k = .ok (RID.mk 0 0, false)) := by
  obtain ⟨tes, hrep, hmem⟩ := btReach_invariant t es h
  constructor
  · intro k r hkr
    exact BTRep_get_found t tes k r hrep ((hmem _).mpr hkr)
  · intro k hk
    refine BTRep_get_notfound t tes k hrep ?_
    intro r hr
    exact hk r ((hmem _).mp hr)

/-- C1 witness: after inserting `(42, (1, 1))` into a fresh tree, `Get 42`
finds `(1, 1)` and `Get 7` reports not-found. -/
theorem btree_point_law_witness :
    BTree.get btOne 42 = .ok (RID.mk 1 1, true) ∧
    BTree.get btOne 7 = .ok (RID.mk 0 0, false) := by
  have h := btree_point_law btOne [(42, RID.mk 1 1)]
    (BReach.step btOpenFresh [] 42 (RID.mk 1 1) btOne BReach.init
      (by norm_num)
      (by show (1 : Nat) < 2 ^ 32; norm_num)
      (by show (1 : Nat) < 2 ^ 16; norm_num)
      insert_fresh_eq)
  refine ⟨h.1 42 (RID.mk 1 1) (List.mem_singleton.mpr rfl), h.2 7 ?_⟩
  intro r hr
  simp at hr

/-- C3: ordering invariant.  In every state reachable from a fresh `Open` by
successful inserts: if the root is a leaf its keys decode strictly
ascending; if the root is internal its keys decode strictly ascending with
one more child than keys, and every key stored in child `j`'s leaf is
below separator `j` (when one exists) and at or above separator `j - 1`
(when `j ≥ 1`). -/
theorem btree_ordering (t : BT) (es : List (Nat × RID)) (h : BReach t es) :
    (nodeKind (t.pages.getD t.rootID (freshHeapPage 0)).data = kindLeaf →
      ∃ keys vals,
        leafLeafEntries (t.pages.getD t.rootID (freshHeapPage 0)) =
          .ok (keys, vals) ∧
        List.Pairwise (· < ·) keys) ∧
    (nodeKind (t.pages.getD t.rootID (freshHeapPage 0)).data = kindInternal →
      ∃ rkeys kids,
        internalEntries (t.pages.getD t.rootID (freshHeapPage 0)) =
          .ok (rkeys, kids) ∧
        List.Pairwise (· < ·) rkeys ∧
        kids.length = rkeys.length + 1 ∧
        ∀ j, j < kids.length →
          ∃ keys vals,
            leafLeafEntries (t.pages.getD (kids.getD j 0) (freshHeapPage 0)) =
              .ok (keys, vals) ∧
            List.Pairwise (· < ·) keys ∧
            ∀ k2 ∈ keys, (j < rkeys.length → k2 < rkeys.getD j 0) ∧
              (1 ≤ j → rkeys.getD (j - 1) 0 ≤ k2)) := by
  obtain ⟨tes, hrep, _⟩ := btReach_invariant t es h
  obtain ⟨hpo, hlen2, hrlt, hrne, hcase⟩ := hrep
  rcases hcase with ⟨hl2, hleaf⟩ | ⟨rkeys, kids, chunks, hrk, hrdl, hrdec,
    hrsort, hrkb, h1k, hcapk, hklen, hdist, hkids, hclen, htes, hacc, hch⟩
  · obtain ⟨_, _, hkind, _, hsort, _, hdec⟩ := hleaf
    constructor
    · intro _
      exact ⟨tes.map Prod.fst, tes.map Prod.snd, hdec,
        List.pairwise_map.mpr hsort⟩
    · intro hk2
      rw [hkind] at hk2
      exact absurd hk2 (by decide)
  · constructor
    · intro hk2
      rw [hrk] at hk2
      exact absurd hk2 (by decide)
    · intro _
      refine ⟨rkeys, kids, hrdec, hrsort, hklen, ?_⟩
      intro j hj
      obtain ⟨hLrep, hcok⟩ := hch j hj
      obtain ⟨_, _, _, _, hsort, _, hdec⟩ := hLrep
      refine ⟨(chunks.getD j []).map Prod.fst, (chunks.getD j []).map Prod.snd,
        hdec, List.pairwise_map.mpr hsort, ?_⟩
      intro k2 hk2
      obtain ⟨e, he, heq⟩ := List.mem_map.mp hk2
      subst heq
      exact hcok e he

/-- C3 witness: the invariant instantiated at the freshly opened tree. -/
theorem btree_ordering_witness :
    (nodeKind (btOpenFresh.pages.getD btOpenFresh.rootID
        (freshHeapPage 0)).data = kindLeaf →
      ∃ keys vals,
        leafLeafEntries (btOpenFresh.pages.getD btOpenFresh.rootID
            (freshHeapPage 0)) =
          .ok (keys, vals) ∧
        List.Pairwise (· < ·) keys) ∧
    (nodeKind (btOpenFresh.pages.getD btOpenFresh.rootID
        (freshHeapPage 0)).data = kindInternal →
      ∃ rkeys kids,
        internalEntries (btOpenFresh.pages.getD btOpenFresh.rootID
            (freshHeapPage 0)) =
          .ok (rkeys, kids) ∧
        List.Pairwise (· < ·) rkeys ∧
        kids.length = rkeys.length + 1 ∧
        ∀ j, j < kids.length →
          ∃ keys vals,
            leafLeafEntries (btOpenFresh.pages.getD (kids.getD j 0)
                (freshHeapPage 0)) =
              .ok (keys, vals) ∧
            List.Pairwise (· < ·) keys ∧
            ∀ k2 ∈ keys, (j < rkeys.length → k2 < rkeys.getD j 0) ∧
              (1 ≤ j → rkeys.getD (j - 1) 0 ≤ k2)) :=
  btree_ordering btOpenFresh [] BReach.init

/-- C7: duplicate rejection with atomicity.  In any reachable state holding
an entry `(k, r1)`, inserting `k` again (with any rid) fails with
`DuplicateKey`, the returned tree state is exactly the prior state (all
pages and the root id), and `Get k` still returns `(r1, true)`. -/
theorem btree_duplicate_rejected (t : BT) (es : List (Nat × RID)) (k : Nat)
    (r1 r2 : RID) (h : BReach t es) (hmem : (k, r1) ∈ es) :
    BTree.insert t k r2 = (.error .dupKey, t) ∧
    BTree.get t k = .ok (r1, true) := by
  obtain ⟨tes, hrep, hmem2⟩ := btReach_invariant t es h
  exact ⟨BTRep_insert_dup t tes k r1 r2 hrep ((hmem2 _).mpr hmem),
    BTRep_get_found t tes k r1 hrep ((hmem2 _).mpr hmem)⟩

/-- C7 witness: after inserting `(42, (1, 1))`, a second insert of key 42
with a different rid fails with `DuplicateKey`, leaves the state unchanged,
and `Get 42` still finds `(1, 1)`. -/
theorem btree_duplicate_rejected_witness :
    BTree.insert btOne 42 (RID.mk 2 2) = (.error .dupKey, btOne) ∧
    BTree.get btOne 42 = .ok (RID.mk 1 1, true) :=
  btree_duplicate_rejected btOne [(42, RID.mk 1 1)] 42 (RID.mk 1 1)
    (RID.mk 2 2)
    (BReach.step btOpenFresh [] 42 (RID.mk 1 1) btOne BReach.init
      (by norm_num)
      (by show (1 : Nat) < 2 ^ 32; norm_num)
      (by show (1 : Nat) < 2 ^ 16; norm_num)
      insert_fresh_eq)
    (List.mem_singleton.mpr rfl)

end GengarDB
